import Mathlib

/-!
# Fooyin: scan request scheduler of `LibraryThreadHandler`

A shallow embedding of `src/core/library/librarythreadhandler.cpp`.

The handler owns a queue of scan requests (`m_scanRequests`), the id of the
request bound to the scan worker (`m_currentRequestId`) and two flags.  Every
member function is embedded as a pure function from the state before the call
to the state after it, together with the list of calls made on the scan worker
and of signals emitted, in program order.

Machine integers (`int`) are embedded as unbounded `Int`; the request id
counter is therefore an unbounded counter.  `QString` and `QUrl` are embedded
as `String`.
-/

namespace Fooyin

/-! ## Data model -/

/-- The enumeration `ScanRequest::Type`. -/
inductive ScanType where
  | Files
  | Tracks
  | Library
  | Playlist
  deriving DecidableEq

/-- A track; the handler only stores and forwards tracks, so a track is
represented by an identifying number. -/
structure Track where
  id : Int
  deriving DecidableEq

/-- The type `TrackList`. -/
abbrev TrackList := List Track

/-- The type `LibraryInfo`: the handler reads only its `id` member and copies
the rest. -/
structure LibraryInfo where
  name : String
  path : String
  id : Int
  deriving DecidableEq

/-- The struct `LibraryScanRequest` (source lines 55-64). -/
structure LibraryScanRequest where
  id : Int
  type : ScanType
  library : LibraryInfo
  dirs : List String
  files : List String
  tracks : TrackList
  onlyModified : Bool
  deriving DecidableEq

/-- The handle `ScanRequest` returned by the enqueue operations.  Its `cancel`
member is the closure `[this, id]() { cancelScanRequest(id); }`, embedded below
as `ScanRequest.cancel`. -/
structure ScanRequest where
  type : ScanType
  id : Int
  deriving DecidableEq

/-- The struct `ScanProgress` published by `progressChanged`. -/
structure ScanProgress where
  type : ScanType
  info : LibraryInfo
  id : Int
  total : Int
  current : Int
  file : String
  deriving DecidableEq

/-- The values of objects whose declarations live in headers outside the
embedded sources: a default-constructed `LibraryInfo` (the `library` member of
a request that never assigns it) and the `type` member of a `ScanProgress`
that `updateProgress` leaves unassigned.  They are parameters of the model. -/
structure Defaults where
  libraryInfo : LibraryInfo
  progressType : ScanType
  deriving DecidableEq

/-- What the handler does to the outside, in program order: the calls
`m_scanner.pauseThread()` and `m_scanner.stopThread()`, the calls of the
private forwarding methods `scanLibrary`, `scanTracks`, `scanFiles`,
`scanDirectory`, `scanPlaylist` (each posts the matching job to the scan
worker) and the emission of `progressChanged`. -/
inductive Signal where
  | pauseThread
  | stopThread
  | scanLibrary (request : LibraryScanRequest)
  | scanTracks (request : LibraryScanRequest)
  | scanFiles (request : LibraryScanRequest)
  | scanDirectory (request : LibraryScanRequest)
  | scanPlaylist (request : LibraryScanRequest)
  | progressChanged (progress : ScanProgress)
  deriving DecidableEq

/-- The scheduler part of `LibraryThreadHandlerPrivate` (source lines 109-112)
together with the function-local static `requestId` of `nextRequestId`. -/
structure State where
  m_scanRequests : List LibraryScanRequest
  m_currentRequestId : Int
  m_currentRequestFinished : Bool
  m_tracksAddedToLibrary : Bool
  requestId : Int
  deriving DecidableEq

/-- The state after construction: empty queue, `m_currentRequestId{-1}`, both
flags `false`, `requestId{0}`. -/
def State.initial : State :=
  { m_scanRequests := []
    m_currentRequestId := -1
    m_currentRequestFinished := false
    m_tracksAddedToLibrary := false
    requestId := 0 }

/-! ## Operations -/

/-- `nextRequestId` (source lines 47-51): `return requestId++`. -/
def nextRequestId (s : State) : Int × State :=
  (s.requestId, { s with requestId := s.requestId + 1 })

/-- `LibraryThreadHandlerPrivate::currentRequest` (source lines 309-317). -/
def currentRequest (s : State) : Option LibraryScanRequest :=
  s.m_scanRequests.find? (fun request => request.id == s.m_currentRequestId)

/-- The `switch` of `execNextRequest` (source lines 330-348): the forwarding
method called for a request. -/
def dispatchOf (request : LibraryScanRequest) : Signal :=
  match request.type with
  | ScanType.Files => Signal.scanFiles request
  | ScanType.Tracks => Signal.scanTracks request
  | ScanType.Library =>
      if request.dirs.isEmpty then Signal.scanLibrary request else Signal.scanDirectory request
  | ScanType.Playlist => Signal.scanPlaylist request

/-- `LibraryThreadHandlerPrivate::execNextRequest` (source lines 319-349). -/
def execNextRequest (s : State) : State × List Signal :=
  match s.m_scanRequests with
  | [] => (s, [])
  | request :: _ =>
      ({ s with
          m_currentRequestId := request.id
          m_currentRequestFinished := false
          m_tracksAddedToLibrary := false },
        [dispatchOf request])

/-- `LibraryThreadHandlerPrivate::addLibraryScanRequest` (source lines 177-198). -/
def addLibraryScanRequest (s : State) (libraryInfo : LibraryInfo) (onlyModified : Bool) :
    ScanRequest × State × List Signal :=
  let id := (nextRequestId s).1
  let s1 := (nextRequestId s).2
  let request : ScanRequest := { type := ScanType.Library, id := id }
  let libraryRequest : LibraryScanRequest :=
    { id := id, type := ScanType.Library, library := libraryInfo, dirs := [], files := [],
      tracks := [], onlyModified := onlyModified }
  let s2 := { s1 with m_scanRequests := s1.m_scanRequests ++ [libraryRequest] }
  if s2.m_scanRequests.length = 1 then
    (request, execNextRequest s2)
  else
    (request, s2, [])

/-- `LibraryThreadHandlerPrivate::addTracksScanRequest` (source lines 200-227). -/
def addTracksScanRequest (d : Defaults) (s : State) (tracks : TrackList) (onlyModified : Bool) :
    ScanRequest × State × List Signal :=
  let id := (nextRequestId s).1
  let s1 := (nextRequestId s).2
  let request : ScanRequest := { type := ScanType.Tracks, id := id }
  let libraryRequest : LibraryScanRequest :=
    { id := id, type := ScanType.Tracks, library := d.libraryInfo, dirs := [], files := [],
      tracks := tracks, onlyModified := onlyModified }
  let s2 := { s1 with m_scanRequests := libraryRequest :: s1.m_scanRequests }
  match currentRequest s2 with
  | some currRequest =>
      if currRequest.type = ScanType.Library then
        (request, (execNextRequest s2).1, Signal.pauseThread :: (execNextRequest s2).2)
      else if s2.m_scanRequests.length = 1 then
        (request, execNextRequest s2)
      else
        (request, s2, [])
  | none =>
      if s2.m_scanRequests.length = 1 then
        (request, execNextRequest s2)
      else
        (request, s2, [])

/-- `LibraryThreadHandlerPrivate::addFilesScanRequest` (source lines 229-255). -/
def addFilesScanRequest (d : Defaults) (s : State) (files : List String) :
    ScanRequest × State × List Signal :=
  let id := (nextRequestId s).1
  let s1 := (nextRequestId s).2
  let request : ScanRequest := { type := ScanType.Files, id := id }
  let libraryRequest : LibraryScanRequest :=
    { id := id, type := ScanType.Files, library := d.libraryInfo, dirs := [], files := files,
      tracks := [], onlyModified := true }
  let s2 := { s1 with m_scanRequests := libraryRequest :: s1.m_scanRequests }
  match currentRequest s2 with
  | some currRequest =>
      if currRequest.type = ScanType.Library ∨ currRequest.type = ScanType.Tracks then
        (request, (execNextRequest s2).1, Signal.pauseThread :: (execNextRequest s2).2)
      else if s2.m_scanRequests.length = 1 then
        (request, execNextRequest s2)
      else
        (request, s2, [])
  | none =>
      if s2.m_scanRequests.length = 1 then
        (request, execNextRequest s2)
      else
        (request, s2, [])

/-- `LibraryThreadHandlerPrivate::addDirectoryScanRequest` (source lines 257-279). -/
def addDirectoryScanRequest (s : State) (libraryInfo : LibraryInfo) (dirs : List String) :
    ScanRequest × State × List Signal :=
  let id := (nextRequestId s).1
  let s1 := (nextRequestId s).2
  let request : ScanRequest := { type := ScanType.Library, id := id }
  let libraryRequest : LibraryScanRequest :=
    { id := id, type := ScanType.Library, library := libraryInfo, dirs := dirs, files := [],
      tracks := [], onlyModified := true }
  let s2 := { s1 with m_scanRequests := s1.m_scanRequests ++ [libraryRequest] }
  if s2.m_scanRequests.length = 1 then
    (request, execNextRequest s2)
  else
    (request, s2, [])

/-- `LibraryThreadHandlerPrivate::addPlaylistRequest` (source lines 281-307). -/
def addPlaylistRequest (d : Defaults) (s : State) (files : List String) :
    ScanRequest × State × List Signal :=
  let id := (nextRequestId s).1
  let s1 := (nextRequestId s).2
  let request : ScanRequest := { type := ScanType.Playlist, id := id }
  let libraryRequest : LibraryScanRequest :=
    { id := id, type := ScanType.Playlist, library := d.libraryInfo, dirs := [], files := files,
      tracks := [], onlyModified := true }
  let s2 := { s1 with m_scanRequests := libraryRequest :: s1.m_scanRequests }
  match currentRequest s2 with
  | some currRequest =>
      if currRequest.type = ScanType.Library ∨ currRequest.type = ScanType.Tracks then
        (request, (execNextRequest s2).1, Signal.pauseThread :: (execNextRequest s2).2)
      else if s2.m_scanRequests.length = 1 then
        (request, execNextRequest s2)
      else
        (request, s2, [])
  | none =>
      if s2.m_scanRequests.length = 1 then
        (request, execNextRequest s2)
      else
        (request, s2, [])

/-- `LibraryThreadHandlerPrivate::updateProgress` (source lines 351-367). -/
def updateProgress (d : Defaults) (s : State) (current : Int) (file : String) (total : Int) :
    State × List Signal :=
  let progress : ScanProgress :=
    { type := d.progressType, info := d.libraryInfo, id := s.m_currentRequestId, total := total,
      current := current, file := file }
  match s.m_scanRequests with
  | [] => (s, [Signal.progressChanged progress])
  | request :: _ =>
      (s, [Signal.progressChanged { progress with type := request.type, info := request.library }])

/-- `LibraryThreadHandlerPrivate::finishScanRequest` (source lines 369-385). -/
def finishScanRequest (s : State) : State × List Signal :=
  match currentRequest s with
  | some request =>
      let s1 :=
        { s with
            m_scanRequests :=
              s.m_scanRequests.filter
                (fun pendingRequest => !(pendingRequest.id == s.m_currentRequestId))
            m_currentRequestFinished := true }
      if (request.type = ScanType.Files ∨ request.type = ScanType.Playlist)
          ∧ s1.m_tracksAddedToLibrary = false then
        (s1, [])
      else
        execNextRequest { s1 with m_currentRequestId := -1 }
  | none => execNextRequest { s with m_currentRequestId := -1 }

/-- `LibraryThreadHandlerPrivate::cancelScanRequest` (source lines 387-396). -/
def cancelScanRequest (s : State) (id : Int) : State × List Signal :=
  if s.m_currentRequestId = id then
    (s, [Signal.stopThread])
  else
    ({ s with m_scanRequests := s.m_scanRequests.filter (fun request => !(request.id == id)) }, [])

/-- The `cancel` member of a handle: `[this, id]() { cancelScanRequest(id); }`. -/
def ScanRequest.cancel (request : ScanRequest) (s : State) : State × List Signal :=
  cancelScanRequest s request.id

/-- The slot connected to `MusicLibrary::tracksScanned` (source lines 132-137). -/
def tracksScanned (s : State) : State × List Signal :=
  let s1 := { s with m_tracksAddedToLibrary := true }
  if s1.m_currentRequestFinished = true then execNextRequest s1 else (s1, [])

/-- `LibraryThreadHandler::libraryRemoved` (source lines 541-554). -/
def libraryRemoved (s : State) (id : Int) : State × List Signal :=
  if s.m_scanRequests.isEmpty then
    (s, [])
  else
    match currentRequest s with
    | some request =>
        if request.type = ScanType.Library ∧ request.library.id = id then
          (s, [Signal.stopThread])
        else
          ({ s with
              m_scanRequests :=
                s.m_scanRequests.filter
                  (fun pendingRequest => !(pendingRequest.library.id == id)) }, [])
    | none =>
        ({ s with
            m_scanRequests :=
              s.m_scanRequests.filter
                (fun pendingRequest => !(pendingRequest.library.id == id)) }, [])

/-! ## Executions -/

/-- Everything that can happen to the scheduler: the public enqueue operations
(`refreshLibrary`, `scanLibrary`, `scanTracks`, `scanFiles`, `loadPlaylist`),
the worker signal `directoriesChanged` (which enqueues a directory scan), the
worker signals `finished` and `progressChanged`, the library signal
`tracksScanned`, the `cancel` capability of a handle and `libraryRemoved`. -/
inductive Event where
  | refreshLibrary (library : LibraryInfo)
  | scanLibrary (library : LibraryInfo)
  | directoriesChanged (library : LibraryInfo) (dirs : List String)
  | scanTracks (tracks : TrackList) (onlyModified : Bool)
  | scanFiles (files : List String)
  | loadPlaylist (files : List String)
  | finished
  | progressChanged (current : Int) (file : String) (total : Int)
  | tracksScanned
  | cancel (id : Int)
  | libraryRemoved (id : Int)
  deriving DecidableEq

/-- One event handled by the scheduler (source lines 416-428 and 454-477). -/
def step (d : Defaults) (s : State) : Event → State × List Signal
  | Event.refreshLibrary library => (addLibraryScanRequest s library true).2
  | Event.scanLibrary library => (addLibraryScanRequest s library false).2
  | Event.directoriesChanged library dirs => (addDirectoryScanRequest s library dirs).2
  | Event.scanTracks tracks onlyModified => (addTracksScanRequest d s tracks onlyModified).2
  | Event.scanFiles files => (addFilesScanRequest d s files).2
  | Event.loadPlaylist files => (addPlaylistRequest d s files).2
  | Event.finished => finishScanRequest s
  | Event.progressChanged current file total => updateProgress d s current file total
  | Event.tracksScanned => tracksScanned s
  | Event.cancel id => cancelScanRequest s id
  | Event.libraryRemoved id => libraryRemoved s id

/-- The state after a sequence of events. -/
def run (d : Defaults) (s : State) : List Event → State
  | [] => s
  | e :: es => run d (step d s e).1 es

/-- All signals produced while handling a sequence of events, in order. -/
def trace (d : Defaults) (s : State) : List Event → List Signal
  | [] => []
  | e :: es => (step d s e).2 ++ trace d (step d s e).1 es

/-- States reachable from the constructed state by any sequence of events. -/
inductive Reachable (d : Defaults) : State → Prop where
  | initial : Reachable d State.initial
  | step {s : State} (h : Reachable d s) (e : Event) : Reachable d (step d s e).1

/-- A signal that starts a job on the scan worker. -/
def Signal.isDispatch : Signal → Bool
  | Signal.scanLibrary _ => true
  | Signal.scanTracks _ => true
  | Signal.scanFiles _ => true
  | Signal.scanDirectory _ => true
  | Signal.scanPlaylist _ => true
  | _ => false

/-- A library with id 1. -/
def lib1 : LibraryInfo := { name := "music", path := "/music", id := 1 }

/-- Sample defaults: a default-constructed library info has id -1. -/
def dflt : Defaults :=
  { libraryInfo := { name := "", path := "", id := -1 }, progressType := ScanType.Files }

/-! ## Notions used to state the properties -/

/-- The request carried by a signal that starts a job on the scan worker. -/
def Signal.request? : Signal → Option LibraryScanRequest
  | Signal.scanLibrary request => some request
  | Signal.scanTracks request => some request
  | Signal.scanFiles request => some request
  | Signal.scanDirectory request => some request
  | Signal.scanPlaylist request => some request
  | _ => none

/-- Every job started by an outcome is the job of the front request of the
resulting queue, which is then the current request. -/
def FrontDispatch (out : State × List Signal) : Prop :=
  ∀ sig ∈ out.2, ∀ r, sig.request? = some r →
    ∃ rest, out.1.m_scanRequests = r :: rest ∧ out.1.m_currentRequestId = r.id

/-- The queue entry built by `addLibraryScanRequest` (source lines 185-189). -/
def libraryRequest (id : Int) (libraryInfo : LibraryInfo) (onlyModified : Bool) :
    LibraryScanRequest :=
  { id := id, type := ScanType.Library, library := libraryInfo, dirs := [], files := [],
    tracks := [], onlyModified := onlyModified }

/-- The queue entry built by `addDirectoryScanRequest` (source lines 266-270). -/
def directoryRequest (id : Int) (libraryInfo : LibraryInfo) (dirs : List String) :
    LibraryScanRequest :=
  { id := id, type := ScanType.Library, library := libraryInfo, dirs := dirs, files := [],
    tracks := [], onlyModified := true }

/-- The queue entry built by `addTracksScanRequest` (source lines 208-212). -/
def tracksRequest (d : Defaults) (id : Int) (tracks : TrackList) (onlyModified : Bool) :
    LibraryScanRequest :=
  { id := id, type := ScanType.Tracks, library := d.libraryInfo, dirs := [], files := [],
    tracks := tracks, onlyModified := onlyModified }

/-- The queue entry built by `addFilesScanRequest` (source lines 237-240). -/
def filesRequest (d : Defaults) (id : Int) (files : List String) : LibraryScanRequest :=
  { id := id, type := ScanType.Files, library := d.libraryInfo, dirs := [], files := files,
    tracks := [], onlyModified := true }

/-- The queue entry built by `addPlaylistRequest` (source lines 289-292). -/
def playlistRequest (d : Defaults) (id : Int) (files : List String) : LibraryScanRequest :=
  { id := id, type := ScanType.Playlist, library := d.libraryInfo, dirs := [], files := files,
    tracks := [], onlyModified := true }

/-! ## Invariants of reachable states -/

/-- The order relation kept by the queue: a Library-type request is followed
only by Library-type requests with larger ids. -/
def LibOrder (a b : LibraryScanRequest) : Prop :=
  a.type = ScanType.Library → b.type = ScanType.Library ∧ a.id < b.id

/-- The invariant of the scheduler: ids in the queue and the current id lie
below the id counter, the counter is not negative, and Library-type requests
sit at the back of the queue in increasing id order. -/
structure Inv (s : State) : Prop where
  cnt_nonneg : 0 ≤ s.requestId
  ids_lt : ∀ x ∈ s.m_scanRequests, x.id < s.requestId
  cur_lt : s.m_currentRequestId < s.requestId
  lib_order : s.m_scanRequests.Pairwise LibOrder

/-- The events after which a deferred completion still holds the queue back:
progress events, `cancel`, `libraryRemoved`, and an enqueue operation handled
while the queue is not empty.  Finish events, tracks-ingested events and an
enqueue onto an empty queue are not among them. -/
def holdsBack (s : State) : Event → Bool
  | Event.finished => false
  | Event.tracksScanned => false
  | Event.progressChanged _ _ _ => true
  | Event.cancel _ => true
  | Event.libraryRemoved _ => true
  | Event.refreshLibrary _ => !s.m_scanRequests.isEmpty
  | Event.scanLibrary _ => !s.m_scanRequests.isEmpty
  | Event.directoriesChanged _ _ => !s.m_scanRequests.isEmpty
  | Event.scanTracks _ _ => !s.m_scanRequests.isEmpty
  | Event.scanFiles _ => !s.m_scanRequests.isEmpty
  | Event.loadPlaylist _ => !s.m_scanRequests.isEmpty

/-- Every event of the sequence, handled in turn from `s`, is one of those of
`holdsBack` in the state it is handled in. -/
def heldBack (d : Defaults) (s : State) : List Event → Bool
  | [] => true
  | e :: es => holdsBack s e && heldBack d (step d s e).1 es

/-! ## Handles and id uniqueness -/

/-- The handle returned to the caller by an enqueue operation; the other
events return nothing. -/
def handleOf (d : Defaults) (s : State) : Event → Option ScanRequest
  | Event.refreshLibrary library => some (addLibraryScanRequest s library true).1
  | Event.scanLibrary library => some (addLibraryScanRequest s library false).1
  | Event.directoriesChanged library dirs => some (addDirectoryScanRequest s library dirs).1
  | Event.scanTracks tracks onlyModified => some (addTracksScanRequest d s tracks onlyModified).1
  | Event.scanFiles files => some (addFilesScanRequest d s files).1
  | Event.loadPlaylist files => some (addPlaylistRequest d s files).1
  | _ => none

/-- No two requests in the queue carry the same id. -/
def UniqueIds (s : State) : Prop :=
  (s.m_scanRequests.map (fun request => request.id)).Nodup

/-! ## Write-back coalescer -/

/-- The Qt class `QBasicTimer`, as far as the handler uses it: `timerId()` is
the id of the running timer and 0 while the timer is not running. -/
structure QBasicTimer where
  timerId : Int
  deriving DecidableEq

/-- `QBasicTimer::isActive`. -/
def QBasicTimer.isActive (t : QBasicTimer) : Bool :=
  !(t.timerId == 0)

/-- `QBasicTimer::start`: a running timer is stopped and a new timer is
registered; `id` is the timer id handed out by the event dispatcher. -/
def QBasicTimer.start (_t : QBasicTimer) (id : Int) : QBasicTimer :=
  { timerId := id }

/-- `QBasicTimer::stop`. -/
def QBasicTimer.stop (_t : QBasicTimer) : QBasicTimer :=
  { timerId := 0 }

/-- The calls posted to `m_trackDatabaseManager` by `timerEvent` (source lines
560-576): `updateTracks(tracks, flag)` and `updateTrackStats(tracks, flag)`. -/
inductive DbCall where
  | updateTracks (tracks : TrackList) (flag : Bool)
  | updateTrackStats (tracks : TrackList) (flag : Bool)
  deriving DecidableEq

/-- The write-back part of `LibraryThreadHandlerPrivate` (source lines 102-107). -/
structure WriteBack where
  m_writeTimer : QBasicTimer
  m_tracksPendingWrite : TrackList
  m_updateTimer : QBasicTimer
  m_tracksPendingUpdate : TrackList
  m_playcountTimer : QBasicTimer
  m_tracksPendingPlaycountUpdate : TrackList
  deriving DecidableEq

/-- The write-back state after construction: no timer runs, nothing is pending. -/
def WriteBack.initial : WriteBack :=
  { m_writeTimer := { timerId := 0 }
    m_tracksPendingWrite := []
    m_updateTimer := { timerId := 0 }
    m_tracksPendingUpdate := []
    m_playcountTimer := { timerId := 0 }
    m_tracksPendingPlaycountUpdate := [] }

/-- `LibraryThreadHandler::writeUpdatedTracks` (source lines 485-496); `id` is
the timer id handed out by `m_writeTimer.start`. The returned `WriteRequest`
only wraps a call of `stopThread` on the database manager and is left out. -/
def writeUpdatedTracks (w : WriteBack) (tracks : TrackList) (id : Int) : WriteBack :=
  { w with
    m_tracksPendingWrite := w.m_tracksPendingWrite ++ tracks
    m_writeTimer := w.m_writeTimer.start id }

/-- `LibraryThreadHandler::saveUpdatedTrackStats` (source lines 511-515). -/
def saveUpdatedTrackStats (w : WriteBack) (tracks : TrackList) (id : Int) : WriteBack :=
  { w with
    m_tracksPendingUpdate := w.m_tracksPendingUpdate ++ tracks
    m_updateTimer := w.m_updateTimer.start id }

/-- `LibraryThreadHandler::saveUpdatedTrackPlaycounts` (source lines 517-521). -/
def saveUpdatedTrackPlaycounts (w : WriteBack) (tracks : TrackList) (id : Int) : WriteBack :=
  { w with
    m_tracksPendingPlaycountUpdate := w.m_tracksPendingPlaycountUpdate ++ tracks
    m_playcountTimer := w.m_playcountTimer.start id }

/-- `LibraryThreadHandler::timerEvent` (source lines 556-581); `id` is
`event->timerId()`. -/
def timerEvent (w : WriteBack) (id : Int) : WriteBack × List DbCall :=
  if id = w.m_writeTimer.timerId then
    ({ w with m_writeTimer := w.m_writeTimer.stop, m_tracksPendingWrite := [] },
      [DbCall.updateTracks w.m_tracksPendingWrite true])
  else if id = w.m_updateTimer.timerId then
    ({ w with m_updateTimer := w.m_updateTimer.stop, m_tracksPendingUpdate := [] },
      [DbCall.updateTrackStats w.m_tracksPendingUpdate false])
  else if id = w.m_playcountTimer.timerId then
    ({ w with m_playcountTimer := w.m_playcountTimer.stop, m_tracksPendingPlaycountUpdate := [] },
      [DbCall.updateTrackStats w.m_tracksPendingPlaycountUpdate true])
  else
    (w, [])

/-- The three write-back channels. -/
inductive Channel where
  | metadata
  | stats
  | playcounts
  deriving DecidableEq

/-- The timer of a channel. -/
def WriteBack.timer (w : WriteBack) : Channel → QBasicTimer
  | Channel.metadata => w.m_writeTimer
  | Channel.stats => w.m_updateTimer
  | Channel.playcounts => w.m_playcountTimer

/-- The pending buffer of a channel. -/
def WriteBack.pending (w : WriteBack) : Channel → TrackList
  | Channel.metadata => w.m_tracksPendingWrite
  | Channel.stats => w.m_tracksPendingUpdate
  | Channel.playcounts => w.m_tracksPendingPlaycountUpdate

/-- Staging into a channel: the staging operation of that channel. -/
def stage (w : WriteBack) (c : Channel) (tracks : TrackList) (id : Int) : WriteBack :=
  match c with
  | Channel.metadata => writeUpdatedTracks w tracks id
  | Channel.stats => saveUpdatedTrackStats w tracks id
  | Channel.playcounts => saveUpdatedTrackPlaycounts w tracks id

/-- A burst: staging calls into one channel, one after the other, each with its
track list and the timer id handed out for it. -/
def stageAll (c : Channel) (w : WriteBack) : List (TrackList × Int) → WriteBack
  | [] => w
  | p :: ps => stageAll c (stage w c p.1 p.2) ps

/-- The track lists of a burst, concatenated in staging order. -/
def batchOf : List (TrackList × Int) → TrackList
  | [] => []
  | p :: ps => p.1 ++ batchOf ps

/-- The persistence-worker call that flushes a channel. -/
def flushCall : Channel → TrackList → DbCall
  | Channel.metadata, batch => DbCall.updateTracks batch true
  | Channel.stats, batch => DbCall.updateTrackStats batch false
  | Channel.playcounts, batch => DbCall.updateTrackStats batch true

/-- What the event dispatcher guarantees for a timer id handed out to channel
`c`: it is not 0 and it is not the id of the timer of another channel. -/
def FreshTimerId (w : WriteBack) (c : Channel) (id : Int) : Prop :=
  id ≠ 0 ∧ ∀ c2 : Channel, c2 ≠ c → (w.timer c2).timerId ≠ id

/-! ## Executions of one write-back channel -/

/-- What happens to one write-back channel: a staging call with its track list
and the timer id handed out for it, or the expiry of the channel's timer. -/
inductive ChannelEvent where
  | stage (tracks : TrackList) (id : Int)
  | expiry
  deriving DecidableEq

/-- One event of channel `c`: the staging operation of the channel, or
`timerEvent` with the id of the channel's timer. -/
def channelStep (c : Channel) (w : WriteBack) : ChannelEvent → WriteBack × List DbCall
  | ChannelEvent.stage tracks id => (stage w c tracks id, [])
  | ChannelEvent.expiry => timerEvent w (w.timer c).timerId

/-- The write-back state after a sequence of events of channel `c`. -/
def channelRun (c : Channel) (w : WriteBack) : List ChannelEvent → WriteBack
  | [] => w
  | e :: es => channelRun c (channelStep c w e).1 es

/-- The calls handed to the persistence worker during a sequence of events of
channel `c`, in order. -/
def channelCalls (c : Channel) (w : WriteBack) : List ChannelEvent → List DbCall
  | [] => []
  | e :: es => (channelStep c w e).2 ++ channelCalls c (channelStep c w e).1 es

/-- The batch carried by a call. -/
def DbCall.batch : DbCall → TrackList
  | DbCall.updateTracks tracks _ => tracks
  | DbCall.updateTrackStats tracks _ => tracks

/-- The batches of a list of calls, concatenated in call order. -/
def batchesOf : List DbCall → TrackList
  | [] => []
  | call :: calls => call.batch ++ batchesOf calls

/-- The track lists staged by a sequence of events, concatenated in call order. -/
def stagedOf : List ChannelEvent → TrackList
  | [] => []
  | ChannelEvent.stage tracks _ :: es => tracks ++ stagedOf es
  | ChannelEvent.expiry :: es => stagedOf es

/-- The timer of channel `c` is told apart from the timers of the other
channels by its id. -/
def OwnTimerId (w : WriteBack) (c : Channel) : Prop :=
  ∀ c2 : Channel, c2 ≠ c → (w.timer c2).timerId ≠ (w.timer c).timerId

/-- What the event dispatcher guarantees along a sequence of events of channel
`c`: every timer id handed out is fresh, and an expiring timer is told apart
from the timers of the other channels by its id. -/
def WellTimed (c : Channel) (w : WriteBack) : List ChannelEvent → Prop
  | [] => True
  | ChannelEvent.stage tracks id :: es =>
      FreshTimerId w c id ∧ WellTimed c (stage w c tracks id) es
  | ChannelEvent.expiry :: es =>
      OwnTimerId w c ∧ WellTimed c (timerEvent w (w.timer c).timerId).1 es

/-! ## Notions for the absence of a silent stall -/

/-- The current request id belongs to a queued request. -/
def HasCurrent (s : State) : Prop :=
  ∃ x ∈ s.m_scanRequests, x.id = s.m_currentRequestId

/-- If the queue is not empty, the current request id belongs to a queued
request or the request-finished flag is set. -/
def NoStall (s : State) : Prop :=
  s.m_scanRequests ≠ [] → HasCurrent s ∨ s.m_currentRequestFinished = true

/-- Every queued request that is not Library-type carries the
default-constructed library info. -/
def CarriesDefault (d : Defaults) (s : State) : Prop :=
  ∀ x ∈ s.m_scanRequests, x.type ≠ ScanType.Library → x.library = d.libraryInfo

/-- The event is not `libraryRemoved` called with the id of the
default-constructed library info. -/
def avoidsDefault (d : Defaults) : Event → Prop
  | Event.libraryRemoved id => id ≠ d.libraryInfo.id
  | _ => True

/-! ## ReplayGain memory cache (`rgscanmemorycache.cpp`)

`qint64` values are embedded as unbounded `Int`; in the states considered all
values stay between 0 and 2 GiB plus one request size, so no 64-bit
operation of the source wraps. -/

/-- `MaxCacheBytes` (source line 33): 2 GiB. -/
def MaxCacheBytes : Int := 2 * 1024 * 1024 * 1024

/-- `MaxMemoryCacheRatio` (`rgscannerdefs.h` line 43). -/
def MaxMemoryCacheRatio : Int := 90

/-- `std::clamp(v, lo, hi)`. -/
def clamp (v lo hi : Int) : Int :=
  if v < lo then lo else if hi < v then hi else v

/-- The data members of `MemoryCache`. -/
structure MemoryCache where
  m_limitBytes : Int
  m_reservedBytes : Int
  m_enabled : Bool
  m_ratio : Int
  deriving DecidableEq

/-- The member initialisers of the constructor (source lines 36-41). -/
def MemoryCache.constructed : MemoryCache :=
  { m_limitBytes := 0, m_reservedBytes := 0, m_enabled := false, m_ratio := 0 }

/-- `MemoryCache::updateConfig` (source lines 57-82). `totalRam` is the value
returned by `totalSystemMemory()`, and `scaled` is the `qint64` obtained from
the `long double` computation `totalRam * m_ratio / 100.0L`; being floating
point, that value is not computed here but taken as it comes. -/
def MemoryCache.updateConfig (m : MemoryCache) (enabled : Bool) (ratio : Int) (totalRam : Nat)
    (scaled : Int) : MemoryCache :=
  if enabled = false ∨ ratio ≤ 0 then
    { m_enabled := enabled, m_ratio := 0, m_limitBytes := 0, m_reservedBytes := 0 }
  else
    let ratio1 := clamp ratio 1 MaxMemoryCacheRatio
    let limit := if totalRam > 0 then scaled else (8 * 1024 * 1024 * 1024) * ratio1 / 100
    let limitBytes := clamp limit 0 MaxCacheBytes
    { m_enabled := enabled, m_ratio := ratio1, m_limitBytes := limitBytes,
      m_reservedBytes := min m.m_reservedBytes limitBytes }

/-- `MemoryCache::release` (source lines 121-129). -/
def MemoryCache.release (m : MemoryCache) (size : Int) : MemoryCache :=
  if size ≤ 0 then m
  else { m with m_reservedBytes := max 0 (m.m_reservedBytes - size) }

/-- `MemoryCache::tryReserve` (source lines 131-147): the returned flag and the
state after the call. -/
def MemoryCache.tryReserve (m : MemoryCache) (size : Int) : Bool × MemoryCache :=
  if m.m_enabled = false ∨ m.m_limitBytes ≤ 0 then (false, m)
  else if size > m.m_limitBytes then (false, m)
  else if m.m_reservedBytes + size > m.m_limitBytes then (false, m)
  else (true, { m with m_reservedBytes := m.m_reservedBytes + size })

/-- The operations on the memory cache. -/
inductive CacheOp where
  | updateConfig (enabled : Bool) (ratio : Int) (totalRam : Nat) (scaled : Int)
  | tryReserve (size : Int)
  | release (size : Int)
  deriving DecidableEq

/-- One operation on the memory cache. -/
def cacheStep (m : MemoryCache) : CacheOp → MemoryCache
  | CacheOp.updateConfig enabled ratio totalRam scaled =>
      m.updateConfig enabled ratio totalRam scaled
  | CacheOp.tryReserve size => (m.tryReserve size).2
  | CacheOp.release size => m.release size

/-- The cache after a sequence of operations. -/
def cacheRun (m : MemoryCache) : List CacheOp → MemoryCache
  | [] => m
  | op :: ops => cacheRun (cacheStep m op) ops

/-- The operation is not `tryReserve` with a size that is not positive. -/
def CacheOp.positive : CacheOp → Prop
  | CacheOp.tryReserve size => 0 < size
  | _ => True

/-- The accounting invariant of the memory cache. -/
structure CacheInv (m : MemoryCache) : Prop where
  reserved_nonneg : 0 ≤ m.m_reservedBytes
  reserved_le : m.m_reservedBytes ≤ m.m_limitBytes
  limit_le : m.m_limitBytes ≤ MaxCacheBytes
  off : m.m_enabled = false ∨ m.m_ratio ≤ 0 → m.m_limitBytes = 0 ∧ m.m_reservedBytes = 0

/-! ## Log model (`logmodel.cpp`) -/

/-- A console entry, as far as the model uses it: `addEntry` and `addEntries`
read `message` and may assign `category` and `message`. -/
structure ConsoleEntry where
  category : String
  message : String
  deriving DecidableEq

/-- The data members of `LogModel`: the stored entries, oldest first, and
`m_maxEntries`. -/
structure LogModel where
  m_items : List ConsoleEntry
  m_maxEntries : Int
  deriving DecidableEq

/-- The model after construction (source lines 70-73). -/
def LogModel.constructed : LogModel :=
  { m_items := [], m_maxEntries := 0 }

/-- `LogModel::addEntry` (source lines 75-94). `split` is the effect of the
regular expression match on an entry: category and message are replaced by
the two captures when the message matches, and the entry is left alone
otherwise. -/
def LogModel.addEntry (split : ConsoleEntry → ConsoleEntry) (m : LogModel)
    (entry : ConsoleEntry) : LogModel :=
  let items :=
    if m.m_maxEntries > 0 ∧ (m.m_items.length : Int) ≥ m.m_maxEntries then m.m_items.tail
    else m.m_items
  { m with m_items := items ++ [split entry] }

/-- `LogModel::addEntries` (source lines 96-136). -/
def LogModel.addEntries (split : ConsoleEntry → ConsoleEntry) (m : LogModel)
    (entries : List ConsoleEntry) : LogModel :=
  if entries = [] then m
  else
    let entries1 := entries.map split
    let availableSpace : Int :=
      if m.m_maxEntries > 0 then max 0 (m.m_maxEntries - (m.m_items.length : Int))
      else (entries1.length : Int)
    let entries2 :=
      if m.m_maxEntries > 0 ∧ (entries1.length : Int) > availableSpace then
        entries1.drop ((entries1.length : Int) - availableSpace).toNat
      else entries1
    let totalAfterInsert : Int := ((m.m_items.length + entries2.length : Nat) : Int)
    let items :=
      if m.m_maxEntries > 0 ∧ totalAfterInsert > m.m_maxEntries then
        m.m_items.drop (totalAfterInsert - m.m_maxEntries).toNat
      else m.m_items
    { m with m_items := items ++ entries2 }

/-- `LogModel::setMaxEntries` (source lines 138-148). -/
def LogModel.setMaxEntries (m : LogModel) (maxEntries : Int) : LogModel :=
  if maxEntries > 0 ∧ (m.m_items.length : Int) ≥ maxEntries then
    { m_maxEntries := maxEntries,
      m_items := m.m_items.drop ((m.m_items.length : Int) - maxEntries).toNat }
  else
    { m with m_maxEntries := maxEntries }

/-- The insertions into the log model. -/
inductive LogOp where
  | addEntry (entry : ConsoleEntry)
  | addEntries (entries : List ConsoleEntry)
  deriving DecidableEq

/-- One insertion. -/
def logStep (split : ConsoleEntry → ConsoleEntry) (m : LogModel) : LogOp → LogModel
  | LogOp.addEntry entry => m.addEntry split entry
  | LogOp.addEntries entries => m.addEntries split entries

/-- The model after a sequence of insertions. -/
def logRun (split : ConsoleEntry → ConsoleEntry) (m : LogModel) : List LogOp → LogModel
  | [] => m
  | op :: ops => logRun split (logStep split m op) ops

/-- Calling `addEntry` on each entry of a list, in order. -/
def addEach (split : ConsoleEntry → ConsoleEntry) (m : LogModel) : List ConsoleEntry → LogModel
  | [] => m
  | entry :: entries => addEach split (m.addEntry split entry) entries

/-! ## EBU R 128 scanner: scan by album tags (`ebur128scanner.cpp`)

The handling of the albums runs in the thread of the scanner object: a scan
of one album is started, and the slot connected to the `finished` signal of
its watcher starts the next. The embedding follows that control flow; the
loudness analysis itself (floating point, run in a thread pool) is taken as a
function of the environment. -/

/-- What the scanner takes from its collaborators: the album key that the
group script yields for a track (`m_parser.evaluate(groupScript, track)`), the
tracks of an album as they are once its scan has completed and the album gain
and peak have been assigned, and the value of `mayRun()`. -/
structure RGEnv where
  evaluate : Track → String
  scanned : TrackList → TrackList
  mayRun : Bool

/-- The signals of the scanner. -/
inductive RGSignal where
  | calculationFinished (tracks : TrackList)
  | finished
  deriving DecidableEq

/-- The data members of `Ebur128Scanner` used by the scan by album tags;
`m_albums` is a map from album key to tracks, kept as a list of entries, and
`m_currentAlbum` is the position of that iterator in it. -/
structure Ebur128Scanner where
  m_albums : List (String × TrackList)
  m_currentAlbum : Nat
  m_tracks : TrackList
  m_scannedTracks : TrackList
  m_runningWatchers : Int
  deriving DecidableEq

/-- The scanner after construction (source lines 63-69): no albums, no
running watchers. -/
def Ebur128Scanner.constructed : Ebur128Scanner :=
  { m_albums := [], m_currentAlbum := 0, m_tracks := [], m_scannedTracks := [],
    m_runningWatchers := 0 }

/-- `m_albums[album].push_back(track)` (source line 192). The entries are kept
in the order in which their keys were first inserted; the container of the
source iterates them in its own key order, so the order in which the albums
are scanned and listed may differ from the order here. The number of albums,
the running-watcher counter and the signals emitted do not depend on that
order. -/
def addToAlbum (album : String) (track : Track) :
    List (String × TrackList) → List (String × TrackList)
  | [] => [(album, [track])]
  | entry :: rest =>
      if entry.1 = album then (entry.1, entry.2 ++ [track]) :: rest
      else entry :: addToAlbum album track rest

/-- The tracks of all albums, album after album (source lines 297-299). -/
def albumTracks : List (String × TrackList) → TrackList
  | [] => []
  | entry :: rest => entry.2 ++ albumTracks rest

/-- `Ebur128Scanner::scanAlbum` (source lines 294-358), up to the start of the
album scan: either the end of the albums is reached and the completion
signals are emitted, or the scan of the current album is started and the
running-watcher counter is incremented. -/
def scanAlbum (env : RGEnv) (s : Ebur128Scanner) : Ebur128Scanner × List RGSignal :=
  if s.m_currentAlbum = s.m_albums.length then
    let scannedTracks :=
      if env.mayRun then s.m_scannedTracks ++ albumTracks s.m_albums else s.m_scannedTracks
    let first := if env.mayRun then [RGSignal.calculationFinished scannedTracks] else []
    let second := if s.m_runningWatchers ≤ 1 then [RGSignal.finished] else []
    ({ s with m_scannedTracks := scannedTracks, m_runningWatchers := s.m_runningWatchers - 1 },
      first ++ second)
  else
    ({ s with
        m_tracks := (s.m_albums.getD s.m_currentAlbum ("", [])).2
        m_runningWatchers := s.m_runningWatchers + 1 }, [])

/-- The album entries with the tracks of the entry at position `i` replaced. -/
def setAlbumTracks :
    List (String × TrackList) → Nat → TrackList → List (String × TrackList)
  | [], _, _ => []
  | entry :: rest, 0, tracks => (entry.1, tracks) :: rest
  | entry :: rest, i + 1, tracks => entry :: setAlbumTracks rest i tracks

/-- The slot connected to `QFutureWatcher::finished` of an album scan (source
lines 324-354): the tracks of the current album carry their results, the
iterator is advanced and `scanAlbum` is called. -/
def albumFinished (env : RGEnv) (s : Ebur128Scanner) : Ebur128Scanner × List RGSignal :=
  scanAlbum env
    { s with
      m_albums :=
        setAlbumTracks s.m_albums s.m_currentAlbum
          (env.scanned (s.m_albums.getD s.m_currentAlbum ("", [])).2)
      m_currentAlbum := s.m_currentAlbum + 1 }

/-- `Ebur128Scanner::calculateByAlbumTags` (source lines 184-197). -/
def calculateByAlbumTags (env : RGEnv) (s : Ebur128Scanner) (tracks : TrackList) :
    Ebur128Scanner × List RGSignal :=
  scanAlbum env
    { s with
      m_albums := tracks.foldl (fun albums track => addToAlbum (env.evaluate track) track albums)
        s.m_albums
      m_currentAlbum := 0 }

/-- The completion of `n` album scans, one after the other, with the signals
emitted so far. -/
def finishAlbums (env : RGEnv) :
    Nat → Ebur128Scanner × List RGSignal → Ebur128Scanner × List RGSignal
  | 0, r => r
  | n + 1, r => finishAlbums env n ((albumFinished env r.1).1, r.2 ++ (albumFinished env r.1).2)

/-- The whole scan by album tags on a given scanner: `calculateByAlbumTags`
followed by the completion of the scan of every album. -/
def scanByAlbumTags (env : RGEnv) (s : Ebur128Scanner) (tracks : TrackList) :
    Ebur128Scanner × List RGSignal :=
  finishAlbums env (calculateByAlbumTags env s tracks).1.m_albums.length
    (calculateByAlbumTags env s tracks)

/-! ## Playlist populator (`playlistpopulator.cpp`) -/

/-- A track of a playlist. -/
structure PlaylistTrack where
  track : Track
  indexInPlaylist : Int
  deriving DecidableEq

/-- The part of the populator that `runBatch` drives: the pending tracks, the
calls of `iterateTrack` made so far (track and index, in call order) and the
batches emitted with `populated` so far (each with the tracks it covers and
their indices). -/
structure Populator where
  m_pendingTracks : List PlaylistTrack
  iterated : List (PlaylistTrack × Int)
  populated : List (List (PlaylistTrack × Int))
  deriving DecidableEq

/-- The tracks of a batch with the indices given to them by `index++`. -/
def indexFrom : Int → List PlaylistTrack → List (PlaylistTrack × Int)
  | _, [] => []
  | index, track :: tracks => (track, index) :: indexFrom (index + 1) tracks

/-- `PlaylistPopulatorPrivate::runBatch` (source lines 312-387) with `mayRun()`
constant. The recursion of the source is embedded with a fuel counter;
`none` means that the fuel ran out before the function returned. -/
def runBatch (mayRun : Bool) (m_preloadCount : Int) :
    Nat → Populator → Int → Int → Option Populator
  | 0, _, _, _ => none
  | fuel + 1, p, size, index =>
      if size ≤ 0 then some p
      else if mayRun = false then some p
      else
        let tracksBatch := p.m_pendingTracks.take size.toNat
        let p1 : Populator :=
          { m_pendingTracks := p.m_pendingTracks.drop size.toNat
            iterated := p.iterated ++ indexFrom index tracksBatch
            populated := p.populated ++ [indexFrom index tracksBatch] }
        let remaining : Int := (p1.m_pendingTracks.length : Int)
        if remaining > 0 then
          let nextBatchSize := if m_preloadCount > 0 then min m_preloadCount remaining else remaining
          runBatch mayRun m_preloadCount fuel p1 nextBatchSize (index + (tracksBatch.length : Int))
        else some p1

/-- `PlaylistPopulator::run` (source lines 482-503), as far as the tracks are
concerned: the pending tracks are set and the first batch is run. -/
def PlaylistPopulator.run (mayRun : Bool) (m_preloadCount : Int) (fuel : Nat)
    (tracks : List PlaylistTrack) : Option Populator :=
  let preloadCount := if m_preloadCount > 0 then m_preloadCount else (tracks.length : Int)
  runBatch mayRun m_preloadCount fuel
    { m_pendingTracks := tracks, iterated := [], populated := [] } preloadCount 0

/-! ## Events between an enqueue and the next finish event -/

/-- The events that reach the scheduler without a caller: the tracks-ingested
signal of the library and the progress signal of the scan worker. -/
def Event.isNotification : Event → Bool
  | Event.tracksScanned => true
  | Event.progressChanged _ _ _ => true
  | _ => false

/-! # Properties -/

/-! ## The invariant is kept by every operation -/

theorem inv_initial : Inv State.initial := by
  refine ⟨?_, ?_, ?_, ?_⟩
  · decide
  · intro x hx; cases hx
  · decide
  · exact List.Pairwise.nil

theorem execNextRequest_queue (s : State) :
    (execNextRequest s).1.m_scanRequests = s.m_scanRequests := by
  unfold execNextRequest
  cases h : s.m_scanRequests <;> simp [h]

theorem execNextRequest_requestId (s : State) :
    (execNextRequest s).1.requestId = s.requestId := by
  unfold execNextRequest
  cases h : s.m_scanRequests <;> simp

theorem execNextRequest_cons (s : State) (r : LibraryScanRequest) (q : List LibraryScanRequest)
    (h : s.m_scanRequests = r :: q) :
    execNextRequest s =
      ({ s with
          m_currentRequestId := r.id
          m_currentRequestFinished := false
          m_tracksAddedToLibrary := false }, [dispatchOf r]) := by
  unfold execNextRequest
  simp [h]

theorem execNextRequest_nil (s : State) (h : s.m_scanRequests = []) :
    execNextRequest s = (s, []) := by
  unfold execNextRequest
  simp [h]

theorem inv_execNextRequest {s : State} (h : Inv s) : Inv (execNextRequest s).1 := by
  cases hq : s.m_scanRequests with
  | nil => rw [execNextRequest_nil s hq]; exact h
  | cons r q =>
    rw [execNextRequest_cons s r q hq]
    refine ⟨h.cnt_nonneg, h.ids_lt, ?_, h.lib_order⟩
    exact h.ids_lt r (by simp [hq])

/-- Appending a Library-type request that carries the next id keeps the invariant. -/
theorem inv_pushBack {s : State} (h : Inv s) (r : LibraryScanRequest)
    (hid : r.id = s.requestId) (hty : r.type = ScanType.Library) :
    Inv { s with m_scanRequests := s.m_scanRequests ++ [r], requestId := s.requestId + 1 } := by
  refine ⟨?_, ?_, ?_, ?_⟩
  · have := h.cnt_nonneg
    show (0 : Int) ≤ s.requestId + 1
    omega
  · intro x hx
    show x.id < s.requestId + 1
    rcases List.mem_append.1 hx with hx | hx
    · have := h.ids_lt x hx; omega
    · simp at hx; subst hx; omega
  · have := h.cur_lt
    show s.m_currentRequestId < s.requestId + 1
    omega
  · show (s.m_scanRequests ++ [r]).Pairwise LibOrder
    rw [List.pairwise_append]
    refine ⟨h.lib_order, List.pairwise_singleton _ _, ?_⟩
    intro a ha b hb _
    simp at hb; subst hb
    exact ⟨hty, by have := h.ids_lt a ha; omega⟩

/-- Prepending a request that is not Library-type and carries the next id keeps
the invariant. -/
theorem inv_pushFront {s : State} (h : Inv s) (r : LibraryScanRequest)
    (hid : r.id = s.requestId) (hty : r.type ≠ ScanType.Library) :
    Inv { s with m_scanRequests := r :: s.m_scanRequests, requestId := s.requestId + 1 } := by
  refine ⟨?_, ?_, ?_, ?_⟩
  · have := h.cnt_nonneg
    show (0 : Int) ≤ s.requestId + 1
    omega
  · intro x hx
    show x.id < s.requestId + 1
    rcases List.mem_cons.1 hx with hx | hx
    · subst hx; omega
    · have := h.ids_lt x hx; omega
  · have := h.cur_lt
    show s.m_currentRequestId < s.requestId + 1
    omega
  · show (r :: s.m_scanRequests).Pairwise LibOrder
    rw [List.pairwise_cons]
    exact ⟨fun a _ hl => absurd hl hty, h.lib_order⟩

theorem currentRequest_cons_fresh (s : State) (x : LibraryScanRequest) (c : Int)
    (hx : x.id ≠ s.m_currentRequestId) :
    currentRequest { s with m_scanRequests := x :: s.m_scanRequests, requestId := c }
      = currentRequest s := by
  have hb : (x.id == s.m_currentRequestId) = false := by simpa using hx
  simp [currentRequest, List.find?, hb]

theorem currentRequest_mem {s : State} {r : LibraryScanRequest} (h : currentRequest s = some r) :
    r ∈ s.m_scanRequests ∧ r.id = s.m_currentRequestId := by
  unfold currentRequest at h
  refine ⟨List.mem_of_find?_eq_some h, ?_⟩
  have := List.find?_some h
  simpa using this

theorem currentRequest_ne_nil {s : State} {r : LibraryScanRequest}
    (h : currentRequest s = some r) : s.m_scanRequests ≠ [] := by
  intro hq
  have := (currentRequest_mem h).1
  rw [hq] at this
  cases this

/-- Preempting enqueue of a track rescan, as an equation. -/
theorem addTracksScanRequest_preempt (d : Defaults) (s : State) (tracks : TrackList)
    (onlyModified : Bool) (r : LibraryScanRequest) (hinv : Inv s)
    (hc : currentRequest s = some r) (hty : r.type = ScanType.Library) :
    addTracksScanRequest d s tracks onlyModified =
      ({ type := ScanType.Tracks, id := s.requestId },
        { m_scanRequests := tracksRequest d s.requestId tracks onlyModified :: s.m_scanRequests
          m_currentRequestId := s.requestId
          m_currentRequestFinished := false
          m_tracksAddedToLibrary := false
          requestId := s.requestId + 1 },
        [Signal.pauseThread, Signal.scanTracks (tracksRequest d s.requestId tracks onlyModified)])
      := by
  have hne : s.requestId ≠ s.m_currentRequestId := by have := hinv.cur_lt; omega
  have h2 := currentRequest_cons_fresh s (tracksRequest d s.requestId tracks onlyModified)
    (s.requestId + 1) hne
  rw [hc] at h2
  unfold tracksRequest at h2 ⊢
  unfold addTracksScanRequest
  simp only [nextRequestId]
  rw [h2]
  simp [hty, execNextRequest, dispatchOf]

/-- Preempting enqueue of a file scan, as an equation. -/
theorem addFilesScanRequest_preempt (d : Defaults) (s : State) (files : List String)
    (r : LibraryScanRequest) (hinv : Inv s) (hc : currentRequest s = some r)
    (hty : r.type = ScanType.Library ∨ r.type = ScanType.Tracks) :
    addFilesScanRequest d s files =
      ({ type := ScanType.Files, id := s.requestId },
        { m_scanRequests := filesRequest d s.requestId files :: s.m_scanRequests
          m_currentRequestId := s.requestId
          m_currentRequestFinished := false
          m_tracksAddedToLibrary := false
          requestId := s.requestId + 1 },
        [Signal.pauseThread, Signal.scanFiles (filesRequest d s.requestId files)]) := by
  have hne : s.requestId ≠ s.m_currentRequestId := by have := hinv.cur_lt; omega
  have h2 := currentRequest_cons_fresh s (filesRequest d s.requestId files)
    (s.requestId + 1) hne
  rw [hc] at h2
  unfold filesRequest at h2 ⊢
  unfold addFilesScanRequest
  simp only [nextRequestId]
  rw [h2]
  simp [hty, execNextRequest, dispatchOf]

/-- Preempting enqueue of a playlist import, as an equation. -/
theorem addPlaylistRequest_preempt (d : Defaults) (s : State) (files : List String)
    (r : LibraryScanRequest) (hinv : Inv s) (hc : currentRequest s = some r)
    (hty : r.type = ScanType.Library ∨ r.type = ScanType.Tracks) :
    addPlaylistRequest d s files =
      ({ type := ScanType.Playlist, id := s.requestId },
        { m_scanRequests := playlistRequest d s.requestId files :: s.m_scanRequests
          m_currentRequestId := s.requestId
          m_currentRequestFinished := false
          m_tracksAddedToLibrary := false
          requestId := s.requestId + 1 },
        [Signal.pauseThread, Signal.scanPlaylist (playlistRequest d s.requestId files)]) := by
  have hne : s.requestId ≠ s.m_currentRequestId := by have := hinv.cur_lt; omega
  have h2 := currentRequest_cons_fresh s (playlistRequest d s.requestId files)
    (s.requestId + 1) hne
  rw [hc] at h2
  unfold playlistRequest at h2 ⊢
  unfold addPlaylistRequest
  simp only [nextRequestId]
  rw [h2]
  simp [hty, execNextRequest, dispatchOf]

/-- The current request of a state whose current id is the id of the front. -/
theorem currentRequest_front (q : List LibraryScanRequest) (x : LibraryScanRequest)
    (a b : Bool) (c : Int) :
    currentRequest
        { m_scanRequests := x :: q, m_currentRequestId := x.id, m_currentRequestFinished := a,
          m_tracksAddedToLibrary := b, requestId := c } = some x := by
  simp [currentRequest, List.find?]

/-- After the current id has been filtered out of the queue nothing is current. -/
theorem currentRequest_filter_none (q : List LibraryScanRequest) (cur : Int) (a b : Bool)
    (c : Int) :
    currentRequest
        { m_scanRequests := q.filter (fun pendingRequest => !(pendingRequest.id == cur)),
          m_currentRequestId := cur, m_currentRequestFinished := a,
          m_tracksAddedToLibrary := b, requestId := c } = none := by
  simp [currentRequest, List.find?_eq_none]

/-- Deferred completion, as an equation. -/
theorem finishScanRequest_deferred (s : State) (r : LibraryScanRequest)
    (hc : currentRequest s = some r)
    (hty : r.type = ScanType.Files ∨ r.type = ScanType.Playlist)
    (hflag : s.m_tracksAddedToLibrary = false) :
    finishScanRequest s =
      ({ s with
          m_scanRequests :=
            s.m_scanRequests.filter
              (fun pendingRequest => !(pendingRequest.id == s.m_currentRequestId))
          m_currentRequestFinished := true }, []) := by
  unfold finishScanRequest
  rw [hc]
  simp [hty, hflag]

/-- Immediate completion, as an equation. -/
theorem finishScanRequest_immediate (s : State) (r : LibraryScanRequest)
    (hc : currentRequest s = some r)
    (hty : (r.type = ScanType.Library ∨ r.type = ScanType.Tracks)
      ∨ s.m_tracksAddedToLibrary = true) :
    finishScanRequest s =
      execNextRequest
        { s with
          m_scanRequests :=
            s.m_scanRequests.filter
              (fun pendingRequest => !(pendingRequest.id == s.m_currentRequestId))
          m_currentRequestId := -1
          m_currentRequestFinished := true } := by
  unfold finishScanRequest
  rw [hc]
  dsimp only
  rw [if_neg]
  rintro ⟨h1, h2⟩
  rcases hty with (h | h) | h
  · rw [h] at h1; simp at h1
  · rw [h] at h1; simp at h1
  · rw [h] at h2; simp at h2

/-- A finish event with no queued current request, as an equation. -/
theorem finishScanRequest_none (s : State) (hc : currentRequest s = none) :
    finishScanRequest s = execNextRequest { s with m_currentRequestId := -1 } := by
  unfold finishScanRequest
  rw [hc]

/-- Ids in the queue differ from the next id. -/
theorem filter_fresh {s : State} (hinv : Inv s) :
    s.m_scanRequests.filter (fun pendingRequest => !(pendingRequest.id == s.requestId))
      = s.m_scanRequests := by
  rw [List.filter_eq_self]
  intro x hx
  have := hinv.ids_lt x hx
  have hne : x.id ≠ s.requestId := by omega
  simpa using hne

/-- The queue after a finish event handled while a queued request is current. -/
theorem finishScanRequest_queue (s : State) (r : LibraryScanRequest)
    (hc : currentRequest s = some r) :
    (finishScanRequest s).1.m_scanRequests
      = s.m_scanRequests.filter
          (fun pendingRequest => !(pendingRequest.id == s.m_currentRequestId)) := by
  unfold finishScanRequest
  rw [hc]
  dsimp only
  split
  · rfl
  · rw [execNextRequest_queue]

/-- The three possible outcomes of `addTracksScanRequest`. -/
theorem addTracksScanRequest_cases (d : Defaults) (s : State) (tracks : TrackList)
    (onlyModified : Bool) :
    ∃ s2 : State,
      s2 = { s with
              m_scanRequests :=
                { id := s.requestId, type := ScanType.Tracks, library := d.libraryInfo,
                  dirs := [], files := [], tracks := tracks, onlyModified := onlyModified }
                  :: s.m_scanRequests
              requestId := s.requestId + 1 } ∧
      ((addTracksScanRequest d s tracks onlyModified).2 = (s2, []) ∨
        (addTracksScanRequest d s tracks onlyModified).2 = execNextRequest s2 ∨
        (addTracksScanRequest d s tracks onlyModified).2
          = ((execNextRequest s2).1, Signal.pauseThread :: (execNextRequest s2).2)) := by
  refine ⟨_, rfl, ?_⟩
  unfold addTracksScanRequest
  simp only [nextRequestId]
  split
  · split
    · exact Or.inr (Or.inr rfl)
    · split
      · exact Or.inr (Or.inl rfl)
      · exact Or.inl rfl
  · split
    · exact Or.inr (Or.inl rfl)
    · exact Or.inl rfl

/-- The three possible outcomes of `addFilesScanRequest`. -/
theorem addFilesScanRequest_cases (d : Defaults) (s : State) (files : List String) :
    ∃ s2 : State,
      s2 = { s with
              m_scanRequests :=
                { id := s.requestId, type := ScanType.Files, library := d.libraryInfo,
                  dirs := [], files := files, tracks := [], onlyModified := true }
                  :: s.m_scanRequests
              requestId := s.requestId + 1 } ∧
      ((addFilesScanRequest d s files).2 = (s2, []) ∨
        (addFilesScanRequest d s files).2 = execNextRequest s2 ∨
        (addFilesScanRequest d s files).2
          = ((execNextRequest s2).1, Signal.pauseThread :: (execNextRequest s2).2)) := by
  refine ⟨_, rfl, ?_⟩
  unfold addFilesScanRequest
  simp only [nextRequestId]
  split
  · split
    · exact Or.inr (Or.inr rfl)
    · split
      · exact Or.inr (Or.inl rfl)
      · exact Or.inl rfl
  · split
    · exact Or.inr (Or.inl rfl)
    · exact Or.inl rfl

/-- The three possible outcomes of `addPlaylistRequest`. -/
theorem addPlaylistRequest_cases (d : Defaults) (s : State) (files : List String) :
    ∃ s2 : State,
      s2 = { s with
              m_scanRequests :=
                { id := s.requestId, type := ScanType.Playlist, library := d.libraryInfo,
                  dirs := [], files := files, tracks := [], onlyModified := true }
                  :: s.m_scanRequests
              requestId := s.requestId + 1 } ∧
      ((addPlaylistRequest d s files).2 = (s2, []) ∨
        (addPlaylistRequest d s files).2 = execNextRequest s2 ∨
        (addPlaylistRequest d s files).2
          = ((execNextRequest s2).1, Signal.pauseThread :: (execNextRequest s2).2)) := by
  refine ⟨_, rfl, ?_⟩
  unfold addPlaylistRequest
  simp only [nextRequestId]
  split
  · split
    · exact Or.inr (Or.inr rfl)
    · split
      · exact Or.inr (Or.inl rfl)
      · exact Or.inl rfl
  · split
    · exact Or.inr (Or.inl rfl)
    · exact Or.inl rfl

/-- The two possible outcomes of `addLibraryScanRequest`. -/
theorem addLibraryScanRequest_cases (s : State) (libraryInfo : LibraryInfo) (onlyModified : Bool) :
    ∃ s2 : State,
      s2 = { s with
              m_scanRequests :=
                s.m_scanRequests ++
                  [{ id := s.requestId, type := ScanType.Library, library := libraryInfo,
                     dirs := [], files := [], tracks := [], onlyModified := onlyModified }]
              requestId := s.requestId + 1 } ∧
      (((addLibraryScanRequest s libraryInfo onlyModified).2 = (s2, []) ∧ s.m_scanRequests ≠ []) ∨
        ((addLibraryScanRequest s libraryInfo onlyModified).2 = execNextRequest s2
          ∧ s.m_scanRequests = [])) := by
  refine ⟨_, rfl, ?_⟩
  unfold addLibraryScanRequest
  simp only [nextRequestId]
  split
  · next h =>
    refine Or.inr ⟨rfl, ?_⟩
    simpa using h
  · next h =>
    refine Or.inl ⟨rfl, ?_⟩
    intro hq
    apply h
    simp [hq]

/-- The two possible outcomes of `addDirectoryScanRequest`. -/
theorem addDirectoryScanRequest_cases (s : State) (libraryInfo : LibraryInfo)
    (dirs : List String) :
    ∃ s2 : State,
      s2 = { s with
              m_scanRequests :=
                s.m_scanRequests ++
                  [{ id := s.requestId, type := ScanType.Library, library := libraryInfo,
                     dirs := dirs, files := [], tracks := [], onlyModified := true }]
              requestId := s.requestId + 1 } ∧
      (((addDirectoryScanRequest s libraryInfo dirs).2 = (s2, []) ∧ s.m_scanRequests ≠ []) ∨
        ((addDirectoryScanRequest s libraryInfo dirs).2 = execNextRequest s2
          ∧ s.m_scanRequests = [])) := by
  refine ⟨_, rfl, ?_⟩
  unfold addDirectoryScanRequest
  simp only [nextRequestId]
  split
  · next h =>
    refine Or.inr ⟨rfl, ?_⟩
    simpa using h
  · next h =>
    refine Or.inl ⟨rfl, ?_⟩
    intro hq
    apply h
    simp [hq]

/-- The invariant is inherited by a state with the same counter, a sub-queue
and a current id below the counter. -/
theorem Inv.mono {s t : State} (h : Inv s) (hc : t.requestId = s.requestId)
    (hq : t.m_scanRequests.Sublist s.m_scanRequests)
    (hcur : t.m_currentRequestId < t.requestId) : Inv t := by
  refine ⟨?_, ?_, hcur, h.lib_order.sublist hq⟩
  · rw [hc]; exact h.cnt_nonneg
  · intro x hx
    rw [hc]
    exact h.ids_lt x (hq.subset hx)

theorem inv_finishScanRequest {s : State} (h : Inv s) : Inv (finishScanRequest s).1 := by
  have hneg : (-1 : Int) < s.requestId := by have := h.cnt_nonneg; omega
  unfold finishScanRequest
  split
  · dsimp only
    split
    · exact h.mono rfl (List.filter_sublist _) h.cur_lt
    · apply inv_execNextRequest
      exact h.mono rfl (List.filter_sublist _) hneg
  · apply inv_execNextRequest
    exact h.mono rfl (List.Sublist.refl _) hneg

theorem inv_cancelScanRequest {s : State} (h : Inv s) (id : Int) :
    Inv (cancelScanRequest s id).1 := by
  unfold cancelScanRequest
  split
  · exact h
  · exact h.mono rfl (List.filter_sublist _) h.cur_lt

theorem inv_libraryRemoved {s : State} (h : Inv s) (id : Int) :
    Inv (libraryRemoved s id).1 := by
  unfold libraryRemoved
  split
  · exact h
  · split
    · split
      · exact h
      · exact h.mono rfl (List.filter_sublist _) h.cur_lt
    · exact h.mono rfl (List.filter_sublist _) h.cur_lt

theorem inv_tracksScanned {s : State} (h : Inv s) : Inv (tracksScanned s).1 := by
  unfold tracksScanned
  dsimp only
  split
  · apply inv_execNextRequest
    exact h.mono rfl (List.Sublist.refl _) h.cur_lt
  · exact h.mono rfl (List.Sublist.refl _) h.cur_lt

theorem inv_updateProgress {s : State} (h : Inv s) (d : Defaults) (current : Int)
    (file : String) (total : Int) : Inv (updateProgress d s current file total).1 := by
  unfold updateProgress
  split <;> exact h

theorem inv_step {s : State} (h : Inv s) (d : Defaults) (e : Event) : Inv (step d s e).1 := by
  cases e with
  | refreshLibrary library =>
    obtain ⟨s2, hs2, hc⟩ := addLibraryScanRequest_cases s library true
    have h2 : Inv s2 := by rw [hs2]; exact inv_pushBack h _ rfl rfl
    show Inv (addLibraryScanRequest s library true).2.1
    rcases hc with ⟨hc, _⟩ | ⟨hc, _⟩ <;> rw [hc]
    · exact h2
    · exact inv_execNextRequest h2
  | scanLibrary library =>
    obtain ⟨s2, hs2, hc⟩ := addLibraryScanRequest_cases s library false
    have h2 : Inv s2 := by rw [hs2]; exact inv_pushBack h _ rfl rfl
    show Inv (addLibraryScanRequest s library false).2.1
    rcases hc with ⟨hc, _⟩ | ⟨hc, _⟩ <;> rw [hc]
    · exact h2
    · exact inv_execNextRequest h2
  | directoriesChanged library dirs =>
    obtain ⟨s2, hs2, hc⟩ := addDirectoryScanRequest_cases s library dirs
    have h2 : Inv s2 := by rw [hs2]; exact inv_pushBack h _ rfl rfl
    show Inv (addDirectoryScanRequest s library dirs).2.1
    rcases hc with ⟨hc, _⟩ | ⟨hc, _⟩ <;> rw [hc]
    · exact h2
    · exact inv_execNextRequest h2
  | scanTracks tracks onlyModified =>
    obtain ⟨s2, hs2, hc⟩ := addTracksScanRequest_cases d s tracks onlyModified
    have h2 : Inv s2 := by rw [hs2]; exact inv_pushFront h _ rfl (by simp)
    show Inv (addTracksScanRequest d s tracks onlyModified).2.1
    rcases hc with hc | hc | hc <;> rw [hc]
    · exact h2
    · exact inv_execNextRequest h2
    · exact inv_execNextRequest h2
  | scanFiles files =>
    obtain ⟨s2, hs2, hc⟩ := addFilesScanRequest_cases d s files
    have h2 : Inv s2 := by rw [hs2]; exact inv_pushFront h _ rfl (by simp)
    show Inv (addFilesScanRequest d s files).2.1
    rcases hc with hc | hc | hc <;> rw [hc]
    · exact h2
    · exact inv_execNextRequest h2
    · exact inv_execNextRequest h2
  | loadPlaylist files =>
    obtain ⟨s2, hs2, hc⟩ := addPlaylistRequest_cases d s files
    have h2 : Inv s2 := by rw [hs2]; exact inv_pushFront h _ rfl (by simp)
    show Inv (addPlaylistRequest d s files).2.1
    rcases hc with hc | hc | hc <;> rw [hc]
    · exact h2
    · exact inv_execNextRequest h2
    · exact inv_execNextRequest h2
  | finished => exact inv_finishScanRequest h
  | progressChanged current file total => exact inv_updateProgress h d current file total
  | tracksScanned => exact inv_tracksScanned h
  | cancel id => exact inv_cancelScanRequest h id
  | libraryRemoved id => exact inv_libraryRemoved h id

theorem reachable_inv {d : Defaults} {s : State} (h : Reachable d s) : Inv s := by
  induction h with
  | initial => exact inv_initial
  | step _ e ih => exact inv_step ih d e

theorem reachable_run {d : Defaults} {s : State} (h : Reachable d s) (es : List Event) :
    Reachable d (run d s es) := by
  induction es generalizing s with
  | nil => exact h
  | cons e es ih => exact ih (Reachable.step h e)

/-! ## Every dispatch is of the front request -/

theorem request?_dispatchOf (r : LibraryScanRequest) : (dispatchOf r).request? = some r := by
  unfold dispatchOf
  split
  · rfl
  · rfl
  · split <;> rfl
  · rfl

theorem frontDispatch_nil (s : State) : FrontDispatch (s, []) := by
  intro sig hsig
  cases hsig

theorem frontDispatch_exec (s : State) : FrontDispatch (execNextRequest s) := by
  cases hq : s.m_scanRequests with
  | nil => rw [execNextRequest_nil s hq]; exact frontDispatch_nil s
  | cons r q =>
    rw [execNextRequest_cons s r q hq]
    intro sig hsig x hx
    simp only [List.mem_singleton] at hsig
    rw [hsig, request?_dispatchOf] at hx
    cases hx
    exact ⟨q, hq, rfl⟩

theorem frontDispatch_pause {out : State × List Signal} (h : FrontDispatch out) :
    FrontDispatch (out.1, Signal.pauseThread :: out.2) := by
  intro sig hsig x hx
  rcases List.mem_cons.1 hsig with hsig | hsig
  · rw [hsig] at hx; cases hx
  · exact h sig hsig x hx

theorem frontDispatch_step (d : Defaults) (s : State) (e : Event) :
    FrontDispatch (step d s e) := by
  cases e with
  | refreshLibrary library =>
    obtain ⟨s2, _, hc⟩ := addLibraryScanRequest_cases s library true
    show FrontDispatch (addLibraryScanRequest s library true).2
    rcases hc with ⟨hc, _⟩ | ⟨hc, _⟩ <;> rw [hc]
    · exact frontDispatch_nil _
    · exact frontDispatch_exec _
  | scanLibrary library =>
    obtain ⟨s2, _, hc⟩ := addLibraryScanRequest_cases s library false
    show FrontDispatch (addLibraryScanRequest s library false).2
    rcases hc with ⟨hc, _⟩ | ⟨hc, _⟩ <;> rw [hc]
    · exact frontDispatch_nil _
    · exact frontDispatch_exec _
  | directoriesChanged library dirs =>
    obtain ⟨s2, _, hc⟩ := addDirectoryScanRequest_cases s library dirs
    show FrontDispatch (addDirectoryScanRequest s library dirs).2
    rcases hc with ⟨hc, _⟩ | ⟨hc, _⟩ <;> rw [hc]
    · exact frontDispatch_nil _
    · exact frontDispatch_exec _
  | scanTracks tracks onlyModified =>
    obtain ⟨s2, _, hc⟩ := addTracksScanRequest_cases d s tracks onlyModified
    show FrontDispatch (addTracksScanRequest d s tracks onlyModified).2
    rcases hc with hc | hc | hc <;> rw [hc]
    · exact frontDispatch_nil _
    · exact frontDispatch_exec _
    · exact frontDispatch_pause (frontDispatch_exec _)
  | scanFiles files =>
    obtain ⟨s2, _, hc⟩ := addFilesScanRequest_cases d s files
    show FrontDispatch (addFilesScanRequest d s files).2
    rcases hc with hc | hc | hc <;> rw [hc]
    · exact frontDispatch_nil _
    · exact frontDispatch_exec _
    · exact frontDispatch_pause (frontDispatch_exec _)
  | loadPlaylist files =>
    obtain ⟨s2, _, hc⟩ := addPlaylistRequest_cases d s files
    show FrontDispatch (addPlaylistRequest d s files).2
    rcases hc with hc | hc | hc <;> rw [hc]
    · exact frontDispatch_nil _
    · exact frontDispatch_exec _
    · exact frontDispatch_pause (frontDispatch_exec _)
  | finished =>
    show FrontDispatch (finishScanRequest s)
    unfold finishScanRequest
    split
    · dsimp only
      split
      · exact frontDispatch_nil _
      · exact frontDispatch_exec _
    · exact frontDispatch_exec _
  | progressChanged current file total =>
    show FrontDispatch (updateProgress d s current file total)
    unfold updateProgress
    split <;>
    · intro sig hsig x hx
      simp only [List.mem_singleton] at hsig
      rw [hsig] at hx
      cases hx
  | tracksScanned =>
    show FrontDispatch (tracksScanned s)
    unfold tracksScanned
    dsimp only
    split
    · exact frontDispatch_exec _
    · exact frontDispatch_nil _
  | cancel id =>
    show FrontDispatch (cancelScanRequest s id)
    unfold cancelScanRequest
    split
    · intro sig hsig x hx
      simp only [List.mem_singleton] at hsig
      rw [hsig] at hx
      cases hx
    · exact frontDispatch_nil _
  | libraryRemoved id =>
    show FrontDispatch (libraryRemoved s id)
    have hstop : FrontDispatch (s, [Signal.stopThread]) := by
      intro sig hsig x hx
      simp only [List.mem_singleton] at hsig
      rw [hsig] at hx
      cases hx
    unfold libraryRemoved
    split
    · exact frontDispatch_nil _
    · split
      · split
        · exact hstop
        · exact frontDispatch_nil _
      · exact frontDispatch_nil _

/-! ## States without a current request -/

theorem currentRequest_eq_none_iff (s : State) :
    currentRequest s = none ↔ ∀ x ∈ s.m_scanRequests, x.id ≠ s.m_currentRequestId := by
  unfold currentRequest
  rw [List.find?_eq_none]
  constructor
  · intro h x hx
    simpa using h x hx
  · intro h x hx
    simpa using h x hx

/-- With no current request and a non-empty queue, a front enqueue only inserts. -/
theorem addTracksScanRequest_idle (d : Defaults) (s : State) (tracks : TrackList)
    (onlyModified : Bool) (hinv : Inv s) (hc : currentRequest s = none)
    (hq : s.m_scanRequests ≠ []) :
    (addTracksScanRequest d s tracks onlyModified).2 =
      ({ s with
          m_scanRequests := tracksRequest d s.requestId tracks onlyModified :: s.m_scanRequests
          requestId := s.requestId + 1 }, []) := by
  have hne : s.requestId ≠ s.m_currentRequestId := by have := hinv.cur_lt; omega
  have h2 := currentRequest_cons_fresh s (tracksRequest d s.requestId tracks onlyModified)
    (s.requestId + 1) hne
  rw [hc] at h2
  unfold tracksRequest at h2 ⊢
  unfold addTracksScanRequest
  simp only [nextRequestId]
  rw [h2]
  simp [hq]

theorem addFilesScanRequest_idle (d : Defaults) (s : State) (files : List String)
    (hinv : Inv s) (hc : currentRequest s = none) (hq : s.m_scanRequests ≠ []) :
    (addFilesScanRequest d s files).2 =
      ({ s with
          m_scanRequests := filesRequest d s.requestId files :: s.m_scanRequests
          requestId := s.requestId + 1 }, []) := by
  have hne : s.requestId ≠ s.m_currentRequestId := by have := hinv.cur_lt; omega
  have h2 := currentRequest_cons_fresh s (filesRequest d s.requestId files)
    (s.requestId + 1) hne
  rw [hc] at h2
  unfold filesRequest at h2 ⊢
  unfold addFilesScanRequest
  simp only [nextRequestId]
  rw [h2]
  simp [hq]

theorem addPlaylistRequest_idle (d : Defaults) (s : State) (files : List String)
    (hinv : Inv s) (hc : currentRequest s = none) (hq : s.m_scanRequests ≠ []) :
    (addPlaylistRequest d s files).2 =
      ({ s with
          m_scanRequests := playlistRequest d s.requestId files :: s.m_scanRequests
          requestId := s.requestId + 1 }, []) := by
  have hne : s.requestId ≠ s.m_currentRequestId := by have := hinv.cur_lt; omega
  have h2 := currentRequest_cons_fresh s (playlistRequest d s.requestId files)
    (s.requestId + 1) hne
  rw [hc] at h2
  unfold playlistRequest at h2 ⊢
  unfold addPlaylistRequest
  simp only [nextRequestId]
  rw [h2]
  simp [hq]

theorem noDispatch_nil : ∀ sig ∈ ([] : List Signal), sig.isDispatch = false :=
  fun _ hsig => nomatch hsig

/-- An event of `holdsBack`, handled with no current request, dispatches
nothing and leaves the scheduler without a current request. -/
theorem holdsBack_step (d : Defaults) (s : State) (e : Event) (hinv : Inv s)
    (hc : currentRequest s = none) (he : holdsBack s e = true) :
    (∀ sig ∈ (step d s e).2, sig.isDispatch = false) ∧ currentRequest (step d s e).1 = none := by
  have hall := (currentRequest_eq_none_iff s).1 hc
  have hne : s.m_currentRequestId ≠ s.requestId := by have := hinv.cur_lt; omega
  have hback : ∀ x : LibraryScanRequest, x.id = s.requestId →
      currentRequest { s with m_scanRequests := s.m_scanRequests ++ [x],
                              requestId := s.requestId + 1 } = none := by
    intro x hx
    rw [currentRequest_eq_none_iff]
    intro y hy
    rcases List.mem_append.1 hy with hy | hy
    · exact hall y hy
    · simp only [List.mem_singleton] at hy
      rw [hy, hx]
      exact fun h => hne h.symm
  have hfront : ∀ x : LibraryScanRequest, x.id = s.requestId →
      currentRequest { s with m_scanRequests := x :: s.m_scanRequests,
                              requestId := s.requestId + 1 } = none := by
    intro x hx
    rw [currentRequest_cons_fresh s x _ (by rw [hx]; exact fun h => hne h.symm)]
    exact hc
  have hfilter : ∀ p : LibraryScanRequest → Bool,
      currentRequest { s with m_scanRequests := s.m_scanRequests.filter p } = none := by
    intro p
    rw [currentRequest_eq_none_iff]
    intro y hy
    exact hall y (List.mem_of_mem_filter hy)
  cases e with
  | refreshLibrary library =>
    have hq : s.m_scanRequests ≠ [] := by simpa [holdsBack] using he
    obtain ⟨s2, hs2, hcase⟩ := addLibraryScanRequest_cases s library true
    show (∀ sig ∈ (addLibraryScanRequest s library true).2.2, sig.isDispatch = false)
      ∧ currentRequest (addLibraryScanRequest s library true).2.1 = none
    rcases hcase with ⟨h1, _⟩ | ⟨_, h2⟩
    · rw [h1, hs2]
      exact ⟨noDispatch_nil, hback _ rfl⟩
    · exact absurd h2 hq
  | scanLibrary library =>
    have hq : s.m_scanRequests ≠ [] := by simpa [holdsBack] using he
    obtain ⟨s2, hs2, hcase⟩ := addLibraryScanRequest_cases s library false
    show (∀ sig ∈ (addLibraryScanRequest s library false).2.2, sig.isDispatch = false)
      ∧ currentRequest (addLibraryScanRequest s library false).2.1 = none
    rcases hcase with ⟨h1, _⟩ | ⟨_, h2⟩
    · rw [h1, hs2]
      exact ⟨noDispatch_nil, hback _ rfl⟩
    · exact absurd h2 hq
  | directoriesChanged library dirs =>
    have hq : s.m_scanRequests ≠ [] := by simpa [holdsBack] using he
    obtain ⟨s2, hs2, hcase⟩ := addDirectoryScanRequest_cases s library dirs
    show (∀ sig ∈ (addDirectoryScanRequest s library dirs).2.2, sig.isDispatch = false)
      ∧ currentRequest (addDirectoryScanRequest s library dirs).2.1 = none
    rcases hcase with ⟨h1, _⟩ | ⟨_, h2⟩
    · rw [h1, hs2]
      exact ⟨noDispatch_nil, hback _ rfl⟩
    · exact absurd h2 hq
  | scanTracks tracks onlyModified =>
    have hq : s.m_scanRequests ≠ [] := by simpa [holdsBack] using he
    show (∀ sig ∈ (addTracksScanRequest d s tracks onlyModified).2.2, sig.isDispatch = false)
      ∧ currentRequest (addTracksScanRequest d s tracks onlyModified).2.1 = none
    rw [addTracksScanRequest_idle d s tracks onlyModified hinv hc hq]
    exact ⟨noDispatch_nil, hfront _ rfl⟩
  | scanFiles files =>
    have hq : s.m_scanRequests ≠ [] := by simpa [holdsBack] using he
    show (∀ sig ∈ (addFilesScanRequest d s files).2.2, sig.isDispatch = false)
      ∧ currentRequest (addFilesScanRequest d s files).2.1 = none
    rw [addFilesScanRequest_idle d s files hinv hc hq]
    exact ⟨noDispatch_nil, hfront _ rfl⟩
  | loadPlaylist files =>
    have hq : s.m_scanRequests ≠ [] := by simpa [holdsBack] using he
    show (∀ sig ∈ (addPlaylistRequest d s files).2.2, sig.isDispatch = false)
      ∧ currentRequest (addPlaylistRequest d s files).2.1 = none
    rw [addPlaylistRequest_idle d s files hinv hc hq]
    exact ⟨noDispatch_nil, hfront _ rfl⟩
  | finished => simp [holdsBack] at he
  | tracksScanned => simp [holdsBack] at he
  | progressChanged current file total =>
    show (∀ sig ∈ (updateProgress d s current file total).2, sig.isDispatch = false)
      ∧ currentRequest (updateProgress d s current file total).1 = none
    unfold updateProgress
    split
    · refine ⟨?_, hc⟩
      intro sig hsig
      simp only [List.mem_singleton] at hsig
      rw [hsig]; rfl
    · refine ⟨?_, hc⟩
      intro sig hsig
      simp only [List.mem_singleton] at hsig
      rw [hsig]; rfl
  | cancel id =>
    show (∀ sig ∈ (cancelScanRequest s id).2, sig.isDispatch = false)
      ∧ currentRequest (cancelScanRequest s id).1 = none
    unfold cancelScanRequest
    split
    · refine ⟨?_, hc⟩
      intro sig hsig
      simp only [List.mem_singleton] at hsig
      rw [hsig]; rfl
    · exact ⟨noDispatch_nil, hfilter _⟩
  | libraryRemoved id =>
    show (∀ sig ∈ (libraryRemoved s id).2, sig.isDispatch = false)
      ∧ currentRequest (libraryRemoved s id).1 = none
    unfold libraryRemoved
    rw [hc]
    split
    · exact ⟨noDispatch_nil, hc⟩
    · exact ⟨noDispatch_nil, hfilter _⟩

/-- A sequence of events of `holdsBack`, handled with no current request,
dispatches nothing. -/
theorem heldBack_trace (d : Defaults) (es : List Event) :
    ∀ s : State, Inv s → currentRequest s = none → heldBack d s es = true →
      ∀ sig ∈ trace d s es, sig.isDispatch = false := by
  induction es with
  | nil =>
    intro s _ _ _ sig hsig
    cases hsig
  | cons e es ih =>
    intro s hinv hc hh sig hsig
    simp only [heldBack, Bool.and_eq_true] at hh
    have hstep := holdsBack_step d s e hinv hc hh.1
    simp only [trace, List.mem_append] at hsig
    rcases hsig with hsig | hsig
    · exact hstep.1 sig hsig
    · exact ih (step d s e).1 (inv_step hinv d e) hstep.2 hh.2 sig hsig

/-! ## Preemption on enqueue -/

/-- C1. Preemption on enqueue: in every reachable state whose current request
`r` is of a strictly lower tier than the new request (Library-type for
`scanTracks`; Library-type or Tracks for `scanFiles` and `loadPlaylist`), the
enqueue operation calls `pauseThread` on the scan worker, puts the new request
at the front of the queue, makes it the current request and dispatches it, and
the preempted request `r` is still in the queue. -/
theorem preemption_on_enqueue (d : Defaults) (s : State) (r : LibraryScanRequest)
    (hs : Reachable d s) (hc : currentRequest s = some r) :
    (r.type = ScanType.Library → ∀ (tracks : TrackList) (onlyModified : Bool),
        (addTracksScanRequest d s tracks onlyModified).2.2
            = [Signal.pauseThread,
                Signal.scanTracks (tracksRequest d s.requestId tracks onlyModified)]
          ∧ (addTracksScanRequest d s tracks onlyModified).2.1.m_scanRequests
            = tracksRequest d s.requestId tracks onlyModified :: s.m_scanRequests
          ∧ currentRequest (addTracksScanRequest d s tracks onlyModified).2.1
            = some (tracksRequest d s.requestId tracks onlyModified)
          ∧ r ∈ (addTracksScanRequest d s tracks onlyModified).2.1.m_scanRequests)
    ∧ ((r.type = ScanType.Library ∨ r.type = ScanType.Tracks) → ∀ files : List String,
        ((addFilesScanRequest d s files).2.2
            = [Signal.pauseThread, Signal.scanFiles (filesRequest d s.requestId files)]
          ∧ (addFilesScanRequest d s files).2.1.m_scanRequests
            = filesRequest d s.requestId files :: s.m_scanRequests
          ∧ currentRequest (addFilesScanRequest d s files).2.1
            = some (filesRequest d s.requestId files)
          ∧ r ∈ (addFilesScanRequest d s files).2.1.m_scanRequests)
        ∧ ((addPlaylistRequest d s files).2.2
            = [Signal.pauseThread, Signal.scanPlaylist (playlistRequest d s.requestId files)]
          ∧ (addPlaylistRequest d s files).2.1.m_scanRequests
            = playlistRequest d s.requestId files :: s.m_scanRequests
          ∧ currentRequest (addPlaylistRequest d s files).2.1
            = some (playlistRequest d s.requestId files)
          ∧ r ∈ (addPlaylistRequest d s files).2.1.m_scanRequests)) := by
  have hinv := reachable_inv hs
  have hmem := (currentRequest_mem hc).1
  refine ⟨?_, ?_⟩
  · intro hty tracks onlyModified
    rw [addTracksScanRequest_preempt d s tracks onlyModified r hinv hc hty]
    refine ⟨rfl, rfl, ?_, List.mem_cons_of_mem _ hmem⟩
    exact currentRequest_front s.m_scanRequests (tracksRequest d s.requestId tracks onlyModified)
      false false (s.requestId + 1)
  · intro hty files
    rw [addFilesScanRequest_preempt d s files r hinv hc hty,
      addPlaylistRequest_preempt d s files r hinv hc hty]
    refine ⟨⟨rfl, rfl, ?_, List.mem_cons_of_mem _ hmem⟩, ⟨rfl, rfl, ?_, List.mem_cons_of_mem _ hmem⟩⟩
    · exact currentRequest_front s.m_scanRequests (filesRequest d s.requestId files)
        false false (s.requestId + 1)
    · exact currentRequest_front s.m_scanRequests (playlistRequest d s.requestId files)
        false false (s.requestId + 1)

/-- Witness for C1: a library scan of library 1 is current; a track rescan and
a file scan each preempt it. -/
theorem preemption_on_enqueue_witness :
    currentRequest (step dflt State.initial (Event.scanLibrary lib1)).1
        = some (libraryRequest 0 lib1 false)
      ∧ (addTracksScanRequest dflt (step dflt State.initial (Event.scanLibrary lib1)).1
            [{ id := 7 }] true).2.2
          = [Signal.pauseThread, Signal.scanTracks (tracksRequest dflt 1 [{ id := 7 }] true)]
      ∧ (addFilesScanRequest dflt (step dflt State.initial (Event.scanLibrary lib1)).1
            ["f1"]).2.1.m_scanRequests
          = [filesRequest dflt 1 ["f1"], libraryRequest 0 lib1 false] :=
  ⟨rfl,
    ((preemption_on_enqueue dflt (step dflt State.initial (Event.scanLibrary lib1)).1
        (libraryRequest 0 lib1 false) (Reachable.step Reachable.initial _) rfl).1 rfl
        [{ id := 7 }] true).1,
    ((preemption_on_enqueue dflt (step dflt State.initial (Event.scanLibrary lib1)).1
        (libraryRequest 0 lib1 false) (Reachable.step Reachable.initial _) rfl).2
        (Or.inl rfl) ["f1"]).1.2.1⟩

/-! ## Preemption of a library scan by a file scan or playlist import -/

/-- C2, as stated, fails. A library scan of library 1 is current; `scanFiles`
preempts it and the file scan is current at once. Handling the next finish
event then removes the file scan from the queue: afterwards no queued request
is current and the only queued request is the preempted library scan (the id
of the removed file scan stays behind in `m_currentRequestId`, naming no queued
request). -/
theorem preempt_then_finish_counterexample :
    Reachable dflt (run dflt State.initial [Event.scanLibrary lib1])
      ∧ currentRequest (run dflt State.initial [Event.scanLibrary lib1])
          = some (libraryRequest 0 lib1 false)
      ∧ (libraryRequest 0 lib1 false).type = ScanType.Library
      ∧ currentRequest (run dflt State.initial [Event.scanLibrary lib1, Event.scanFiles ["f1"]])
          = some (filesRequest dflt 1 ["f1"])
      ∧ currentRequest
          (run dflt State.initial [Event.scanLibrary lib1, Event.scanFiles ["f1"], Event.finished])
          = none
      ∧ (run dflt State.initial
            [Event.scanLibrary lib1, Event.scanFiles ["f1"], Event.finished]).m_scanRequests
          = [libraryRequest 0 lib1 false]
      ∧ (run dflt State.initial
            [Event.scanLibrary lib1, Event.scanFiles ["f1"], Event.finished]).m_currentRequestId
          = 1 :=
  ⟨reachable_run Reachable.initial _, rfl, rfl, rfl, rfl, rfl, rfl⟩

/-- Tracks-ingested and progress events handled while the request-finished
flag is clear change nothing but the tracks-ingested flag. -/
theorem run_notifications (d : Defaults) (es : List Event) :
    ∀ s : State, s.m_currentRequestFinished = false →
      (∀ e ∈ es, e.isNotification = true) →
      ∃ a : Bool, run d s es = { s with m_tracksAddedToLibrary := a } := by
  induction es with
  | nil =>
    intro s _ _
    exact ⟨s.m_tracksAddedToLibrary, rfl⟩
  | cons e es ih =>
    intro s hfin hes
    have he := hes e (List.mem_cons_self _ _)
    have hrest : ∀ e2 ∈ es, e2.isNotification = true :=
      fun e2 he2 => hes e2 (List.mem_cons_of_mem _ he2)
    cases e with
    | tracksScanned =>
      have hstep : (step d s Event.tracksScanned).1 = { s with m_tracksAddedToLibrary := true } := by
        show (tracksScanned s).1 = _
        unfold tracksScanned
        dsimp only
        rw [if_neg (by rw [hfin]; simp)]
      obtain ⟨a, ha⟩ := ih { s with m_tracksAddedToLibrary := true } hfin hrest
      refine ⟨a, ?_⟩
      show run d (step d s Event.tracksScanned).1 es = _
      rw [hstep, ha]
    | progressChanged current file total =>
      have hstep : (step d s (Event.progressChanged current file total)).1 = s := by
        show (updateProgress d s current file total).1 = s
        unfold updateProgress
        split <;> rfl
      obtain ⟨a, ha⟩ := ih s hfin hrest
      refine ⟨a, ?_⟩
      show run d (step d s (Event.progressChanged current file total)).1 es = _
      rw [hstep, ha]
    | refreshLibrary library => simp [Event.isNotification] at he
    | scanLibrary library => simp [Event.isNotification] at he
    | directoriesChanged library dirs => simp [Event.isNotification] at he
    | scanTracks tracks onlyModified => simp [Event.isNotification] at he
    | scanFiles files => simp [Event.isNotification] at he
    | loadPlaylist files => simp [Event.isNotification] at he
    | finished => simp [Event.isNotification] at he
    | cancel id => simp [Event.isNotification] at he
    | libraryRemoved id => simp [Event.isNotification] at he

/-- A request with the next id that has just preempted the current request is
current until the next finish event, which removes it and restores the queue
from before the enqueue; only tracks-ingested and progress events are handled
in between. -/
theorem preempted_then_finish (d : Defaults) (s : State) (n : LibraryScanRequest)
    (es : List Event) (hinv : Inv s) (hn : n.id = s.requestId)
    (hes : ∀ e ∈ es, e.isNotification = true) :
    currentRequest
        (run d
          { m_scanRequests := n :: s.m_scanRequests, m_currentRequestId := s.requestId,
            m_currentRequestFinished := false, m_tracksAddedToLibrary := false,
            requestId := s.requestId + 1 } es) = some n
      ∧ (finishScanRequest
          (run d
            { m_scanRequests := n :: s.m_scanRequests, m_currentRequestId := s.requestId,
              m_currentRequestFinished := false, m_tracksAddedToLibrary := false,
              requestId := s.requestId + 1 } es)).1.m_scanRequests = s.m_scanRequests := by
  obtain ⟨a, ha⟩ := run_notifications d es
    { m_scanRequests := n :: s.m_scanRequests, m_currentRequestId := s.requestId,
      m_currentRequestFinished := false, m_tracksAddedToLibrary := false,
      requestId := s.requestId + 1 } rfl hes
  rw [ha]
  have hcur : currentRequest
      { m_scanRequests := n :: s.m_scanRequests, m_currentRequestId := s.requestId,
        m_currentRequestFinished := false, m_tracksAddedToLibrary := a,
        requestId := s.requestId + 1 } = some n := by
    have := currentRequest_front s.m_scanRequests n false a (s.requestId + 1)
    rw [hn] at this
    exact this
  refine ⟨hcur, ?_⟩
  rw [finishScanRequest_queue _ n hcur]
  show List.filter (fun pendingRequest => !(pendingRequest.id == s.requestId))
    (n :: s.m_scanRequests) = s.m_scanRequests
  rw [List.filter_cons_of_neg (by simp [hn]), filter_fresh hinv]

/-- C2, amended. In every reachable state in which a Library-type request `r`
is current, `scanFiles` and `loadPlaylist` call `pauseThread` on the scan worker
at once, leave `r` in the queue and make the new request the current request
as soon as the call returns; it stays the current request while tracks-ingested
and progress events are handled, until the worker's next finish event. Handling
that finish event removes the new request from the queue, so that it is not the
current request afterwards, and leaves `r` queued: the queue is again the queue
from before the call. -/
theorem preempt_library_then_finish (d : Defaults) (s : State) (r : LibraryScanRequest)
    (files : List String) (es : List Event) (hs : Reachable d s)
    (hc : currentRequest s = some r) (hty : r.type = ScanType.Library)
    (hes : ∀ e ∈ es, e.isNotification = true) :
    (Signal.pauseThread ∈ (addFilesScanRequest d s files).2.2
      ∧ r ∈ (addFilesScanRequest d s files).2.1.m_scanRequests
      ∧ currentRequest (addFilesScanRequest d s files).2.1
          = some (filesRequest d s.requestId files)
      ∧ currentRequest (run d (addFilesScanRequest d s files).2.1 es)
          = some (filesRequest d s.requestId files)
      ∧ (finishScanRequest (run d (addFilesScanRequest d s files).2.1 es)).1.m_scanRequests
          = s.m_scanRequests
      ∧ r ∈ (finishScanRequest (run d (addFilesScanRequest d s files).2.1 es)).1.m_scanRequests
      ∧ filesRequest d s.requestId files
          ∉ (finishScanRequest (run d (addFilesScanRequest d s files).2.1 es)).1.m_scanRequests
      ∧ currentRequest (finishScanRequest (run d (addFilesScanRequest d s files).2.1 es)).1
          ≠ some (filesRequest d s.requestId files))
    ∧ (Signal.pauseThread ∈ (addPlaylistRequest d s files).2.2
      ∧ r ∈ (addPlaylistRequest d s files).2.1.m_scanRequests
      ∧ currentRequest (addPlaylistRequest d s files).2.1
          = some (playlistRequest d s.requestId files)
      ∧ currentRequest (run d (addPlaylistRequest d s files).2.1 es)
          = some (playlistRequest d s.requestId files)
      ∧ (finishScanRequest (run d (addPlaylistRequest d s files).2.1 es)).1.m_scanRequests
          = s.m_scanRequests
      ∧ r ∈ (finishScanRequest (run d (addPlaylistRequest d s files).2.1 es)).1.m_scanRequests
      ∧ playlistRequest d s.requestId files
          ∉ (finishScanRequest (run d (addPlaylistRequest d s files).2.1 es)).1.m_scanRequests
      ∧ currentRequest (finishScanRequest (run d (addPlaylistRequest d s files).2.1 es)).1
          ≠ some (playlistRequest d s.requestId files)) := by
  have hinv := reachable_inv hs
  have hmem := (currentRequest_mem hc).1
  have hnot : ∀ x : LibraryScanRequest, x.id = s.requestId → x ∉ s.m_scanRequests := by
    intro x hx hin
    have := hinv.ids_lt x hin
    omega
  refine ⟨?_, ?_⟩
  · rw [addFilesScanRequest_preempt d s files r hinv hc (Or.inl hty)]
    have hfin := preempted_then_finish d s (filesRequest d s.requestId files) es hinv rfl hes
    refine ⟨by simp, List.mem_cons_of_mem _ hmem, ?_, hfin.1, hfin.2, ?_, ?_, ?_⟩
    · exact currentRequest_front s.m_scanRequests (filesRequest d s.requestId files)
        false false (s.requestId + 1)
    · rw [hfin.2]; exact hmem
    · rw [hfin.2]; exact hnot _ rfl
    · intro hcur
      have := (currentRequest_mem hcur).1
      rw [hfin.2] at this
      exact hnot _ rfl this
  · rw [addPlaylistRequest_preempt d s files r hinv hc (Or.inl hty)]
    have hfin := preempted_then_finish d s (playlistRequest d s.requestId files) es hinv rfl hes
    refine ⟨by simp, List.mem_cons_of_mem _ hmem, ?_, hfin.1, hfin.2, ?_, ?_, ?_⟩
    · exact currentRequest_front s.m_scanRequests (playlistRequest d s.requestId files)
        false false (s.requestId + 1)
    · rw [hfin.2]; exact hmem
    · rw [hfin.2]; exact hnot _ rfl
    · intro hcur
      have := (currentRequest_mem hcur).1
      rw [hfin.2] at this
      exact hnot _ rfl this

/-- Witness for the amended C2: a library scan of library 1 is current, a file
scan is enqueued, and a progress event and a tracks-ingested event are handled
before the finish event. -/
theorem preempt_library_then_finish_witness :
    currentRequest (step dflt State.initial (Event.scanLibrary lib1)).1
        = some (libraryRequest 0 lib1 false)
      ∧ currentRequest
          (run dflt
            (addFilesScanRequest dflt (step dflt State.initial (Event.scanLibrary lib1)).1
              ["f1"]).2.1
            [Event.progressChanged 1 "f1" 2, Event.tracksScanned])
          = some (filesRequest dflt 1 ["f1"])
      ∧ (finishScanRequest
          (run dflt
            (addFilesScanRequest dflt (step dflt State.initial (Event.scanLibrary lib1)).1
              ["f1"]).2.1
            [Event.progressChanged 1 "f1" 2, Event.tracksScanned])).1.m_scanRequests
          = [libraryRequest 0 lib1 false] :=
  ⟨rfl,
    (preempt_library_then_finish dflt (step dflt State.initial (Event.scanLibrary lib1)).1
      (libraryRequest 0 lib1 false) ["f1"]
      [Event.progressChanged 1 "f1" 2, Event.tracksScanned]
      (Reachable.step Reachable.initial _) rfl rfl
      (by
        intro e he
        simp only [List.mem_cons, List.mem_singleton, List.not_mem_nil, or_false] at he
        rcases he with he | he <;> subst he <;> rfl)).1.2.2.2.1,
    (preempt_library_then_finish dflt (step dflt State.initial (Event.scanLibrary lib1)).1
      (libraryRequest 0 lib1 false) ["f1"]
      [Event.progressChanged 1 "f1" 2, Event.tracksScanned]
      (Reachable.step Reachable.initial _) rfl rfl
      (by
        intro e he
        simp only [List.mem_cons, List.mem_singleton, List.not_mem_nil, or_false] at he
        rcases he with he | he <;> subst he <;> rfl)).1.2.2.2.2.1⟩

/-! ## Deferred and immediate completion -/

/-- With pairwise different ids in the queue, deleting the requests that carry
the id of a queued request deletes just that request. -/
theorem filter_id_eq_erase (l : List LibraryScanRequest) (r : LibraryScanRequest)
    (hnd : (l.map (fun x => x.id)).Nodup) (hr : r ∈ l) :
    l.filter (fun x => !(x.id == r.id)) = l.erase r := by
  induction l with
  | nil => cases hr
  | cons a l ih =>
    rw [List.map_cons, List.nodup_cons] at hnd
    by_cases har : a = r
    · subst har
      rw [List.erase_cons_head, List.filter_cons_of_neg (by simp)]
      rw [List.filter_eq_self]
      intro x hx
      have hne : x.id ≠ a.id := by
        intro h
        exact hnd.1 (List.mem_map.2 ⟨x, hx, h⟩)
      simpa using hne
    · have hrl : r ∈ l := by
        rcases List.mem_cons.1 hr with h | h
        · exact absurd h.symm har
        · exact h
      have hne : a.id ≠ r.id := by
        intro h
        exact hnd.1 (List.mem_map.2 ⟨r, hrl, h.symm⟩)
      rw [List.filter_cons_of_pos (by simpa using hne), ih hnd.2 hrl,
        List.erase_cons_tail (by simpa using har)]

/-- C3, as stated, fails. A file scan is current and its finish event is
handled with no tracks-ingested event at all; the following `scanLibrary`
finds the queue empty and dispatches its request at once. Likewise, with a
preempted library scan still queued, a second finish event dispatches that
library scan. No tracks-ingested event occurs in either execution. -/
theorem deferred_completion_counterexample :
    currentRequest (run dflt State.initial [Event.scanFiles ["f0"]])
        = some (filesRequest dflt 0 ["f0"])
      ∧ (run dflt State.initial [Event.scanFiles ["f0"]]).m_tracksAddedToLibrary = false
      ∧ (step dflt (run dflt State.initial [Event.scanFiles ["f0"]]) Event.finished).2 = []
      ∧ (step dflt (run dflt State.initial [Event.scanFiles ["f0"], Event.finished])
            (Event.scanLibrary lib1)).2
          = [Signal.scanLibrary (libraryRequest 1 lib1 false)]
      ∧ currentRequest (run dflt State.initial [Event.scanLibrary lib1, Event.scanFiles ["f1"]])
          = some (filesRequest dflt 1 ["f1"])
      ∧ (step dflt
            (run dflt State.initial
              [Event.scanLibrary lib1, Event.scanFiles ["f1"], Event.finished])
            Event.finished).2
          = [Signal.scanLibrary (libraryRequest 0 lib1 false)] :=
  ⟨rfl, rfl, rfl, rfl, rfl, rfl⟩

/-- C3, amended. In every execution, once a Files or Playlist request is
current and a finish event is handled with no tracks-ingested event observed
since the request became current, that finish event dispatches nothing, and no
request is dispatched by what follows as long as it consists of progress
events, `cancel`, `libraryRemoved` and enqueue operations handled while the
queue is not empty. (An enqueue onto an empty queue dispatches its request at
once; nothing is said here about further finish events.) -/
theorem deferred_completion_holds_back (d : Defaults) (s : State) (r : LibraryScanRequest)
    (es : List Event) (hs : Reachable d s) (hc : currentRequest s = some r)
    (hty : r.type = ScanType.Files ∨ r.type = ScanType.Playlist)
    (hflag : s.m_tracksAddedToLibrary = false)
    (hes : heldBack d (finishScanRequest s).1 es = true) :
    ∀ sig ∈ (finishScanRequest s).2 ++ trace d (finishScanRequest s).1 es,
      sig.isDispatch = false := by
  have hinv : Inv (finishScanRequest s).1 := inv_finishScanRequest (reachable_inv hs)
  have hnone : currentRequest (finishScanRequest s).1 = none := by
    rw [finishScanRequest_deferred s r hc hty hflag]
    exact currentRequest_filter_none _ _ _ _ _
  intro sig hsig
  rcases List.mem_append.1 hsig with h | h
  · rw [finishScanRequest_deferred s r hc hty hflag] at h
    cases h
  · exact heldBack_trace d es _ hinv hnone hes sig h

/-- Witness for the amended C3: a file scan preempts a library scan and
finishes before any ingestion; a track rescan is enqueued, the library scan is
cancelled, library 5 is removed and a progress event arrives. -/
theorem deferred_completion_holds_back_witness :
    heldBack dflt
        (finishScanRequest
          (run dflt State.initial [Event.scanLibrary lib1, Event.scanFiles ["f1"]])).1
        [Event.scanTracks [{ id := 7 }] true, Event.cancel 0, Event.libraryRemoved 5,
          Event.progressChanged 1 "f1" 2] = true
      ∧ ∀ sig ∈
          (finishScanRequest
              (run dflt State.initial [Event.scanLibrary lib1, Event.scanFiles ["f1"]])).2
            ++ trace dflt
              (finishScanRequest
                (run dflt State.initial [Event.scanLibrary lib1, Event.scanFiles ["f1"]])).1
              [Event.scanTracks [{ id := 7 }] true, Event.cancel 0, Event.libraryRemoved 5,
                Event.progressChanged 1 "f1" 2],
          sig.isDispatch = false :=
  ⟨rfl,
    deferred_completion_holds_back dflt
      (run dflt State.initial [Event.scanLibrary lib1, Event.scanFiles ["f1"]])
      (filesRequest dflt 1 ["f1"])
      [Event.scanTracks [{ id := 7 }] true, Event.cancel 0, Event.libraryRemoved 5,
        Event.progressChanged 1 "f1" 2]
      (reachable_run Reachable.initial _) rfl (Or.inl rfl) rfl rfl⟩

/-- C4. Deferred completion step: in every state whose current request `r` is
in the queue, has kind Files or Playlist, and for which no tracks-ingested
event has been observed since it was dispatched, handling a finish event
removes exactly the request with that id from the queue (with pairwise
different ids: exactly `r`), dispatches nothing and leaves no queued request
current; a tracks-ingested event handled next dispatches the front of the
queue and makes it current if the queue is not empty, and does nothing to the
worker if it is empty. -/
theorem deferred_completion_step (s : State) (r : LibraryScanRequest)
    (hc : currentRequest s = some r)
    (hty : r.type = ScanType.Files ∨ r.type = ScanType.Playlist)
    (hflag : s.m_tracksAddedToLibrary = false) :
    (finishScanRequest s).1.m_scanRequests
        = s.m_scanRequests.filter (fun x => !(x.id == r.id))
      ∧ ((s.m_scanRequests.map (fun x => x.id)).Nodup →
          (finishScanRequest s).1.m_scanRequests = s.m_scanRequests.erase r)
      ∧ (finishScanRequest s).2 = []
      ∧ currentRequest (finishScanRequest s).1 = none
      ∧ (∀ front rest, (finishScanRequest s).1.m_scanRequests = front :: rest →
          (tracksScanned (finishScanRequest s).1).2 = [dispatchOf front]
            ∧ currentRequest (tracksScanned (finishScanRequest s).1).1 = some front
            ∧ (tracksScanned (finishScanRequest s).1).1.m_scanRequests = front :: rest)
      ∧ ((finishScanRequest s).1.m_scanRequests = [] →
          (tracksScanned (finishScanRequest s).1).2 = []) := by
  have hmem := currentRequest_mem hc
  rw [finishScanRequest_deferred s r hc hty hflag, hmem.2]
  refine ⟨rfl, ?_, rfl, currentRequest_filter_none _ _ _ _ _, ?_, ?_⟩
  · intro hnd
    show List.filter _ _ = _
    rw [← hmem.2]
    exact filter_id_eq_erase _ r hnd hmem.1
  · intro front rest hq
    simp only [] at hq
    unfold tracksScanned
    simp only [if_true]
    rw [execNextRequest_cons _ front rest hq]
    refine ⟨rfl, ?_, hq⟩
    simp only [hq]
    exact currentRequest_front rest front false false s.requestId
  · intro hq
    simp only [] at hq
    unfold tracksScanned
    simp only [if_true]
    rw [execNextRequest_nil _ hq]

/-- Witness for C4: a file scan preempts a library scan and its finish event
arrives before any ingestion. -/
theorem deferred_completion_step_witness :
    currentRequest (run dflt State.initial [Event.scanLibrary lib1, Event.scanFiles ["f1"]])
        = some (filesRequest dflt 1 ["f1"])
      ∧ (finishScanRequest
          (run dflt State.initial
            [Event.scanLibrary lib1, Event.scanFiles ["f1"]])).1.m_scanRequests
          = [libraryRequest 0 lib1 false]
      ∧ currentRequest
          (finishScanRequest
            (run dflt State.initial [Event.scanLibrary lib1, Event.scanFiles ["f1"]])).1
          = none :=
  ⟨rfl,
    (deferred_completion_step
      (run dflt State.initial [Event.scanLibrary lib1, Event.scanFiles ["f1"]])
      (filesRequest dflt 1 ["f1"]) rfl (Or.inl rfl) rfl).1,
    (deferred_completion_step
      (run dflt State.initial [Event.scanLibrary lib1, Event.scanFiles ["f1"]])
      (filesRequest dflt 1 ["f1"]) rfl (Or.inl rfl) rfl).2.2.2.1⟩

/-- C5. Immediate completion step: in every state whose current request `r` is
in the queue and either has kind Library or Tracks, or has kind Files or
Playlist with a tracks-ingested event observed since it was dispatched,
handling a finish event removes exactly the request with that id from the
queue, the others keeping their order (with pairwise different ids: exactly
`r`); then, if the queue is not empty, its front becomes current and is
dispatched, and if it is empty the current id is -1 and nothing is dispatched. -/
theorem immediate_completion_step (s : State) (r : LibraryScanRequest)
    (hc : currentRequest s = some r)
    (hty : (r.type = ScanType.Library ∨ r.type = ScanType.Tracks)
      ∨ ((r.type = ScanType.Files ∨ r.type = ScanType.Playlist)
          ∧ s.m_tracksAddedToLibrary = true)) :
    (finishScanRequest s).1.m_scanRequests
        = s.m_scanRequests.filter (fun x => !(x.id == r.id))
      ∧ ((s.m_scanRequests.map (fun x => x.id)).Nodup →
          (finishScanRequest s).1.m_scanRequests = s.m_scanRequests.erase r)
      ∧ (∀ front rest, (finishScanRequest s).1.m_scanRequests = front :: rest →
          (finishScanRequest s).2 = [dispatchOf front]
            ∧ (finishScanRequest s).1.m_currentRequestId = front.id
            ∧ currentRequest (finishScanRequest s).1 = some front)
      ∧ ((finishScanRequest s).1.m_scanRequests = [] →
          (finishScanRequest s).2 = [] ∧ (finishScanRequest s).1.m_currentRequestId = -1) := by
  have hmem := currentRequest_mem hc
  have hty2 : (r.type = ScanType.Library ∨ r.type = ScanType.Tracks)
      ∨ s.m_tracksAddedToLibrary = true := by
    rcases hty with h | h
    · exact Or.inl h
    · exact Or.inr h.2
  have hq : (finishScanRequest s).1.m_scanRequests
      = s.m_scanRequests.filter (fun x => !(x.id == r.id)) := by
    rw [finishScanRequest_immediate s r hc hty2, execNextRequest_queue, hmem.2]
  refine ⟨hq, ?_, ?_, ?_⟩
  · intro hnd
    rw [hq]
    exact filter_id_eq_erase _ r hnd hmem.1
  · intro front rest hfront
    rw [finishScanRequest_immediate s r hc hty2] at hfront ⊢
    rw [execNextRequest_queue] at hfront
    rw [execNextRequest_cons _ front rest hfront]
    refine ⟨rfl, rfl, ?_⟩
    simp only [] at hfront
    simp only [hfront]
    exact currentRequest_front rest front false false s.requestId
  · intro hnil
    rw [finishScanRequest_immediate s r hc hty2] at hnil ⊢
    rw [execNextRequest_queue] at hnil
    rw [execNextRequest_nil _ hnil]
    exact ⟨rfl, rfl⟩

/-- Witness for C5: a track rescan preempts a library scan and finishes; the
library scan is dispatched again. -/
theorem immediate_completion_step_witness :
    currentRequest
        (run dflt State.initial [Event.scanLibrary lib1, Event.scanTracks [{ id := 7 }] true])
        = some (tracksRequest dflt 1 [{ id := 7 }] true)
      ∧ (finishScanRequest
          (run dflt State.initial
            [Event.scanLibrary lib1, Event.scanTracks [{ id := 7 }] true])).1.m_scanRequests
          = [libraryRequest 0 lib1 false]
      ∧ (finishScanRequest
          (run dflt State.initial
            [Event.scanLibrary lib1, Event.scanTracks [{ id := 7 }] true])).2
          = [Signal.scanLibrary (libraryRequest 0 lib1 false)] :=
  ⟨rfl,
    (immediate_completion_step
      (run dflt State.initial [Event.scanLibrary lib1, Event.scanTracks [{ id := 7 }] true])
      (tracksRequest dflt 1 [{ id := 7 }] true) rfl (Or.inl (Or.inr rfl))).1,
    ((immediate_completion_step
      (run dflt State.initial [Event.scanLibrary lib1, Event.scanTracks [{ id := 7 }] true])
      (tracksRequest dflt 1 [{ id := 7 }] true) rfl (Or.inl (Or.inr rfl))).2.2.1
      (libraryRequest 0 lib1 false) [] rfl).1⟩

/-! ## Order of dispatch -/

/-- C7. FIFO within the library tier: in every execution, whenever a
Library-type request (full or directory scan) is dispatched, every other
Library-type request in the queue at that moment has a larger id, that is, was
enqueued after it. -/
theorem library_tier_fifo (d : Defaults) (s : State) (e : Event) (r : LibraryScanRequest)
    (hs : Reachable d s) (hdis : dispatchOf r ∈ (step d s e).2)
    (hty : r.type = ScanType.Library) :
    ∀ x ∈ (step d s e).1.m_scanRequests, x.type = ScanType.Library → x ≠ r → r.id < x.id := by
  obtain ⟨rest, hq, _⟩ := frontDispatch_step d s e _ hdis r (request?_dispatchOf r)
  have hinv := inv_step (reachable_inv hs) d e
  have hord := hinv.lib_order
  rw [hq, List.pairwise_cons] at hord
  intro x hx _ hne
  rw [hq] at hx
  rcases List.mem_cons.1 hx with hx | hx
  · exact absurd hx hne
  · exact (hord.1 x hx hty).2

/-- Witness for C7: two library scans are queued, a track rescan preempts the
first and finishes; the first library scan is dispatched again, ahead of the
second. -/
theorem library_tier_fifo_witness :
    dispatchOf (libraryRequest 0 lib1 false)
        ∈ (step dflt
            (run dflt State.initial
              [Event.scanLibrary lib1, Event.refreshLibrary lib1,
                Event.scanTracks [{ id := 7 }] true])
            Event.finished).2
      ∧ libraryRequest 1 lib1 true
        ∈ (step dflt
            (run dflt State.initial
              [Event.scanLibrary lib1, Event.refreshLibrary lib1,
                Event.scanTracks [{ id := 7 }] true])
            Event.finished).1.m_scanRequests
      ∧ (libraryRequest 0 lib1 false).id < (libraryRequest 1 lib1 true).id :=
  ⟨List.mem_singleton.2 rfl, List.mem_cons_of_mem _ (List.mem_singleton.2 rfl),
    library_tier_fifo dflt
      (run dflt State.initial
        [Event.scanLibrary lib1, Event.refreshLibrary lib1, Event.scanTracks [{ id := 7 }] true])
      Event.finished (libraryRequest 0 lib1 false) (reachable_run Reachable.initial _)
      (List.mem_singleton.2 rfl) rfl (libraryRequest 1 lib1 true)
      (List.mem_cons_of_mem _ (List.mem_singleton.2 rfl)) rfl (by decide)⟩

/-! ## Library removal -/

/-- C8, evaluated at the failing input. A full scan and a refresh of library 1
are queued and the full scan is current. `libraryRemoved(1)` calls `stopThread`
and changes nothing else: the refresh of library 1, which is not the current
request, is still in the queue. -/
theorem libraryRemoved_keeps_queued_requests :
    Reachable dflt (run dflt State.initial [Event.scanLibrary lib1, Event.refreshLibrary lib1])
      ∧ currentRequest
          (run dflt State.initial [Event.scanLibrary lib1, Event.refreshLibrary lib1])
          = some (libraryRequest 0 lib1 false)
      ∧ libraryRemoved
          (run dflt State.initial [Event.scanLibrary lib1, Event.refreshLibrary lib1]) 1
          = (run dflt State.initial [Event.scanLibrary lib1, Event.refreshLibrary lib1],
              [Signal.stopThread])
      ∧ (libraryRemoved
          (run dflt State.initial [Event.scanLibrary lib1, Event.refreshLibrary lib1])
          1).1.m_scanRequests
          = [libraryRequest 0 lib1 false, libraryRequest 1 lib1 true]
      ∧ (libraryRequest 1 lib1 true).library.id = 1 :=
  ⟨reachable_run Reachable.initial _, rfl, rfl, rfl, rfl⟩

/-- C9. `libraryRemoved(id)` case split, for every state: if the current
request is a Library-type request whose library id is `id`, `stopThread` is
called and the state is unchanged; otherwise no worker signal is sent and the
queue becomes the old queue without the requests whose library id is `id`, in
the old order; on an empty queue nothing changes. -/
theorem libraryRemoved_case_split (s : State) (id : Int) :
    (∀ r, currentRequest s = some r → r.type = ScanType.Library → r.library.id = id →
        libraryRemoved s id = (s, [Signal.stopThread]))
      ∧ ((∀ r, currentRequest s = some r → ¬ (r.type = ScanType.Library ∧ r.library.id = id)) →
          libraryRemoved s id
            = ({ s with
                  m_scanRequests := s.m_scanRequests.filter (fun x => !(x.library.id == id)) },
                []))
      ∧ (s.m_scanRequests = [] → libraryRemoved s id = (s, [])) := by
  refine ⟨?_, ?_, ?_⟩
  · intro r hc hty hid
    have hq := currentRequest_ne_nil hc
    unfold libraryRemoved
    rw [hc]
    simp [hq, hty, hid]
  · intro h
    unfold libraryRemoved
    cases hc : currentRequest s with
    | none =>
      by_cases hq : s.m_scanRequests = []
      · simp only [hq, List.isEmpty_nil, if_true, List.filter_nil]
        rw [← hq]
      · simp [hq]
    | some r =>
      have hq := currentRequest_ne_nil hc
      have hr := h r hc
      simp only [List.isEmpty_iff, hq, if_false, if_neg hr]
  · intro hq
    unfold libraryRemoved
    simp [hq]

/-- Witness for C9: with the full scan of library 1 current, removing library 1
only stops the worker, and removing library 2 only filters the queue. -/
theorem libraryRemoved_case_split_witness :
    libraryRemoved (run dflt State.initial [Event.scanLibrary lib1]) 1
        = (run dflt State.initial [Event.scanLibrary lib1], [Signal.stopThread])
      ∧ (libraryRemoved (run dflt State.initial [Event.scanLibrary lib1]) 2).2 = [] :=
  ⟨(libraryRemoved_case_split (run dflt State.initial [Event.scanLibrary lib1]) 1).1
      (libraryRequest 0 lib1 false) rfl rfl rfl,
    congrArg Prod.snd
      ((libraryRemoved_case_split (run dflt State.initial [Event.scanLibrary lib1]) 2).2.1
        (by
          intro r hr
          cases hr
          decide))⟩

/-! ## Progress relay -/

/-- C10, evaluated at the failing input. A file scan is current and a track
rescan is enqueued in front of it without preempting it. The progress event
relayed next carries the id of the current request (0, the file scan) but the
kind of the front request (Tracks). -/
theorem updateProgress_stamps_front_kind :
    Reachable dflt
        (run dflt State.initial [Event.scanFiles ["f1"], Event.scanTracks [{ id := 7 }] true])
      ∧ currentRequest
          (run dflt State.initial [Event.scanFiles ["f1"], Event.scanTracks [{ id := 7 }] true])
          = some (filesRequest dflt 0 ["f1"])
      ∧ (filesRequest dflt 0 ["f1"]).type = ScanType.Files
      ∧ (updateProgress dflt
          (run dflt State.initial [Event.scanFiles ["f1"], Event.scanTracks [{ id := 7 }] true])
          1 "f1" 2).2
          = [Signal.progressChanged
              { type := ScanType.Tracks, info := dflt.libraryInfo, id := 0, total := 2,
                current := 1, file := "f1" }] :=
  ⟨reachable_run Reachable.initial _, rfl, rfl, rfl⟩

/-! ## The queue after an enqueue operation -/

theorem addLibraryScanRequest_queue (s : State) (libraryInfo : LibraryInfo)
    (onlyModified : Bool) :
    (addLibraryScanRequest s libraryInfo onlyModified).2.1.m_scanRequests
      = s.m_scanRequests ++ [libraryRequest s.requestId libraryInfo onlyModified] := by
  obtain ⟨s2, hs2, hc⟩ := addLibraryScanRequest_cases s libraryInfo onlyModified
  rcases hc with ⟨hc, _⟩ | ⟨hc, _⟩ <;> rw [hc]
  · rw [hs2]; rfl
  · rw [execNextRequest_queue, hs2]; rfl

theorem addDirectoryScanRequest_queue (s : State) (libraryInfo : LibraryInfo)
    (dirs : List String) :
    (addDirectoryScanRequest s libraryInfo dirs).2.1.m_scanRequests
      = s.m_scanRequests ++ [directoryRequest s.requestId libraryInfo dirs] := by
  obtain ⟨s2, hs2, hc⟩ := addDirectoryScanRequest_cases s libraryInfo dirs
  rcases hc with ⟨hc, _⟩ | ⟨hc, _⟩ <;> rw [hc]
  · rw [hs2]; rfl
  · rw [execNextRequest_queue, hs2]; rfl

theorem addTracksScanRequest_queue (d : Defaults) (s : State) (tracks : TrackList)
    (onlyModified : Bool) :
    (addTracksScanRequest d s tracks onlyModified).2.1.m_scanRequests
      = tracksRequest d s.requestId tracks onlyModified :: s.m_scanRequests := by
  obtain ⟨s2, hs2, hc⟩ := addTracksScanRequest_cases d s tracks onlyModified
  rcases hc with hc | hc | hc <;> rw [hc]
  · rw [hs2]; rfl
  · rw [execNextRequest_queue, hs2]; rfl
  · rw [execNextRequest_queue, hs2]; rfl

theorem addFilesScanRequest_queue (d : Defaults) (s : State) (files : List String) :
    (addFilesScanRequest d s files).2.1.m_scanRequests
      = filesRequest d s.requestId files :: s.m_scanRequests := by
  obtain ⟨s2, hs2, hc⟩ := addFilesScanRequest_cases d s files
  rcases hc with hc | hc | hc <;> rw [hc]
  · rw [hs2]; rfl
  · rw [execNextRequest_queue, hs2]; rfl
  · rw [execNextRequest_queue, hs2]; rfl

theorem addPlaylistRequest_queue (d : Defaults) (s : State) (files : List String) :
    (addPlaylistRequest d s files).2.1.m_scanRequests
      = playlistRequest d s.requestId files :: s.m_scanRequests := by
  obtain ⟨s2, hs2, hc⟩ := addPlaylistRequest_cases d s files
  rcases hc with hc | hc | hc <;> rw [hc]
  · rw [hs2]; rfl
  · rw [execNextRequest_queue, hs2]; rfl
  · rw [execNextRequest_queue, hs2]; rfl

/-- The queue after any event: the old queue with a request carrying the next
id put in front or at the back, or a sub-queue of the old queue. -/
theorem step_queue (d : Defaults) (s : State) (e : Event) :
    (∃ n : LibraryScanRequest, n.id = s.requestId
        ∧ ((step d s e).1.m_scanRequests = n :: s.m_scanRequests
          ∨ (step d s e).1.m_scanRequests = s.m_scanRequests ++ [n]))
      ∨ (step d s e).1.m_scanRequests.Sublist s.m_scanRequests := by
  cases e with
  | refreshLibrary library =>
    exact Or.inl ⟨_, rfl, Or.inr (addLibraryScanRequest_queue s library true)⟩
  | scanLibrary library =>
    exact Or.inl ⟨_, rfl, Or.inr (addLibraryScanRequest_queue s library false)⟩
  | directoriesChanged library dirs =>
    exact Or.inl ⟨_, rfl, Or.inr (addDirectoryScanRequest_queue s library dirs)⟩
  | scanTracks tracks onlyModified =>
    exact Or.inl ⟨_, rfl, Or.inl (addTracksScanRequest_queue d s tracks onlyModified)⟩
  | scanFiles files =>
    exact Or.inl ⟨_, rfl, Or.inl (addFilesScanRequest_queue d s files)⟩
  | loadPlaylist files =>
    exact Or.inl ⟨_, rfl, Or.inl (addPlaylistRequest_queue d s files)⟩
  | finished =>
    refine Or.inr ?_
    show (finishScanRequest s).1.m_scanRequests.Sublist s.m_scanRequests
    unfold finishScanRequest
    split
    · dsimp only
      split
      · exact List.filter_sublist _
      · rw [execNextRequest_queue]; exact List.filter_sublist _
    · rw [execNextRequest_queue]
  | progressChanged current file total =>
    refine Or.inr ?_
    show (updateProgress d s current file total).1.m_scanRequests.Sublist s.m_scanRequests
    unfold updateProgress
    split <;> exact List.Sublist.refl _
  | tracksScanned =>
    refine Or.inr ?_
    show (tracksScanned s).1.m_scanRequests.Sublist s.m_scanRequests
    unfold tracksScanned
    dsimp only
    split
    · rw [execNextRequest_queue]
    · exact List.Sublist.refl _
  | cancel id =>
    refine Or.inr ?_
    show (cancelScanRequest s id).1.m_scanRequests.Sublist s.m_scanRequests
    unfold cancelScanRequest
    split
    · exact List.Sublist.refl _
    · exact List.filter_sublist _
  | libraryRemoved id =>
    refine Or.inr ?_
    show (libraryRemoved s id).1.m_scanRequests.Sublist s.m_scanRequests
    unfold libraryRemoved
    split
    · exact List.Sublist.refl _
    · split
      · split
        · exact List.Sublist.refl _
        · exact List.filter_sublist _
      · exact List.filter_sublist _

/-! ## Id uniqueness -/

theorem uniqueIds_step {d : Defaults} {s : State} (hinv : Inv s) (h : UniqueIds s) (e : Event) :
    UniqueIds (step d s e).1 := by
  have hfresh : s.requestId ∉ s.m_scanRequests.map (fun request => request.id) := by
    intro hmem
    obtain ⟨x, hx, hid⟩ := List.mem_map.1 hmem
    have := hinv.ids_lt x hx
    omega
  unfold UniqueIds at h ⊢
  rcases step_queue d s e with ⟨n, hn, hq | hq⟩ | hq
  · rw [hq, List.map_cons, List.nodup_cons, hn]
    exact ⟨hfresh, h⟩
  · rw [hq, List.map_append, List.map_cons, List.map_nil, hn]
    rw [List.nodup_append]
    refine ⟨h, List.nodup_singleton _, ?_⟩
    intro a ha hb
    simp only [List.mem_singleton] at hb
    exact hfresh (hb ▸ ha)
  · exact h.sublist (hq.map _)

theorem reachable_uniqueIds {d : Defaults} {s : State} (h : Reachable d s) : UniqueIds s := by
  induction h with
  | initial => exact List.nodup_nil
  | step hs e ih => exact uniqueIds_step (reachable_inv hs) ih e

/-! ## Removal of the current request and cancellation -/

/-- C11, evaluated at the failing input, for every value of the
default-constructed library info. A file scan is enqueued on the constructed
scheduler and is the current request; it carries the default-constructed
library info, which `addFilesScanRequest` never assigns. `libraryRemoved`
called with the id of that library info takes the purge branch: it sends no
signal to the scan worker and deletes the current request from the queue,
although no finish event has been handled, and the id of the deleted request
stays behind in `m_currentRequestId`. -/
theorem libraryRemoved_erases_current_request (d : Defaults) (files : List String) :
    Reachable d (run d State.initial [Event.scanFiles files])
      ∧ currentRequest (run d State.initial [Event.scanFiles files])
          = some (filesRequest d 0 files)
      ∧ (filesRequest d 0 files).library.id = d.libraryInfo.id
      ∧ libraryRemoved (run d State.initial [Event.scanFiles files]) d.libraryInfo.id
          = ({ m_scanRequests := [], m_currentRequestId := 0, m_currentRequestFinished := false,
               m_tracksAddedToLibrary := false, requestId := 1 }, []) := by
  have hrun : run d State.initial [Event.scanFiles files]
      = { m_scanRequests := [filesRequest d 0 files], m_currentRequestId := 0,
          m_currentRequestFinished := false, m_tracksAddedToLibrary := false, requestId := 1 } := by
    rfl
  refine ⟨reachable_run Reachable.initial _, ?_, rfl, ?_⟩
  · rw [hrun]
    rfl
  · rw [hrun]
    simp [libraryRemoved, currentRequest, List.find?, filesRequest]

/-- Apart from that input the current request stays in the queue until its
finish event: in every state in which a queued request `r` is current, `r` is
still in the queue after any enqueue, after `cancel(i)` for every id `i`,
after a progress or tracks-ingested event, and after `libraryRemoved(l)` for
every `l` unless `r` is not Library-type and carries library id `l`; handling
a finish event removes it. -/
theorem current_kept_by_other_events (d : Defaults) (s : State) (r : LibraryScanRequest)
    (hc : currentRequest s = some r) :
    (∀ e : Event, e ≠ Event.finished →
        (∀ l, e = Event.libraryRemoved l → r.type = ScanType.Library ∨ r.library.id ≠ l) →
        r ∈ (step d s e).1.m_scanRequests)
      ∧ r ∉ (finishScanRequest s).1.m_scanRequests := by
  have hmem := currentRequest_mem hc
  refine ⟨?_, ?_⟩
  · intro e hfin hlib
    cases e with
    | refreshLibrary library =>
      show r ∈ (addLibraryScanRequest s library true).2.1.m_scanRequests
      rw [addLibraryScanRequest_queue]
      exact List.mem_append_left _ hmem.1
    | scanLibrary library =>
      show r ∈ (addLibraryScanRequest s library false).2.1.m_scanRequests
      rw [addLibraryScanRequest_queue]
      exact List.mem_append_left _ hmem.1
    | directoriesChanged library dirs =>
      show r ∈ (addDirectoryScanRequest s library dirs).2.1.m_scanRequests
      rw [addDirectoryScanRequest_queue]
      exact List.mem_append_left _ hmem.1
    | scanTracks tracks onlyModified =>
      show r ∈ (addTracksScanRequest d s tracks onlyModified).2.1.m_scanRequests
      rw [addTracksScanRequest_queue]
      exact List.mem_cons_of_mem _ hmem.1
    | scanFiles files =>
      show r ∈ (addFilesScanRequest d s files).2.1.m_scanRequests
      rw [addFilesScanRequest_queue]
      exact List.mem_cons_of_mem _ hmem.1
    | loadPlaylist files =>
      show r ∈ (addPlaylistRequest d s files).2.1.m_scanRequests
      rw [addPlaylistRequest_queue]
      exact List.mem_cons_of_mem _ hmem.1
    | finished => exact absurd rfl hfin
    | progressChanged current file total =>
      show r ∈ (updateProgress d s current file total).1.m_scanRequests
      unfold updateProgress
      split <;> exact hmem.1
    | tracksScanned =>
      show r ∈ (tracksScanned s).1.m_scanRequests
      unfold tracksScanned
      dsimp only
      split
      · rw [execNextRequest_queue]; exact hmem.1
      · exact hmem.1
    | cancel id =>
      show r ∈ (cancelScanRequest s id).1.m_scanRequests
      unfold cancelScanRequest
      split
      · exact hmem.1
      · next hne =>
        refine List.mem_filter.2 ⟨hmem.1, ?_⟩
        have : r.id ≠ id := by rw [hmem.2]; exact hne
        simpa using this
    | libraryRemoved id =>
      show r ∈ (libraryRemoved s id).1.m_scanRequests
      unfold libraryRemoved
      rw [hc]
      split
      · exact hmem.1
      · dsimp only
        split
        · exact hmem.1
        · next hnot =>
          refine List.mem_filter.2 ⟨hmem.1, ?_⟩
          have hne : r.library.id ≠ id := by
            rcases hlib id rfl with h | h
            · exact fun hid => hnot ⟨h, hid⟩
            · exact h
          simpa using hne
  · rw [finishScanRequest_queue s r hc]
    intro hin
    have := (List.mem_filter.1 hin).2
    simp [hmem.2] at this

/-- C12. Cancelling the current request: in every state, `cancel(id)` with `id`
equal to the current request id calls `stopThread` on the scan worker and
leaves the whole state, so the queue and the current id, unchanged; a queued
current request is therefore still in the queue after the call, and leaves it
when the following finish event is handled. -/
theorem cancel_current (s : State) (id : Int) (hid : id = s.m_currentRequestId) :
    cancelScanRequest s id = (s, [Signal.stopThread])
      ∧ ∀ r, currentRequest s = some r →
          r ∈ (cancelScanRequest s id).1.m_scanRequests
            ∧ currentRequest (cancelScanRequest s id).1 = some r
            ∧ r ∉ (finishScanRequest (cancelScanRequest s id).1).1.m_scanRequests := by
  have hcancel : cancelScanRequest s id = (s, [Signal.stopThread]) := by
    unfold cancelScanRequest
    rw [if_pos hid.symm]
  refine ⟨hcancel, ?_⟩
  intro r hc
  have hmem := currentRequest_mem hc
  rw [hcancel]
  refine ⟨hmem.1, hc, ?_⟩
  show r ∉ (finishScanRequest s).1.m_scanRequests
  rw [finishScanRequest_queue s r hc]
  intro hin
  have := (List.mem_filter.1 hin).2
  simp [hmem.2] at this

/-- Witness for C12: the full scan of library 1 is current and is cancelled. -/
theorem cancel_current_witness :
    cancelScanRequest (run dflt State.initial [Event.scanLibrary lib1]) 0
        = (run dflt State.initial [Event.scanLibrary lib1], [Signal.stopThread])
      ∧ (finishScanRequest
          (cancelScanRequest (run dflt State.initial [Event.scanLibrary lib1]) 0).1).1.m_scanRequests
          = [] :=
  ⟨(cancel_current (run dflt State.initial [Event.scanLibrary lib1]) 0 rfl).1, rfl⟩

/-- C13. Cancelling a queued request that is not current: in every reachable
state and for every id other than the current request id, `cancel(id)` sends
no signal to the scan worker and changes nothing but the queue (the current
request id, both flags and the id counter stay as they are); if a request with
that id is queued exactly that request is removed, the others keeping their
order, and if no request with that id is queued the state is unchanged. -/
theorem cancel_queued (d : Defaults) (s : State) (id : Int) (hs : Reachable d s)
    (hid : id ≠ s.m_currentRequestId) :
    (cancelScanRequest s id).2 = []
      ∧ (cancelScanRequest s id).1
          = { s with m_scanRequests := (cancelScanRequest s id).1.m_scanRequests }
      ∧ (∀ r ∈ s.m_scanRequests, r.id = id →
          (cancelScanRequest s id).1.m_scanRequests = s.m_scanRequests.erase r)
      ∧ ((∀ r ∈ s.m_scanRequests, r.id ≠ id) → (cancelScanRequest s id).1 = s) := by
  have hcancel : cancelScanRequest s id
      = ({ s with m_scanRequests := s.m_scanRequests.filter (fun request => !(request.id == id)) },
          []) := by
    unfold cancelScanRequest
    rw [if_neg (fun h => hid h.symm)]
  rw [hcancel]
  refine ⟨rfl, rfl, ?_, ?_⟩
  · intro r hr hrid
    show List.filter _ _ = _
    rw [← hrid]
    exact filter_id_eq_erase _ r (reachable_uniqueIds hs) hr
  · intro hall
    have hq : s.m_scanRequests.filter (fun request => !(request.id == id)) = s.m_scanRequests := by
      rw [List.filter_eq_self]
      intro x hx
      simpa using hall x hx
    rw [hq]

/-- Witness for C13: a second library scan is queued behind the current one and
is cancelled. -/
theorem cancel_queued_witness :
    (cancelScanRequest
        (run dflt State.initial [Event.scanLibrary lib1, Event.refreshLibrary lib1]) 1).2 = []
      ∧ (cancelScanRequest
          (run dflt State.initial [Event.scanLibrary lib1, Event.refreshLibrary lib1])
          1).1.m_scanRequests
          = [libraryRequest 0 lib1 false] :=
  ⟨(cancel_queued dflt
      (run dflt State.initial [Event.scanLibrary lib1, Event.refreshLibrary lib1]) 1
      (reachable_run Reachable.initial _) (by decide)).1,
    (cancel_queued dflt
      (run dflt State.initial [Event.scanLibrary lib1, Event.refreshLibrary lib1]) 1
      (reachable_run Reachable.initial _) (by decide)).2.2.1
      (libraryRequest 1 lib1 true) (List.mem_cons_of_mem _ (List.mem_singleton.2 rfl)) rfl⟩

/-! ## Enqueue without preemption, on an empty queue, and insertion position -/

/-- Putting a request with the next id in front of the queue of a state that
satisfies the invariant does not change which request is current. -/
theorem currentRequest_pushFront {s : State} {r : LibraryScanRequest} (hinv : Inv s)
    (hc : currentRequest s = some r) (x : LibraryScanRequest) (hx : x.id = s.requestId) :
    currentRequest
        { s with m_scanRequests := x :: s.m_scanRequests, requestId := s.requestId + 1 }
      = some r := by
  have hne : x.id ≠ s.m_currentRequestId := by have := hinv.cur_lt; omega
  rw [currentRequest_cons_fresh s x (s.requestId + 1) hne]
  exact hc

/-- C14. No preemption for an equal or lower tier: in every reachable state
with a current request `r` in the queue, an enqueue whose tier is not strictly
higher than the tier of `r` only inserts the request and takes the next id: it
sends no signal to the scan worker (nothing dispatched, no stop signal) and
leaves the current request id and both flags unchanged. This holds for
`scanLibrary`, `refreshLibrary` and directory scans whatever `r` is (the new
request is placed at the back, so a second library scan comes after the
first), for `scanTracks` when `r` is Tracks, Files or Playlist, and for
`scanFiles` and `loadPlaylist` when `r` is Files or Playlist. -/
theorem enqueue_without_preemption (d : Defaults) (s : State) (r : LibraryScanRequest)
    (hs : Reachable d s) (hc : currentRequest s = some r) :
    (∀ (libraryInfo : LibraryInfo) (onlyModified : Bool),
        (addLibraryScanRequest s libraryInfo onlyModified).2
          = ({ s with
                m_scanRequests :=
                  s.m_scanRequests ++ [libraryRequest s.requestId libraryInfo onlyModified]
                requestId := s.requestId + 1 }, []))
      ∧ (∀ (libraryInfo : LibraryInfo) (dirs : List String),
        (addDirectoryScanRequest s libraryInfo dirs).2
          = ({ s with
                m_scanRequests :=
                  s.m_scanRequests ++ [directoryRequest s.requestId libraryInfo dirs]
                requestId := s.requestId + 1 }, []))
      ∧ (r.type ≠ ScanType.Library → ∀ (tracks : TrackList) (onlyModified : Bool),
        (addTracksScanRequest d s tracks onlyModified).2
          = ({ s with
                m_scanRequests :=
                  tracksRequest d s.requestId tracks onlyModified :: s.m_scanRequests
                requestId := s.requestId + 1 }, []))
      ∧ ((r.type = ScanType.Files ∨ r.type = ScanType.Playlist) → ∀ files : List String,
        (addFilesScanRequest d s files).2
            = ({ s with
                  m_scanRequests := filesRequest d s.requestId files :: s.m_scanRequests
                  requestId := s.requestId + 1 }, [])
          ∧ (addPlaylistRequest d s files).2
            = ({ s with
                  m_scanRequests := playlistRequest d s.requestId files :: s.m_scanRequests
                  requestId := s.requestId + 1 }, [])) := by
  have hinv := reachable_inv hs
  have hq := currentRequest_ne_nil hc
  refine ⟨?_, ?_, ?_, ?_⟩
  · intro libraryInfo onlyModified
    obtain ⟨s2, hs2, hcase⟩ := addLibraryScanRequest_cases s libraryInfo onlyModified
    rcases hcase with ⟨h1, _⟩ | ⟨_, h2⟩
    · rw [h1, hs2]; rfl
    · exact absurd h2 hq
  · intro libraryInfo dirs
    obtain ⟨s2, hs2, hcase⟩ := addDirectoryScanRequest_cases s libraryInfo dirs
    rcases hcase with ⟨h1, _⟩ | ⟨_, h2⟩
    · rw [h1, hs2]; rfl
    · exact absurd h2 hq
  · intro hty tracks onlyModified
    have h2 := currentRequest_pushFront hinv hc
      (tracksRequest d s.requestId tracks onlyModified) rfl
    unfold tracksRequest at h2 ⊢
    unfold addTracksScanRequest
    simp only [nextRequestId]
    rw [h2]
    simp [hty, hq]
  · intro hty files
    have hty2 : ¬ (r.type = ScanType.Library ∨ r.type = ScanType.Tracks) := by
      rcases hty with h | h <;> rw [h] <;> simp
    constructor
    · have h2 := currentRequest_pushFront hinv hc (filesRequest d s.requestId files) rfl
      unfold filesRequest at h2 ⊢
      unfold addFilesScanRequest
      simp only [nextRequestId]
      rw [h2]
      simp [hty2, hq]
    · have h2 := currentRequest_pushFront hinv hc (playlistRequest d s.requestId files) rfl
      unfold playlistRequest at h2 ⊢
      unfold addPlaylistRequest
      simp only [nextRequestId]
      rw [h2]
      simp [hty2, hq]

/-- Witness for C14: a second library scan is enqueued while the first is
current. -/
theorem enqueue_without_preemption_witness :
    currentRequest (run dflt State.initial [Event.scanLibrary lib1])
        = some (libraryRequest 0 lib1 false)
      ∧ (addLibraryScanRequest (run dflt State.initial [Event.scanLibrary lib1]) lib1 true).2.2
          = []
      ∧ (addLibraryScanRequest (run dflt State.initial [Event.scanLibrary lib1])
          lib1 true).2.1.m_scanRequests
          = [libraryRequest 0 lib1 false, libraryRequest 1 lib1 true] :=
  ⟨rfl,
    congrArg Prod.snd
      ((enqueue_without_preemption dflt (run dflt State.initial [Event.scanLibrary lib1])
        (libraryRequest 0 lib1 false) (reachable_run Reachable.initial _) rfl).1 lib1 true),
    rfl⟩

/-- C15. Enqueue on an empty queue: in every reachable state whose queue is
empty (the state left by a deferred completion included), each enqueue
operation makes the inserted request the only queued request and the current
request, dispatches it to the scan worker in the same call, and sends nothing
else (no stop signal). -/
theorem enqueue_on_empty_queue (d : Defaults) (s : State) (hs : Reachable d s)
    (hq : s.m_scanRequests = []) :
    (∀ (libraryInfo : LibraryInfo) (onlyModified : Bool),
        (addLibraryScanRequest s libraryInfo onlyModified).2.2
            = [dispatchOf (libraryRequest s.requestId libraryInfo onlyModified)]
          ∧ (addLibraryScanRequest s libraryInfo onlyModified).2.1.m_scanRequests
            = [libraryRequest s.requestId libraryInfo onlyModified]
          ∧ currentRequest (addLibraryScanRequest s libraryInfo onlyModified).2.1
            = some (libraryRequest s.requestId libraryInfo onlyModified))
      ∧ (∀ (libraryInfo : LibraryInfo) (dirs : List String),
        (addDirectoryScanRequest s libraryInfo dirs).2.2
            = [dispatchOf (directoryRequest s.requestId libraryInfo dirs)]
          ∧ (addDirectoryScanRequest s libraryInfo dirs).2.1.m_scanRequests
            = [directoryRequest s.requestId libraryInfo dirs]
          ∧ currentRequest (addDirectoryScanRequest s libraryInfo dirs).2.1
            = some (directoryRequest s.requestId libraryInfo dirs))
      ∧ (∀ (tracks : TrackList) (onlyModified : Bool),
        (addTracksScanRequest d s tracks onlyModified).2.2
            = [dispatchOf (tracksRequest d s.requestId tracks onlyModified)]
          ∧ (addTracksScanRequest d s tracks onlyModified).2.1.m_scanRequests
            = [tracksRequest d s.requestId tracks onlyModified]
          ∧ currentRequest (addTracksScanRequest d s tracks onlyModified).2.1
            = some (tracksRequest d s.requestId tracks onlyModified))
      ∧ (∀ files : List String,
        ((addFilesScanRequest d s files).2.2 = [dispatchOf (filesRequest d s.requestId files)]
          ∧ (addFilesScanRequest d s files).2.1.m_scanRequests
            = [filesRequest d s.requestId files]
          ∧ currentRequest (addFilesScanRequest d s files).2.1
            = some (filesRequest d s.requestId files))
        ∧ ((addPlaylistRequest d s files).2.2
            = [dispatchOf (playlistRequest d s.requestId files)]
          ∧ (addPlaylistRequest d s files).2.1.m_scanRequests
            = [playlistRequest d s.requestId files]
          ∧ currentRequest (addPlaylistRequest d s files).2.1
            = some (playlistRequest d s.requestId files))) := by
  have hinv := reachable_inv hs
  have hne : (s.requestId == s.m_currentRequestId) = false := by
    have := hinv.cur_lt
    have h : s.requestId ≠ s.m_currentRequestId := by omega
    simpa using h
  refine ⟨?_, ?_, ?_, ?_⟩
  · intro libraryInfo onlyModified
    simp [addLibraryScanRequest, nextRequestId, hq, execNextRequest, libraryRequest,
      currentRequest, List.find?]
  · intro libraryInfo dirs
    simp [addDirectoryScanRequest, nextRequestId, hq, execNextRequest, directoryRequest,
      currentRequest, List.find?]
  · intro tracks onlyModified
    simp [addTracksScanRequest, nextRequestId, hq, execNextRequest, tracksRequest,
      currentRequest, List.find?, hne]
  · intro files
    constructor
    · simp [addFilesScanRequest, nextRequestId, hq, execNextRequest, filesRequest,
        currentRequest, List.find?, hne]
    · simp [addPlaylistRequest, nextRequestId, hq, execNextRequest, playlistRequest,
        currentRequest, List.find?, hne]

/-- Witness for C15: in the state left by a deferred file-scan completion the
queue is empty, and a library scan enqueued then is dispatched at once. -/
theorem enqueue_on_empty_queue_witness :
    (run dflt State.initial [Event.scanFiles ["f0"], Event.finished]).m_scanRequests = []
      ∧ (addLibraryScanRequest (run dflt State.initial [Event.scanFiles ["f0"], Event.finished])
          lib1 false).2.2
          = [dispatchOf (libraryRequest 1 lib1 false)] :=
  ⟨rfl,
    ((enqueue_on_empty_queue dflt
      (run dflt State.initial [Event.scanFiles ["f0"], Event.finished])
      (reachable_run Reachable.initial _) rfl).1 lib1 false).1⟩

/-- C16. Insertion position: for every state with queue `q`, `scanLibrary`,
`refreshLibrary` and directory scans leave the queue equal to `q` followed by
the new request, and `scanTracks`, `scanFiles` and `loadPlaylist` leave it
equal to the new request followed by `q`. -/
theorem insertion_position (d : Defaults) (s : State) :
    (∀ (libraryInfo : LibraryInfo) (onlyModified : Bool),
        (addLibraryScanRequest s libraryInfo onlyModified).2.1.m_scanRequests
          = s.m_scanRequests ++ [libraryRequest s.requestId libraryInfo onlyModified])
      ∧ (∀ (libraryInfo : LibraryInfo) (dirs : List String),
        (addDirectoryScanRequest s libraryInfo dirs).2.1.m_scanRequests
          = s.m_scanRequests ++ [directoryRequest s.requestId libraryInfo dirs])
      ∧ (∀ (tracks : TrackList) (onlyModified : Bool),
        (addTracksScanRequest d s tracks onlyModified).2.1.m_scanRequests
          = tracksRequest d s.requestId tracks onlyModified :: s.m_scanRequests)
      ∧ (∀ files : List String,
        (addFilesScanRequest d s files).2.1.m_scanRequests
            = filesRequest d s.requestId files :: s.m_scanRequests
          ∧ (addPlaylistRequest d s files).2.1.m_scanRequests
            = playlistRequest d s.requestId files :: s.m_scanRequests) :=
  ⟨fun libraryInfo onlyModified => addLibraryScanRequest_queue s libraryInfo onlyModified,
    fun libraryInfo dirs => addDirectoryScanRequest_queue s libraryInfo dirs,
    fun tracks onlyModified => addTracksScanRequest_queue d s tracks onlyModified,
    fun files => ⟨addFilesScanRequest_queue d s files, addPlaylistRequest_queue d s files⟩⟩

/-! ## The end-to-end scenario -/

/-- C17. The scenario of the specification, as a trace from the constructed
state: `scanLibrary(lib 1)` is dispatched at once; `scanTracks([t1])` calls
`pauseThread` and dispatches the track rescan, the library scan being second
in the queue; the next finish event removes the track rescan and dispatches
the library scan; `scanFiles([f1])` calls `pauseThread` and dispatches the file
scan with the library scan still queued; the next finish event, with no
ingestion event, removes the file scan, dispatches nothing and leaves no
current request; a tracks-ingested event dispatches the library scan; its
finish event removes it and leaves the queue empty. -/
theorem spec_scenario :
    (step dflt State.initial (Event.scanLibrary lib1)).2
        = [Signal.scanLibrary (libraryRequest 0 lib1 false)]
      ∧ (step dflt (run dflt State.initial [Event.scanLibrary lib1])
            (Event.scanTracks [{ id := 1 }] true)).2
          = [Signal.pauseThread, Signal.scanTracks (tracksRequest dflt 1 [{ id := 1 }] true)]
      ∧ (run dflt State.initial
            [Event.scanLibrary lib1, Event.scanTracks [{ id := 1 }] true]).m_scanRequests
          = [tracksRequest dflt 1 [{ id := 1 }] true, libraryRequest 0 lib1 false]
      ∧ (step dflt
            (run dflt State.initial [Event.scanLibrary lib1, Event.scanTracks [{ id := 1 }] true])
            Event.finished)
          = ({ m_scanRequests := [libraryRequest 0 lib1 false], m_currentRequestId := 0,
               m_currentRequestFinished := false, m_tracksAddedToLibrary := false,
               requestId := 2 },
              [Signal.scanLibrary (libraryRequest 0 lib1 false)])
      ∧ (step dflt
            (run dflt State.initial
              [Event.scanLibrary lib1, Event.scanTracks [{ id := 1 }] true, Event.finished])
            (Event.scanFiles ["f1"]))
          = ({ m_scanRequests := [filesRequest dflt 2 ["f1"], libraryRequest 0 lib1 false],
               m_currentRequestId := 2, m_currentRequestFinished := false,
               m_tracksAddedToLibrary := false, requestId := 3 },
              [Signal.pauseThread, Signal.scanFiles (filesRequest dflt 2 ["f1"])])
      ∧ (step dflt
            (run dflt State.initial
              [Event.scanLibrary lib1, Event.scanTracks [{ id := 1 }] true, Event.finished,
                Event.scanFiles ["f1"]])
            Event.finished).2 = []
      ∧ (run dflt State.initial
            [Event.scanLibrary lib1, Event.scanTracks [{ id := 1 }] true, Event.finished,
              Event.scanFiles ["f1"], Event.finished]).m_scanRequests
          = [libraryRequest 0 lib1 false]
      ∧ currentRequest
          (run dflt State.initial
            [Event.scanLibrary lib1, Event.scanTracks [{ id := 1 }] true, Event.finished,
              Event.scanFiles ["f1"], Event.finished]) = none
      ∧ (step dflt
            (run dflt State.initial
              [Event.scanLibrary lib1, Event.scanTracks [{ id := 1 }] true, Event.finished,
                Event.scanFiles ["f1"], Event.finished])
            Event.tracksScanned).2
          = [Signal.scanLibrary (libraryRequest 0 lib1 false)]
      ∧ currentRequest
          (run dflt State.initial
            [Event.scanLibrary lib1, Event.scanTracks [{ id := 1 }] true, Event.finished,
              Event.scanFiles ["f1"], Event.finished, Event.tracksScanned])
          = some (libraryRequest 0 lib1 false)
      ∧ (step dflt
            (run dflt State.initial
              [Event.scanLibrary lib1, Event.scanTracks [{ id := 1 }] true, Event.finished,
                Event.scanFiles ["f1"], Event.finished, Event.tracksScanned])
            Event.finished)
          = ({ m_scanRequests := [], m_currentRequestId := -1, m_currentRequestFinished := true,
               m_tracksAddedToLibrary := false, requestId := 3 }, []) :=
  ⟨rfl, rfl, rfl, rfl, rfl, rfl, rfl, rfl, rfl, rfl, rfl⟩

/-! ## Id uniqueness and request handles -/

/-- With pairwise different ids at most one request carries a given id. -/
theorem filter_id_length_le_one (l : List LibraryScanRequest) (c : Int)
    (hnd : (l.map (fun request => request.id)).Nodup) :
    (l.filter (fun request => request.id == c)).length ≤ 1 := by
  induction l with
  | nil => simp
  | cons a l ih =>
    rw [List.map_cons, List.nodup_cons] at hnd
    by_cases ha : a.id = c
    · have hnone : l.filter (fun request => request.id == c) = [] := by
        rw [List.filter_eq_nil_iff]
        intro x hx hxc
        have hxc2 : x.id = c := by simpa using hxc
        exact hnd.1 (List.mem_map.2 ⟨x, hx, by rw [hxc2, ha]⟩)
      rw [List.filter_cons_of_pos (by simpa using ha), hnone]
      simp
    · rw [List.filter_cons_of_neg (by simpa using ha)]
      exact ih hnd.2

/-- C18. Id uniqueness: in every state reachable from the constructed state by
any sequence of events, no two requests in the queue have the same id (ids
being unbounded integers), so queued requests with the same id are the same
request and at most one queued request matches the current request id. -/
theorem id_uniqueness (d : Defaults) (s : State) (hs : Reachable d s) :
    (s.m_scanRequests.map (fun request => request.id)).Nodup
      ∧ (∀ a ∈ s.m_scanRequests, ∀ b ∈ s.m_scanRequests, a.id = b.id → a = b)
      ∧ (s.m_scanRequests.filter
          (fun request => request.id == s.m_currentRequestId)).length ≤ 1 := by
  have hnd : (s.m_scanRequests.map (fun request => request.id)).Nodup := reachable_uniqueIds hs
  refine ⟨hnd, ?_, filter_id_length_le_one _ _ hnd⟩
  intro a ha b hb hab
  exact List.inj_on_of_nodup_map hnd ha hb hab

/-- Witness for C18: three requests are queued after a library scan, a file
scan and a track rescan have been enqueued. -/
theorem id_uniqueness_witness :
    (run dflt State.initial
        [Event.scanLibrary lib1, Event.scanFiles ["f1"],
          Event.scanTracks [{ id := 1 }] true]).m_scanRequests.length = 3
      ∧ ((run dflt State.initial
          [Event.scanLibrary lib1, Event.scanFiles ["f1"],
            Event.scanTracks [{ id := 1 }] true]).m_scanRequests.map
            (fun request => request.id)).Nodup :=
  ⟨rfl,
    (id_uniqueness dflt
      (run dflt State.initial
        [Event.scanLibrary lib1, Event.scanFiles ["f1"], Event.scanTracks [{ id := 1 }] true])
      (reachable_run Reachable.initial _)).1⟩

/-- The handle of an enqueue carries the next id and the kind of the inserted
request. -/
theorem handleOf_eq (d : Defaults) (s : State) (e : Event) (h : ScanRequest)
    (hh : handleOf d s e = some h) :
    h.id = s.requestId
      ∧ ∃ n : LibraryScanRequest, n.id = h.id ∧ n.type = h.type
          ∧ ((step d s e).1.m_scanRequests = n :: s.m_scanRequests
            ∨ (step d s e).1.m_scanRequests = s.m_scanRequests ++ [n]) := by
  cases e with
  | refreshLibrary library =>
    have hv : h = { type := ScanType.Library, id := s.requestId } := by
      simp only [handleOf, Option.some.injEq] at hh
      rw [← hh]; unfold addLibraryScanRequest; dsimp only [nextRequestId]; split <;> rfl
    subst hv
    exact ⟨rfl, _, rfl, rfl, Or.inr (addLibraryScanRequest_queue s library true)⟩
  | scanLibrary library =>
    have hv : h = { type := ScanType.Library, id := s.requestId } := by
      simp only [handleOf, Option.some.injEq] at hh
      rw [← hh]; unfold addLibraryScanRequest; dsimp only [nextRequestId]; split <;> rfl
    subst hv
    exact ⟨rfl, _, rfl, rfl, Or.inr (addLibraryScanRequest_queue s library false)⟩
  | directoriesChanged library dirs =>
    have hv : h = { type := ScanType.Library, id := s.requestId } := by
      simp only [handleOf, Option.some.injEq] at hh
      rw [← hh]; unfold addDirectoryScanRequest; dsimp only [nextRequestId]; split <;> rfl
    subst hv
    exact ⟨rfl, _, rfl, rfl, Or.inr (addDirectoryScanRequest_queue s library dirs)⟩
  | scanTracks tracks onlyModified =>
    have hv : h = { type := ScanType.Tracks, id := s.requestId } := by
      simp only [handleOf, Option.some.injEq] at hh
      rw [← hh]; unfold addTracksScanRequest; dsimp only [nextRequestId]
      split
      · split
        · rfl
        · split <;> rfl
      · split <;> rfl
    subst hv
    exact ⟨rfl, _, rfl, rfl, Or.inl (addTracksScanRequest_queue d s tracks onlyModified)⟩
  | scanFiles files =>
    have hv : h = { type := ScanType.Files, id := s.requestId } := by
      simp only [handleOf, Option.some.injEq] at hh
      rw [← hh]; unfold addFilesScanRequest; dsimp only [nextRequestId]
      split
      · split
        · rfl
        · split <;> rfl
      · split <;> rfl
    subst hv
    exact ⟨rfl, _, rfl, rfl, Or.inl (addFilesScanRequest_queue d s files)⟩
  | loadPlaylist files =>
    have hv : h = { type := ScanType.Playlist, id := s.requestId } := by
      simp only [handleOf, Option.some.injEq] at hh
      rw [← hh]; unfold addPlaylistRequest; dsimp only [nextRequestId]
      split
      · split
        · rfl
        · split <;> rfl
      · split <;> rfl
    subst hv
    exact ⟨rfl, _, rfl, rfl, Or.inl (addPlaylistRequest_queue d s files)⟩
  | finished => simp [handleOf] at hh
  | progressChanged current file total => simp [handleOf] at hh
  | tracksScanned => simp [handleOf] at hh
  | cancel id => simp [handleOf] at hh
  | libraryRemoved id => simp [handleOf] at hh

/-- The id counter never decreases, and an enqueue advances it by one. -/
theorem step_requestId (d : Defaults) (s : State) (e : Event) :
    s.requestId ≤ (step d s e).1.requestId
      ∧ ((handleOf d s e).isSome = true → (step d s e).1.requestId = s.requestId + 1) := by
  cases e with
  | refreshLibrary library =>
    obtain ⟨s2, hs2, hc⟩ := addLibraryScanRequest_cases s library true
    have h1 : (step d s (Event.refreshLibrary library)).1.requestId = s.requestId + 1 := by
      show (addLibraryScanRequest s library true).2.1.requestId = _
      rcases hc with ⟨hc, _⟩ | ⟨hc, _⟩ <;> rw [hc]
      · rw [hs2]
      · rw [execNextRequest_requestId, hs2]
    exact ⟨by omega, fun _ => h1⟩
  | scanLibrary library =>
    obtain ⟨s2, hs2, hc⟩ := addLibraryScanRequest_cases s library false
    have h1 : (step d s (Event.scanLibrary library)).1.requestId = s.requestId + 1 := by
      show (addLibraryScanRequest s library false).2.1.requestId = _
      rcases hc with ⟨hc, _⟩ | ⟨hc, _⟩ <;> rw [hc]
      · rw [hs2]
      · rw [execNextRequest_requestId, hs2]
    exact ⟨by omega, fun _ => h1⟩
  | directoriesChanged library dirs =>
    obtain ⟨s2, hs2, hc⟩ := addDirectoryScanRequest_cases s library dirs
    have h1 : (step d s (Event.directoriesChanged library dirs)).1.requestId
        = s.requestId + 1 := by
      show (addDirectoryScanRequest s library dirs).2.1.requestId = _
      rcases hc with ⟨hc, _⟩ | ⟨hc, _⟩ <;> rw [hc]
      · rw [hs2]
      · rw [execNextRequest_requestId, hs2]
    exact ⟨by omega, fun _ => h1⟩
  | scanTracks tracks onlyModified =>
    obtain ⟨s2, hs2, hc⟩ := addTracksScanRequest_cases d s tracks onlyModified
    have h1 : (step d s (Event.scanTracks tracks onlyModified)).1.requestId
        = s.requestId + 1 := by
      show (addTracksScanRequest d s tracks onlyModified).2.1.requestId = _
      rcases hc with hc | hc | hc <;> rw [hc]
      · rw [hs2]
      · rw [execNextRequest_requestId, hs2]
      · rw [execNextRequest_requestId, hs2]
    exact ⟨by omega, fun _ => h1⟩
  | scanFiles files =>
    obtain ⟨s2, hs2, hc⟩ := addFilesScanRequest_cases d s files
    have h1 : (step d s (Event.scanFiles files)).1.requestId = s.requestId + 1 := by
      show (addFilesScanRequest d s files).2.1.requestId = _
      rcases hc with hc | hc | hc <;> rw [hc]
      · rw [hs2]
      · rw [execNextRequest_requestId, hs2]
      · rw [execNextRequest_requestId, hs2]
    exact ⟨by omega, fun _ => h1⟩
  | loadPlaylist files =>
    obtain ⟨s2, hs2, hc⟩ := addPlaylistRequest_cases d s files
    have h1 : (step d s (Event.loadPlaylist files)).1.requestId = s.requestId + 1 := by
      show (addPlaylistRequest d s files).2.1.requestId = _
      rcases hc with hc | hc | hc <;> rw [hc]
      · rw [hs2]
      · rw [execNextRequest_requestId, hs2]
      · rw [execNextRequest_requestId, hs2]
    exact ⟨by omega, fun _ => h1⟩
  | finished =>
    refine ⟨?_, fun h => by simp [handleOf] at h⟩
    show s.requestId ≤ (finishScanRequest s).1.requestId
    unfold finishScanRequest
    split
    · dsimp only
      split
      · exact le_refl _
      · rw [execNextRequest_requestId]
    · rw [execNextRequest_requestId]
  | progressChanged current file total =>
    refine ⟨?_, fun h => by simp [handleOf] at h⟩
    show s.requestId ≤ (updateProgress d s current file total).1.requestId
    unfold updateProgress
    split <;> exact le_refl _
  | tracksScanned =>
    refine ⟨?_, fun h => by simp [handleOf] at h⟩
    show s.requestId ≤ (tracksScanned s).1.requestId
    unfold tracksScanned
    dsimp only
    split
    · rw [execNextRequest_requestId]
    · exact le_refl _
  | cancel id =>
    refine ⟨?_, fun h => by simp [handleOf] at h⟩
    show s.requestId ≤ (cancelScanRequest s id).1.requestId
    unfold cancelScanRequest
    split <;> exact le_refl _
  | libraryRemoved id =>
    refine ⟨?_, fun h => by simp [handleOf] at h⟩
    show s.requestId ≤ (libraryRemoved s id).1.requestId
    unfold libraryRemoved
    split
    · exact le_refl _
    · split
      · split <;> exact le_refl _
      · exact le_refl _

theorem run_requestId (d : Defaults) (es : List Event) :
    ∀ s : State, s.requestId ≤ (run d s es).requestId := by
  induction es with
  | nil => intro s; exact le_refl _
  | cons e es ih =>
    intro s
    exact le_trans (step_requestId d s e).1 (ih (step d s e).1)

/-- C19. Request handles: every enqueue operation returns a handle whose id
(and kind) is that of the request it inserted into the queue, namely the next
value of the id counter, and whose cancel capability is `cancel` on that id;
the handle of any later enqueue, whatever events are handled in between,
carries a strictly larger id (ids being unbounded integers), and in a
reachable state the returned id is larger than the id of every queued request. -/
theorem request_handles (d : Defaults) (s : State) (e : Event) (h : ScanRequest)
    (hh : handleOf d s e = some h) :
    h.id = s.requestId
      ∧ (∃ n : LibraryScanRequest, n.id = h.id ∧ n.type = h.type
          ∧ ((step d s e).1.m_scanRequests = n :: s.m_scanRequests
            ∨ (step d s e).1.m_scanRequests = s.m_scanRequests ++ [n]))
      ∧ (∀ t : State, h.cancel t = cancelScanRequest t h.id)
      ∧ (∀ (es : List Event) (e2 : Event) (h2 : ScanRequest),
          handleOf d (run d (step d s e).1 es) e2 = some h2 → h.id < h2.id)
      ∧ (Reachable d s → ∀ x ∈ s.m_scanRequests, x.id < h.id) := by
  have h1 := handleOf_eq d s e h hh
  refine ⟨h1.1, h1.2, fun _ => rfl, ?_, ?_⟩
  · intro es e2 h2 hh2
    have h2id := (handleOf_eq d _ e2 h2 hh2).1
    have hstep := (step_requestId d s e).2 (by rw [hh]; rfl)
    have hrun := run_requestId d es (step d s e).1
    rw [h2id, h1.1]
    omega
  · intro hs x hx
    rw [h1.1]
    exact (reachable_inv hs).ids_lt x hx

/-- Witness for C19: the handle of a first library scan has id 0, and the
handle of a file scan enqueued after a finish event has id 1. -/
theorem request_handles_witness :
    handleOf dflt State.initial (Event.scanLibrary lib1)
        = some { type := ScanType.Library, id := 0 }
      ∧ handleOf dflt
          (run dflt (step dflt State.initial (Event.scanLibrary lib1)).1 [Event.finished])
          (Event.scanFiles ["f1"])
          = some { type := ScanType.Files, id := 1 }
      ∧ (0 : Int) < 1 :=
  ⟨rfl, rfl,
    (request_handles dflt State.initial (Event.scanLibrary lib1)
      { type := ScanType.Library, id := 0 } rfl).2.2.2.1 [Event.finished]
      (Event.scanFiles ["f1"]) { type := ScanType.Files, id := 1 } rfl⟩

/-! ## Write-back coalescer: staging and flushing one channel -/

/-- Staging into a channel appends to its buffer, restarts its timer with the
given id and leaves the other channels alone. -/
theorem stage_spec (w : WriteBack) (c : Channel) (tracks : TrackList) (id : Int) :
    (stage w c tracks id).pending c = w.pending c ++ tracks
      ∧ ((stage w c tracks id).timer c).timerId = id
      ∧ ∀ c2 : Channel, c2 ≠ c →
          (stage w c tracks id).pending c2 = w.pending c2
            ∧ (stage w c tracks id).timer c2 = w.timer c2 := by
  cases c
  · refine ⟨rfl, rfl, ?_⟩
    intro c2 hc2
    cases c2
    · exact absurd rfl hc2
    · exact ⟨rfl, rfl⟩
    · exact ⟨rfl, rfl⟩
  · refine ⟨rfl, rfl, ?_⟩
    intro c2 hc2
    cases c2
    · exact ⟨rfl, rfl⟩
    · exact absurd rfl hc2
    · exact ⟨rfl, rfl⟩
  · refine ⟨rfl, rfl, ?_⟩
    intro c2 hc2
    cases c2
    · exact ⟨rfl, rfl⟩
    · exact ⟨rfl, rfl⟩
    · exact absurd rfl hc2

/-- A burst appends its track lists in staging order and leaves the other
channels alone; after a non-empty burst the timer runs with an id of the burst. -/
theorem stageAll_spec (c : Channel) (ps : List (TrackList × Int)) :
    ∀ w : WriteBack,
      (stageAll c w ps).pending c = w.pending c ++ batchOf ps
        ∧ (∀ c2 : Channel, c2 ≠ c →
            (stageAll c w ps).pending c2 = w.pending c2
              ∧ (stageAll c w ps).timer c2 = w.timer c2)
        ∧ (ps ≠ [] → ∃ p ∈ ps, ((stageAll c w ps).timer c).timerId = p.2) := by
  induction ps with
  | nil =>
    intro w
    exact ⟨by simp [stageAll, batchOf], fun _ _ => ⟨rfl, rfl⟩, fun h => absurd rfl h⟩
  | cons p ps ih =>
    intro w
    have hst := stage_spec w c p.1 p.2
    have hrec := ih (stage w c p.1 p.2)
    refine ⟨?_, ?_, ?_⟩
    · show (stageAll c (stage w c p.1 p.2) ps).pending c = _
      rw [hrec.1, hst.1, batchOf, List.append_assoc]
    · intro c2 hc2
      show (stageAll c (stage w c p.1 p.2) ps).pending c2 = _
        ∧ (stageAll c (stage w c p.1 p.2) ps).timer c2 = _
      rw [(hrec.2.1 c2 hc2).1, (hrec.2.1 c2 hc2).2]
      exact hst.2.2 c2 hc2
    · intro _
      show ∃ q ∈ p :: ps, ((stageAll c (stage w c p.1 p.2) ps).timer c).timerId = q.2
      by_cases hps : ps = []
      · subst hps
        exact ⟨p, List.mem_cons_self _ _, hst.2.1⟩
      · obtain ⟨q, hq, hid⟩ := hrec.2.2 hps
        exact ⟨q, List.mem_cons_of_mem _ hq, hid⟩

/-- A timer event carrying the id of the timer of channel `c`, when no other
channel has a timer with that id, flushes exactly channel `c`. -/
theorem timerEvent_channel (w : WriteBack) (c : Channel)
    (hother : ∀ c2 : Channel, c2 ≠ c → (w.timer c2).timerId ≠ (w.timer c).timerId) :
    (timerEvent w (w.timer c).timerId).2 = [flushCall c (w.pending c)]
      ∧ (timerEvent w (w.timer c).timerId).1.pending c = []
      ∧ ((timerEvent w (w.timer c).timerId).1.timer c).timerId = 0
      ∧ ∀ c2 : Channel, c2 ≠ c →
          (timerEvent w (w.timer c).timerId).1.pending c2 = w.pending c2
            ∧ (timerEvent w (w.timer c).timerId).1.timer c2 = w.timer c2 := by
  cases c
  · have h : timerEvent w (w.timer Channel.metadata).timerId
        = ({ w with m_writeTimer := w.m_writeTimer.stop, m_tracksPendingWrite := [] },
            [DbCall.updateTracks w.m_tracksPendingWrite true]) := by
      unfold timerEvent
      exact if_pos rfl
    rw [h]
    refine ⟨rfl, rfl, rfl, ?_⟩
    intro c2 hc2
    cases c2
    · exact absurd rfl hc2
    · exact ⟨rfl, rfl⟩
    · exact ⟨rfl, rfl⟩
  · have h1 : ¬ (w.timer Channel.stats).timerId = w.m_writeTimer.timerId :=
      fun h => hother Channel.metadata (by decide) h.symm
    have h : timerEvent w (w.timer Channel.stats).timerId
        = ({ w with m_updateTimer := w.m_updateTimer.stop, m_tracksPendingUpdate := [] },
            [DbCall.updateTrackStats w.m_tracksPendingUpdate false]) := by
      unfold timerEvent
      rw [if_neg h1]
      exact if_pos rfl
    rw [h]
    refine ⟨rfl, rfl, rfl, ?_⟩
    intro c2 hc2
    cases c2
    · exact ⟨rfl, rfl⟩
    · exact absurd rfl hc2
    · exact ⟨rfl, rfl⟩
  · have h1 : ¬ (w.timer Channel.playcounts).timerId = w.m_writeTimer.timerId :=
      fun h => hother Channel.metadata (by decide) h.symm
    have h2 : ¬ (w.timer Channel.playcounts).timerId = w.m_updateTimer.timerId :=
      fun h => hother Channel.stats (by decide) h.symm
    have h : timerEvent w (w.timer Channel.playcounts).timerId
        = ({ w with m_playcountTimer := w.m_playcountTimer.stop,
                    m_tracksPendingPlaycountUpdate := [] },
            [DbCall.updateTrackStats w.m_tracksPendingPlaycountUpdate true]) := by
      unfold timerEvent
      rw [if_neg h1, if_neg h2]
      exact if_pos rfl
    rw [h]
    refine ⟨rfl, rfl, rfl, ?_⟩
    intro c2 hc2
    cases c2
    · exact ⟨rfl, rfl⟩
    · exact ⟨rfl, rfl⟩
    · exact absurd rfl hc2

/-- After a non-empty burst with fresh timer ids, no other channel has a timer
with the id of the timer of the staged channel. -/
theorem stageAll_other_timers (c : Channel) (w : WriteBack) (ps : List (TrackList × Int))
    (hps : ps ≠ []) (hids : ∀ p ∈ ps, FreshTimerId w c p.2) :
    ∀ c2 : Channel, c2 ≠ c →
      ((stageAll c w ps).timer c2).timerId ≠ ((stageAll c w ps).timer c).timerId := by
  intro c2 hc2
  have hspec := stageAll_spec c ps w
  obtain ⟨p, hp, hid⟩ := hspec.2.2 hps
  rw [(hspec.2.1 c2 hc2).2, hid]
  exact (hids p hp).2 c2 hc2

/-- C20. Burst coalescing: for each channel and every non-empty burst of
staging calls into it, starting from an empty buffer of that channel and with
no timer expiry in between, the next timer expiry of the channel produces
exactly one persistence-worker call, whose batch is the staged track lists
concatenated in staging order; and after that expiry a second non-empty burst
followed by an expiry produces exactly one further call, which carries only
the tracks of the second burst. Timer ids are those handed out by the event
dispatcher: not 0 and different from the ids of the other channels' timers. -/
theorem burst_coalescing (c : Channel) (w : WriteBack)
    (first second : List (TrackList × Int))
    (hempty : w.pending c = []) (hfirst : first ≠ []) (hsecond : second ≠ [])
    (hids1 : ∀ p ∈ first, FreshTimerId w c p.2)
    (hids2 : ∀ p ∈ second, FreshTimerId w c p.2) :
    (timerEvent (stageAll c w first) ((stageAll c w first).timer c).timerId).2
        = [flushCall c (batchOf first)]
      ∧ (timerEvent
          (stageAll c
            (timerEvent (stageAll c w first) ((stageAll c w first).timer c).timerId).1 second)
          ((stageAll c
            (timerEvent (stageAll c w first) ((stageAll c w first).timer c).timerId).1
            second).timer c).timerId).2
          = [flushCall c (batchOf second)] := by
  have hspec1 := stageAll_spec c first w
  have hflush1 := timerEvent_channel (stageAll c w first) c
    (stageAll_other_timers c w first hfirst hids1)
  have hids2b : ∀ p ∈ second,
      FreshTimerId
        (timerEvent (stageAll c w first) ((stageAll c w first).timer c).timerId).1 c p.2 := by
    intro p hp
    refine ⟨(hids2 p hp).1, ?_⟩
    intro c2 hc2
    rw [(hflush1.2.2.2 c2 hc2).2, (hspec1.2.1 c2 hc2).2]
    exact (hids2 p hp).2 c2 hc2
  have hspec2 := stageAll_spec c second
    (timerEvent (stageAll c w first) ((stageAll c w first).timer c).timerId).1
  have hflush2 := timerEvent_channel _ c
    (stageAll_other_timers c
      (timerEvent (stageAll c w first) ((stageAll c w first).timer c).timerId).1 second
      hsecond hids2b)
  refine ⟨?_, ?_⟩
  · rw [hflush1.1, hspec1.1, hempty, List.nil_append]
  · rw [hflush2.1, hspec2.1, hflush1.2.1, List.nil_append]

/-- Witness for C20: two staging calls into the stats channel, an expiry, two
further staging calls and a second expiry. -/
theorem burst_coalescing_witness :
    (timerEvent
        (stageAll Channel.stats WriteBack.initial [([{ id := 1 }], 5), ([{ id := 2 }], 6)])
        6).2
        = [DbCall.updateTrackStats [{ id := 1 }, { id := 2 }] false]
      ∧ (timerEvent
          (stageAll Channel.stats
            (timerEvent
              (stageAll Channel.stats WriteBack.initial [([{ id := 1 }], 5), ([{ id := 2 }], 6)])
              6).1
            [([{ id := 3 }], 7), ([{ id := 4 }, { id := 5 }], 8)])
          8).2
          = [DbCall.updateTrackStats [{ id := 3 }, { id := 4 }, { id := 5 }] false] :=
  burst_coalescing Channel.stats WriteBack.initial
    [([{ id := 1 }], 5), ([{ id := 2 }], 6)]
    [([{ id := 3 }], 7), ([{ id := 4 }, { id := 5 }], 8)]
    rfl (by simp) (by simp)
    (by
      intro p hp
      simp only [List.mem_cons, List.mem_singleton, List.not_mem_nil, or_false] at hp
      rcases hp with hp | hp <;> subst hp <;> refine ⟨by decide, ?_⟩ <;> intro c2 _ <;>
        cases c2 <;> decide)
    (by
      intro p hp
      simp only [List.mem_cons, List.mem_singleton, List.not_mem_nil, or_false] at hp
      rcases hp with hp | hp <;> subst hp <;> refine ⟨by decide, ?_⟩ <;> intro c2 _ <;>
        cases c2 <;> decide)

/-! ## Write-back coalescer: nothing is lost, steps, independence -/

/-- Along a well-timed sequence of events of one channel, the batches handed
over followed by the final buffer are the initial buffer followed by
everything staged. -/
theorem channel_conservation (c : Channel) (es : List ChannelEvent) :
    ∀ w : WriteBack, WellTimed c w es →
      batchesOf (channelCalls c w es) ++ (channelRun c w es).pending c
        = w.pending c ++ stagedOf es := by
  induction es with
  | nil =>
    intro w _
    simp [channelCalls, channelRun, batchesOf, stagedOf]
  | cons e es ih =>
    intro w hw
    cases e with
    | stage tracks id =>
      have hrec := ih (stage w c tracks id) hw.2
      show batchesOf ([] ++ channelCalls c (stage w c tracks id) es)
          ++ (channelRun c (stage w c tracks id) es).pending c = _
      rw [List.nil_append, hrec, (stage_spec w c tracks id).1, List.append_assoc]
      rfl
    | expiry =>
      have hflush := timerEvent_channel w c hw.1
      have hrec := ih (timerEvent w (w.timer c).timerId).1 hw.2
      show batchesOf ((timerEvent w (w.timer c).timerId).2
            ++ channelCalls c (timerEvent w (w.timer c).timerId).1 es)
          ++ (channelRun c (timerEvent w (w.timer c).timerId).1 es).pending c = _
      rw [hflush.1]
      show ((flushCall c (w.pending c)).batch
            ++ batchesOf (channelCalls c (timerEvent w (w.timer c).timerId).1 es))
          ++ (channelRun c (timerEvent w (w.timer c).timerId).1 es).pending c = _
      rw [List.append_assoc, hrec, hflush.2.1, List.nil_append]
      have hb : (flushCall c (w.pending c)).batch = w.pending c := by
        cases c <;> rfl
      rw [hb]
      rfl

/-- C21. No staged mutation is lost: for every sequence of staging calls and
timer expiries on one channel that starts from an empty buffer of that channel,
the batches handed to the persistence worker, concatenated in call order and
followed by the channel's remaining pending buffer, equal the staged track
lists concatenated in call order. Timer ids are those of the event dispatcher:
fresh when handed out, and telling the expiring timer apart from the timers of
the other channels. -/
theorem no_staged_mutation_lost (c : Channel) (w : WriteBack) (es : List ChannelEvent)
    (hempty : w.pending c = []) (htimed : WellTimed c w es) :
    batchesOf (channelCalls c w es) ++ (channelRun c w es).pending c = stagedOf es := by
  rw [channel_conservation c es w htimed, hempty, List.nil_append]

/-- Witness for C21: stage, stage, expiry, stage on the play-count channel. -/
theorem no_staged_mutation_lost_witness :
    channelCalls Channel.playcounts WriteBack.initial
        [ChannelEvent.stage [{ id := 1 }] 5, ChannelEvent.stage [{ id := 2 }] 6,
          ChannelEvent.expiry, ChannelEvent.stage [{ id := 3 }] 7]
        = [DbCall.updateTrackStats [{ id := 1 }, { id := 2 }] true]
      ∧ (channelRun Channel.playcounts WriteBack.initial
          [ChannelEvent.stage [{ id := 1 }] 5, ChannelEvent.stage [{ id := 2 }] 6,
            ChannelEvent.expiry, ChannelEvent.stage [{ id := 3 }] 7]).pending Channel.playcounts
          = [{ id := 3 }]
      ∧ batchesOf
            (channelCalls Channel.playcounts WriteBack.initial
              [ChannelEvent.stage [{ id := 1 }] 5, ChannelEvent.stage [{ id := 2 }] 6,
                ChannelEvent.expiry, ChannelEvent.stage [{ id := 3 }] 7])
          ++ (channelRun Channel.playcounts WriteBack.initial
              [ChannelEvent.stage [{ id := 1 }] 5, ChannelEvent.stage [{ id := 2 }] 6,
                ChannelEvent.expiry, ChannelEvent.stage [{ id := 3 }] 7]).pending
              Channel.playcounts
          = [{ id := 1 }, { id := 2 }, { id := 3 }] :=
  ⟨rfl, rfl,
    no_staged_mutation_lost Channel.playcounts WriteBack.initial
      [ChannelEvent.stage [{ id := 1 }] 5, ChannelEvent.stage [{ id := 2 }] 6,
        ChannelEvent.expiry, ChannelEvent.stage [{ id := 3 }] 7]
      rfl
      ⟨⟨by decide, fun c2 _ => by cases c2 <;> decide⟩,
        ⟨by decide, fun c2 _ => by cases c2 <;> decide⟩,
        fun c2 hc2 => by cases c2 <;> first | decide | exact absurd rfl hc2,
        ⟨by decide, fun c2 _ => by cases c2 <;> decide⟩, trivial⟩⟩

/-- C22. Stage and flush steps. Staging into a channel sets its pending buffer
to the old buffer followed by the staged tracks and leaves its timer running
(with the id handed out, which is not 0). A timer event with the id of the
channel's timer stops that timer, hands the whole pending buffer to the
persistence worker in one call and leaves the buffer empty: the metadata
channel calls `updateTracks(batch, true)`, the stats channel
`updateTrackStats(batch, false)` and the play-count channel
`updateTrackStats(batch, true)`; for the stats and play-count channels the id
must not be the id of a timer tested earlier in `timerEvent`. -/
theorem stage_and_flush_steps (w : WriteBack) :
    (∀ (tracks : TrackList) (id : Int), id ≠ 0 →
        ((writeUpdatedTracks w tracks id).m_tracksPendingWrite
            = w.m_tracksPendingWrite ++ tracks
          ∧ (writeUpdatedTracks w tracks id).m_writeTimer.isActive = true
          ∧ (writeUpdatedTracks w tracks id).m_writeTimer.timerId = id)
        ∧ ((saveUpdatedTrackStats w tracks id).m_tracksPendingUpdate
            = w.m_tracksPendingUpdate ++ tracks
          ∧ (saveUpdatedTrackStats w tracks id).m_updateTimer.isActive = true
          ∧ (saveUpdatedTrackStats w tracks id).m_updateTimer.timerId = id)
        ∧ ((saveUpdatedTrackPlaycounts w tracks id).m_tracksPendingPlaycountUpdate
            = w.m_tracksPendingPlaycountUpdate ++ tracks
          ∧ (saveUpdatedTrackPlaycounts w tracks id).m_playcountTimer.isActive = true
          ∧ (saveUpdatedTrackPlaycounts w tracks id).m_playcountTimer.timerId = id))
      ∧ timerEvent w w.m_writeTimer.timerId
          = ({ w with m_writeTimer := { timerId := 0 }, m_tracksPendingWrite := [] },
              [DbCall.updateTracks w.m_tracksPendingWrite true])
      ∧ (w.m_updateTimer.timerId ≠ w.m_writeTimer.timerId →
          timerEvent w w.m_updateTimer.timerId
            = ({ w with m_updateTimer := { timerId := 0 }, m_tracksPendingUpdate := [] },
                [DbCall.updateTrackStats w.m_tracksPendingUpdate false]))
      ∧ (w.m_playcountTimer.timerId ≠ w.m_writeTimer.timerId →
          w.m_playcountTimer.timerId ≠ w.m_updateTimer.timerId →
          timerEvent w w.m_playcountTimer.timerId
            = ({ w with m_playcountTimer := { timerId := 0 },
                        m_tracksPendingPlaycountUpdate := [] },
                [DbCall.updateTrackStats w.m_tracksPendingPlaycountUpdate true])) := by
  refine ⟨?_, ?_, ?_, ?_⟩
  · intro tracks id hid
    have hact : (QBasicTimer.mk id).isActive = true := by
      simp [QBasicTimer.isActive, hid]
    exact ⟨⟨rfl, hact, rfl⟩, ⟨rfl, hact, rfl⟩, ⟨rfl, hact, rfl⟩⟩
  · unfold timerEvent
    exact if_pos rfl
  · intro h1
    unfold timerEvent
    rw [if_neg h1]
    exact if_pos rfl
  · intro h1 h2
    unfold timerEvent
    rw [if_neg h1, if_neg h2]
    exact if_pos rfl

/-- Witness for C22: the stats timer runs with id 6 while the metadata timer
runs with id 5; the expiry of the stats timer flushes the stats buffer. -/
theorem stage_and_flush_steps_witness :
    timerEvent
        (saveUpdatedTrackStats (writeUpdatedTracks WriteBack.initial [{ id := 1 }] 5)
          [{ id := 2 }] 6) 6
      = ({ m_writeTimer := { timerId := 5 }, m_tracksPendingWrite := [{ id := 1 }],
           m_updateTimer := { timerId := 0 }, m_tracksPendingUpdate := [],
           m_playcountTimer := { timerId := 0 }, m_tracksPendingPlaycountUpdate := [] },
          [DbCall.updateTrackStats [{ id := 2 }] false]) :=
  (stage_and_flush_steps
    (saveUpdatedTrackStats (writeUpdatedTracks WriteBack.initial [{ id := 1 }] 5)
      [{ id := 2 }] 6)).2.2.1 (by decide)

/-- C23. Dispatch step: on a non-empty queue `execNextRequest` leaves the queue
unchanged, sets the current request id to the id of the front request, clears
the tracks-ingested flag and the request-finished flag and issues exactly one
worker operation, chosen by the kind of the front request: `scanFiles` for
Files, `scanTracks` for Tracks, `scanPlaylist` for Playlist, and for Library
the full library scan when the directory list of the request is empty and the
directory scan otherwise; on an empty queue it changes nothing and issues no
operation. -/
theorem dispatch_step (s : State) :
    (∀ (front : LibraryScanRequest) (rest : List LibraryScanRequest),
        s.m_scanRequests = front :: rest →
        (execNextRequest s).1
            = { s with
                m_currentRequestId := front.id
                m_currentRequestFinished := false
                m_tracksAddedToLibrary := false }
          ∧ (execNextRequest s).1.m_scanRequests = s.m_scanRequests
          ∧ (front.type = ScanType.Files → (execNextRequest s).2 = [Signal.scanFiles front])
          ∧ (front.type = ScanType.Tracks → (execNextRequest s).2 = [Signal.scanTracks front])
          ∧ (front.type = ScanType.Playlist →
              (execNextRequest s).2 = [Signal.scanPlaylist front])
          ∧ (front.type = ScanType.Library → front.dirs = [] →
              (execNextRequest s).2 = [Signal.scanLibrary front])
          ∧ (front.type = ScanType.Library → front.dirs ≠ [] →
              (execNextRequest s).2 = [Signal.scanDirectory front]))
      ∧ (s.m_scanRequests = [] → execNextRequest s = (s, [])) := by
  refine ⟨?_, execNextRequest_nil s⟩
  intro front rest hq
  rw [execNextRequest_cons s front rest hq]
  refine ⟨rfl, rfl, ?_, ?_, ?_, ?_, ?_⟩
  · intro h; simp [dispatchOf, h]
  · intro h; simp [dispatchOf, h]
  · intro h; simp [dispatchOf, h]
  · intro h hd; simp [dispatchOf, h, hd]
  · intro h hd; simp [dispatchOf, h, hd]

/-- Witness for C23: a directory scan at the front of the queue is routed to
the directory scan operation. -/
theorem dispatch_step_witness :
    (execNextRequest
        { m_scanRequests := [directoryRequest 4 lib1 ["/music/new"]], m_currentRequestId := -1,
          m_currentRequestFinished := true, m_tracksAddedToLibrary := true, requestId := 5 }).2
      = [Signal.scanDirectory (directoryRequest 4 lib1 ["/music/new"])] :=
  ((dispatch_step
      { m_scanRequests := [directoryRequest 4 lib1 ["/music/new"]], m_currentRequestId := -1,
        m_currentRequestFinished := true, m_tracksAddedToLibrary := true, requestId := 5 }).1
    (directoryRequest 4 lib1 ["/music/new"]) [] rfl).2.2.2.2.2.2 rfl (by decide)

/-- C24. Channel independence: staging into a channel, and a timer event with
the id of that channel's timer (an id that no other channel's timer has),
leave the pending buffers and the timers of the other two channels unchanged;
staging hands nothing to the persistence worker, and the only call of the
timer event is the flush of the channel itself, with that channel's buffer. -/
theorem channel_independence (w : WriteBack) (c : Channel) :
    (∀ (tracks : TrackList) (id : Int) (c2 : Channel), c2 ≠ c →
        (stage w c tracks id).pending c2 = w.pending c2
          ∧ (stage w c tracks id).timer c2 = w.timer c2
          ∧ (channelStep c w (ChannelEvent.stage tracks id)).2 = [])
      ∧ (OwnTimerId w c →
          (timerEvent w (w.timer c).timerId).2 = [flushCall c (w.pending c)]
            ∧ ∀ c2 : Channel, c2 ≠ c →
                (timerEvent w (w.timer c).timerId).1.pending c2 = w.pending c2
                  ∧ (timerEvent w (w.timer c).timerId).1.timer c2 = w.timer c2) := by
  refine ⟨?_, ?_⟩
  · intro tracks id c2 hc2
    have h := (stage_spec w c tracks id).2.2 c2 hc2
    exact ⟨h.1, h.2, rfl⟩
  · intro hown
    have h := timerEvent_channel w c hown
    exact ⟨h.1, h.2.2.2⟩

/-- Witness for C24: the metadata and play-count channels hold data while the
stats timer expires. -/
theorem channel_independence_witness :
    (timerEvent
        (saveUpdatedTrackStats
          (saveUpdatedTrackPlaycounts (writeUpdatedTracks WriteBack.initial [{ id := 1 }] 5)
            [{ id := 3 }] 7)
          [{ id := 2 }] 6) 6).2
      = [DbCall.updateTrackStats [{ id := 2 }] false] :=
  ((channel_independence
      (saveUpdatedTrackStats
        (saveUpdatedTrackPlaycounts (writeUpdatedTracks WriteBack.initial [{ id := 1 }] 5)
          [{ id := 3 }] 7)
        [{ id := 2 }] 6) Channel.stats).2
    (fun c2 hc2 => by cases c2 <;> first | decide | exact absurd rfl hc2)).1

/-! ## No silent stall -/

theorem noStall_exec (s : State) : NoStall (execNextRequest s).1 := by
  intro hq
  rw [execNextRequest_queue] at hq
  cases hs : s.m_scanRequests with
  | nil => exact absurd hs hq
  | cons r q =>
    rw [execNextRequest_cons s r q hs]
    exact Or.inl ⟨r, by simp [hs], rfl⟩

/-- The outcomes of `addTracksScanRequest`, with the condition of the outcome
that only inserts. -/
theorem addTracksScanRequest_inserts (d : Defaults) (s : State) (tracks : TrackList)
    (onlyModified : Bool) :
    ∃ s2 : State,
      s2 = { s with
              m_scanRequests := tracksRequest d s.requestId tracks onlyModified :: s.m_scanRequests
              requestId := s.requestId + 1 } ∧
      (((addTracksScanRequest d s tracks onlyModified).2 = (s2, []) ∧ s.m_scanRequests ≠ []) ∨
        (addTracksScanRequest d s tracks onlyModified).2.1 = (execNextRequest s2).1) := by
  refine ⟨_, rfl, ?_⟩
  have hlen : ∀ x : LibraryScanRequest, ¬ (x :: s.m_scanRequests).length = 1 →
      s.m_scanRequests ≠ [] := by
    intro x h hq
    apply h
    simp [hq]
  unfold addTracksScanRequest tracksRequest
  simp only [nextRequestId]
  split
  · split
    · exact Or.inr rfl
    · split
      · exact Or.inr rfl
      · next h => exact Or.inl ⟨rfl, hlen _ h⟩
  · split
    · exact Or.inr rfl
    · next h => exact Or.inl ⟨rfl, hlen _ h⟩

theorem addFilesScanRequest_inserts (d : Defaults) (s : State) (files : List String) :
    ∃ s2 : State,
      s2 = { s with
              m_scanRequests := filesRequest d s.requestId files :: s.m_scanRequests
              requestId := s.requestId + 1 } ∧
      (((addFilesScanRequest d s files).2 = (s2, []) ∧ s.m_scanRequests ≠ []) ∨
        (addFilesScanRequest d s files).2.1 = (execNextRequest s2).1) := by
  refine ⟨_, rfl, ?_⟩
  have hlen : ∀ x : LibraryScanRequest, ¬ (x :: s.m_scanRequests).length = 1 →
      s.m_scanRequests ≠ [] := by
    intro x h hq
    apply h
    simp [hq]
  unfold addFilesScanRequest filesRequest
  simp only [nextRequestId]
  split
  · split
    · exact Or.inr rfl
    · split
      · exact Or.inr rfl
      · next h => exact Or.inl ⟨rfl, hlen _ h⟩
  · split
    · exact Or.inr rfl
    · next h => exact Or.inl ⟨rfl, hlen _ h⟩

theorem addPlaylistRequest_inserts (d : Defaults) (s : State) (files : List String) :
    ∃ s2 : State,
      s2 = { s with
              m_scanRequests := playlistRequest d s.requestId files :: s.m_scanRequests
              requestId := s.requestId + 1 } ∧
      (((addPlaylistRequest d s files).2 = (s2, []) ∧ s.m_scanRequests ≠ []) ∨
        (addPlaylistRequest d s files).2.1 = (execNextRequest s2).1) := by
  refine ⟨_, rfl, ?_⟩
  have hlen : ∀ x : LibraryScanRequest, ¬ (x :: s.m_scanRequests).length = 1 →
      s.m_scanRequests ≠ [] := by
    intro x h hq
    apply h
    simp [hq]
  unfold addPlaylistRequest playlistRequest
  simp only [nextRequestId]
  split
  · split
    · exact Or.inr rfl
    · split
      · exact Or.inr rfl
      · next h => exact Or.inl ⟨rfl, hlen _ h⟩
  · split
    · exact Or.inr rfl
    · next h => exact Or.inl ⟨rfl, hlen _ h⟩

/-- Inserting a request without dispatching keeps `NoStall` when the queue was
not empty. -/
theorem noStall_insert {s : State} (h : NoStall s) (hq : s.m_scanRequests ≠ [])
    (q : List LibraryScanRequest) (hsub : ∀ x ∈ s.m_scanRequests, x ∈ q) (c : Int) :
    NoStall { s with m_scanRequests := q, requestId := c } := by
  intro _
  rcases h hq with ⟨x, hx, hid⟩ | hfin
  · exact Or.inl ⟨x, hsub x hx, hid⟩
  · exact Or.inr hfin

theorem noStall_step {d : Defaults} {s : State} (hdef : CarriesDefault d s) (h : NoStall s)
    (e : Event) (he : avoidsDefault d e) : NoStall (step d s e).1 := by
  cases e with
  | refreshLibrary library =>
    obtain ⟨s2, hs2, hc⟩ := addLibraryScanRequest_cases s library true
    show NoStall (addLibraryScanRequest s library true).2.1
    rcases hc with ⟨hc, hq⟩ | ⟨hc, _⟩ <;> rw [hc]
    · rw [hs2]
      exact noStall_insert h hq _ (fun x hx => List.mem_append_left _ hx) _
    · exact noStall_exec _
  | scanLibrary library =>
    obtain ⟨s2, hs2, hc⟩ := addLibraryScanRequest_cases s library false
    show NoStall (addLibraryScanRequest s library false).2.1
    rcases hc with ⟨hc, hq⟩ | ⟨hc, _⟩ <;> rw [hc]
    · rw [hs2]
      exact noStall_insert h hq _ (fun x hx => List.mem_append_left _ hx) _
    · exact noStall_exec _
  | directoriesChanged library dirs =>
    obtain ⟨s2, hs2, hc⟩ := addDirectoryScanRequest_cases s library dirs
    show NoStall (addDirectoryScanRequest s library dirs).2.1
    rcases hc with ⟨hc, hq⟩ | ⟨hc, _⟩ <;> rw [hc]
    · rw [hs2]
      exact noStall_insert h hq _ (fun x hx => List.mem_append_left _ hx) _
    · exact noStall_exec _
  | scanTracks tracks onlyModified =>
    obtain ⟨s2, hs2, hc⟩ := addTracksScanRequest_inserts d s tracks onlyModified
    show NoStall (addTracksScanRequest d s tracks onlyModified).2.1
    rcases hc with ⟨hc, hq⟩ | hc <;> rw [hc]
    · rw [hs2]
      exact noStall_insert h hq _ (fun x hx => List.mem_cons_of_mem _ hx) _
    · exact noStall_exec _
  | scanFiles files =>
    obtain ⟨s2, hs2, hc⟩ := addFilesScanRequest_inserts d s files
    show NoStall (addFilesScanRequest d s files).2.1
    rcases hc with ⟨hc, hq⟩ | hc <;> rw [hc]
    · rw [hs2]
      exact noStall_insert h hq _ (fun x hx => List.mem_cons_of_mem _ hx) _
    · exact noStall_exec _
  | loadPlaylist files =>
    obtain ⟨s2, hs2, hc⟩ := addPlaylistRequest_inserts d s files
    show NoStall (addPlaylistRequest d s files).2.1
    rcases hc with ⟨hc, hq⟩ | hc <;> rw [hc]
    · rw [hs2]
      exact noStall_insert h hq _ (fun x hx => List.mem_cons_of_mem _ hx) _
    · exact noStall_exec _
  | finished =>
    show NoStall (finishScanRequest s).1
    unfold finishScanRequest
    split
    · dsimp only
      split
      · exact fun _ => Or.inr rfl
      · exact noStall_exec _
    · exact noStall_exec _
  | progressChanged current file total =>
    show NoStall (updateProgress d s current file total).1
    unfold updateProgress
    split <;> exact h
  | tracksScanned =>
    show NoStall (tracksScanned s).1
    unfold tracksScanned
    dsimp only
    split
    · exact noStall_exec _
    · next hfin =>
      intro hq
      rcases h hq with hcur | hf
      · exact Or.inl hcur
      · exact absurd hf hfin
  | cancel id =>
    show NoStall (cancelScanRequest s id).1
    unfold cancelScanRequest
    split
    · exact h
    · next hne =>
      intro hq
      have hq0 : s.m_scanRequests ≠ [] := by
        intro h0
        apply hq
        show List.filter _ s.m_scanRequests = []
        rw [h0]; rfl
      rcases h hq0 with ⟨x, hx, hid⟩ | hfin
      · refine Or.inl ⟨x, List.mem_filter.2 ⟨hx, ?_⟩, hid⟩
        have : x.id ≠ id := by rw [hid]; exact hne
        simpa using this
      · exact Or.inr hfin
  | libraryRemoved id =>
    have hid : id ≠ d.libraryInfo.id := he
    have hfilter : NoStall
        { s with
          m_scanRequests :=
            s.m_scanRequests.filter (fun pendingRequest => !(pendingRequest.library.id == id)) }
        ∨ ∃ r, currentRequest s = some r ∧ r.type = ScanType.Library ∧ r.library.id = id := by
      by_cases hq0 : s.m_scanRequests = []
      · left
        intro hq
        apply absurd _ hq
        show List.filter _ s.m_scanRequests = []
        rw [hq0]; rfl
      · rcases h hq0 with hcur | hfin
        · cases hc : currentRequest s with
          | none =>
            obtain ⟨x, hx, hxid⟩ := hcur
            exact absurd hxid ((currentRequest_eq_none_iff s).1 hc x hx)
          | some r =>
            have hmem := currentRequest_mem hc
            by_cases hr : r.type = ScanType.Library ∧ r.library.id = id
            · exact Or.inr ⟨r, rfl, hr.1, hr.2⟩
            · left
              intro _
              refine Or.inl ⟨r, List.mem_filter.2 ⟨hmem.1, ?_⟩, hmem.2⟩
              have hne : r.library.id ≠ id := by
                by_cases hty : r.type = ScanType.Library
                · exact fun hrid => hr ⟨hty, hrid⟩
                · rw [hdef r hmem.1 hty]
                  exact fun hrid => hid hrid.symm
              simpa using hne
        · exact Or.inl (fun _ => Or.inr hfin)
    show NoStall (libraryRemoved s id).1
    unfold libraryRemoved
    split
    · exact h
    · split
      · split
        · exact h
        · next hnot =>
          rcases hfilter with hf | ⟨r, hr, hty, hrid⟩
          · exact hf
          · rename_i r0 hr0
            rw [hr0] at hr
            cases hr
            exact absurd ⟨hty, hrid⟩ hnot
      · next hnone =>
        rcases hfilter with hf | ⟨r, hr, _, _⟩
        · exact hf
        · rw [hnone] at hr
          cases hr

theorem carriesDefault_step {d : Defaults} {s : State} (hdef : CarriesDefault d s) (e : Event) :
    CarriesDefault d (step d s e).1 := by
  have hsub : (step d s e).1.m_scanRequests.Sublist s.m_scanRequests →
      CarriesDefault d (step d s e).1 := fun hs x hx => hdef x (hs.subset hx)
  have hback : ∀ n : LibraryScanRequest, n.type = ScanType.Library →
      (step d s e).1.m_scanRequests = s.m_scanRequests ++ [n] →
      CarriesDefault d (step d s e).1 := by
    intro n hn hq x hx hty
    rw [hq] at hx
    rcases List.mem_append.1 hx with hx | hx
    · exact hdef x hx hty
    · simp only [List.mem_singleton] at hx
      rw [hx] at hty
      exact absurd hn hty
  have hfront : ∀ n : LibraryScanRequest, n.library = d.libraryInfo →
      (step d s e).1.m_scanRequests = n :: s.m_scanRequests →
      CarriesDefault d (step d s e).1 := by
    intro n hn hq x hx hty
    rw [hq] at hx
    rcases List.mem_cons.1 hx with hx | hx
    · rw [hx]; exact hn
    · exact hdef x hx hty
  cases e with
  | refreshLibrary library => exact hback _ rfl (addLibraryScanRequest_queue s library true)
  | scanLibrary library => exact hback _ rfl (addLibraryScanRequest_queue s library false)
  | directoriesChanged library dirs =>
    exact hback _ rfl (addDirectoryScanRequest_queue s library dirs)
  | scanTracks tracks onlyModified =>
    exact hfront _ rfl (addTracksScanRequest_queue d s tracks onlyModified)
  | scanFiles files => exact hfront _ rfl (addFilesScanRequest_queue d s files)
  | loadPlaylist files => exact hfront _ rfl (addPlaylistRequest_queue d s files)
  | finished =>
    apply hsub
    show (finishScanRequest s).1.m_scanRequests.Sublist _
    unfold finishScanRequest
    split
    · dsimp only
      split
      · exact List.filter_sublist _
      · rw [execNextRequest_queue]; exact List.filter_sublist _
    · rw [execNextRequest_queue]
  | progressChanged current file total =>
    apply hsub
    show (updateProgress d s current file total).1.m_scanRequests.Sublist _
    unfold updateProgress
    split <;> exact List.Sublist.refl _
  | tracksScanned =>
    apply hsub
    show (tracksScanned s).1.m_scanRequests.Sublist _
    unfold tracksScanned
    dsimp only
    split
    · rw [execNextRequest_queue]
    · exact List.Sublist.refl _
  | cancel id =>
    apply hsub
    show (cancelScanRequest s id).1.m_scanRequests.Sublist _
    unfold cancelScanRequest
    split
    · exact List.Sublist.refl _
    · exact List.filter_sublist _
  | libraryRemoved id =>
    apply hsub
    show (libraryRemoved s id).1.m_scanRequests.Sublist _
    unfold libraryRemoved
    split
    · exact List.Sublist.refl _
    · split
      · split
        · exact List.Sublist.refl _
        · exact List.filter_sublist _
      · exact List.filter_sublist _

theorem noStall_run (d : Defaults) (es : List Event) :
    ∀ s : State, CarriesDefault d s → NoStall s → (∀ e ∈ es, avoidsDefault d e) →
      NoStall (run d s es) := by
  induction es with
  | nil => intro s _ h _; exact h
  | cons e es ih =>
    intro s hdef h hes
    exact ih (step d s e).1 (carriesDefault_step hdef e)
      (noStall_step hdef h e (hes e (List.mem_cons_self _ _)))
      (fun e2 he2 => hes e2 (List.mem_cons_of_mem _ he2))

/-- C25. No silent stall: in every state reached from the constructed state by
enqueue operations, finish events, tracks-ingested events, progress events,
`cancel(id)` and `libraryRemoved(l)` with `l` different from the id of the
default-constructed library info carried by Tracks, Files and Playlist
requests, if the queue is not empty then the current request id belongs to a
queued request or the request-finished flag is set. -/
theorem no_silent_stall (d : Defaults) (es : List Event)
    (hes : ∀ e ∈ es, avoidsDefault d e) :
    (run d State.initial es).m_scanRequests ≠ [] →
      (∃ x ∈ (run d State.initial es).m_scanRequests,
          x.id = (run d State.initial es).m_currentRequestId)
        ∨ (run d State.initial es).m_currentRequestFinished = true :=
  noStall_run d es State.initial (fun _ hx => nomatch hx) (fun h => absurd rfl h) hes

/-- Witness for C25: after a file scan has preempted a library scan and
finished without ingestion, and library 2 has been removed, the library scan
waits with the request-finished flag set. -/
theorem no_silent_stall_witness :
    (run dflt State.initial
        [Event.scanLibrary lib1, Event.scanFiles ["f1"], Event.finished,
          Event.libraryRemoved 2]).m_scanRequests = [libraryRequest 0 lib1 false]
      ∧ ((∃ x ∈ (run dflt State.initial
              [Event.scanLibrary lib1, Event.scanFiles ["f1"], Event.finished,
                Event.libraryRemoved 2]).m_scanRequests,
            x.id = (run dflt State.initial
              [Event.scanLibrary lib1, Event.scanFiles ["f1"], Event.finished,
                Event.libraryRemoved 2]).m_currentRequestId)
        ∨ (run dflt State.initial
              [Event.scanLibrary lib1, Event.scanFiles ["f1"], Event.finished,
                Event.libraryRemoved 2]).m_currentRequestFinished = true) :=
  ⟨rfl,
    no_silent_stall dflt
      [Event.scanLibrary lib1, Event.scanFiles ["f1"], Event.finished, Event.libraryRemoved 2]
      (by
        intro e he
        simp only [List.mem_cons, List.mem_singleton, List.not_mem_nil, or_false] at he
        rcases he with he | he | he | he <;> subst he
        · trivial
        · trivial
        · trivial
        · show (2 : Int) ≠ dflt.libraryInfo.id
          decide)
      (by decide)⟩

/-! ## ReplayGain memory cache -/

theorem clamp_bounds (v lo hi : Int) (h : lo ≤ hi) : lo ≤ clamp v lo hi ∧ clamp v lo hi ≤ hi := by
  unfold clamp
  split
  · exact ⟨le_refl _, h⟩
  · split
    · exact ⟨h, le_refl _⟩
    · constructor <;> omega

theorem cacheInv_constructed : CacheInv MemoryCache.constructed :=
  ⟨by decide, by decide, by decide, fun _ => ⟨rfl, rfl⟩⟩

theorem cacheInv_updateConfig {m : MemoryCache} (h : CacheInv m) (enabled : Bool) (ratio : Int)
    (totalRam : Nat) (scaled : Int) : CacheInv (m.updateConfig enabled ratio totalRam scaled) := by
  unfold MemoryCache.updateConfig
  split
  · exact ⟨le_refl _, le_refl _, (by decide : (0 : Int) ≤ MaxCacheBytes), fun _ => ⟨rfl, rfl⟩⟩
  · next hoff =>
    dsimp only
    have hlim := clamp_bounds
      (if totalRam > 0 then scaled
        else (8 * 1024 * 1024 * 1024) * clamp ratio 1 MaxMemoryCacheRatio / 100)
      0 MaxCacheBytes (by decide)
    have hratio := clamp_bounds ratio 1 MaxMemoryCacheRatio (by decide)
    have hres := h.reserved_nonneg
    refine ⟨?_, ?_, hlim.2, ?_⟩
    · exact le_min hres hlim.1
    · exact min_le_right _ _
    · intro hdis
      rcases hdis with hdis | hdis
      · exact absurd (Or.inl hdis) hoff
      · have : (1 : Int) ≤ clamp ratio 1 MaxMemoryCacheRatio := hratio.1
        have hdis2 : clamp ratio 1 MaxMemoryCacheRatio ≤ 0 := hdis
        omega

theorem cacheInv_release {m : MemoryCache} (h : CacheInv m) (size : Int) :
    CacheInv (m.release size) := by
  unfold MemoryCache.release
  split
  · exact h
  · next hsize =>
    have h1 := h.reserved_nonneg
    have h2 := h.reserved_le
    refine ⟨le_max_left _ _, ?_, h.limit_le, ?_⟩
    · show max 0 (m.m_reservedBytes - size) ≤ m.m_limitBytes
      apply max_le <;> omega
    · intro hoff
      have := h.off hoff
      refine ⟨this.1, ?_⟩
      show max 0 (m.m_reservedBytes - size) = 0
      rw [this.2]
      apply max_eq_left
      omega

theorem cacheInv_tryReserve {m : MemoryCache} (h : CacheInv m) (size : Int) (hsize : 0 < size) :
    CacheInv (m.tryReserve size).2 := by
  unfold MemoryCache.tryReserve
  split
  · exact h
  · next hon =>
    split
    · exact h
    · split
      · exact h
      · next hfit =>
        have h1 := h.reserved_nonneg
        refine ⟨?_, ?_, h.limit_le, ?_⟩
        · show 0 ≤ m.m_reservedBytes + size
          omega
        · show m.m_reservedBytes + size ≤ m.m_limitBytes
          omega
        · intro hoff
          have := h.off hoff
          exact absurd (Or.inr (le_of_eq this.1)) hon

theorem cacheInv_run (ops : List CacheOp) :
    ∀ m : MemoryCache, CacheInv m → (∀ op ∈ ops, op.positive) → CacheInv (cacheRun m ops) := by
  induction ops with
  | nil => intro m h _; exact h
  | cons op ops ih =>
    intro m h hops
    have hstep : CacheInv (cacheStep m op) := by
      cases op with
      | updateConfig enabled ratio totalRam scaled =>
        exact cacheInv_updateConfig h enabled ratio totalRam scaled
      | tryReserve size =>
        exact cacheInv_tryReserve h size (hops _ (List.mem_cons_self _ _))
      | release size => exact cacheInv_release h size
    exact ih _ hstep (fun op2 hop2 => hops op2 (List.mem_cons_of_mem _ hop2))

/-- C26. ReplayGain memory-cache accounting invariant: starting from the
constructed state (limit 0, reserved 0) and after any sequence of
`updateConfig(enabled, ratio)`, `tryReserve(size)` with `size > 0` and
`release(size)`, whatever `totalSystemMemory` returns and whatever the
floating-point scaling yields, `0 <= reservedBytes <= limitBytes <= 2 GiB`,
and when the cache is disabled or its ratio is not positive both are 0;
`updateConfig` with `enabled` false or `ratio <= 0` sets both to 0; and in
every state `tryReserve` returns true only if the cache is enabled, `limitBytes
> 0` and `reservedBytes + size <= limitBytes` beforehand, and then adds exactly
`size` to `reservedBytes` and changes nothing else. -/
theorem memory_cache_accounting (ops : List CacheOp) (hops : ∀ op ∈ ops, op.positive) :
    (0 ≤ (cacheRun MemoryCache.constructed ops).m_reservedBytes
        ∧ (cacheRun MemoryCache.constructed ops).m_reservedBytes
            ≤ (cacheRun MemoryCache.constructed ops).m_limitBytes
        ∧ (cacheRun MemoryCache.constructed ops).m_limitBytes ≤ 2 * 1024 * 1024 * 1024
        ∧ ((cacheRun MemoryCache.constructed ops).m_enabled = false
              ∨ (cacheRun MemoryCache.constructed ops).m_ratio ≤ 0 →
            (cacheRun MemoryCache.constructed ops).m_limitBytes = 0
              ∧ (cacheRun MemoryCache.constructed ops).m_reservedBytes = 0))
      ∧ (∀ (m : MemoryCache) (enabled : Bool) (ratio : Int) (totalRam : Nat) (scaled : Int),
          enabled = false ∨ ratio ≤ 0 →
            (m.updateConfig enabled ratio totalRam scaled).m_limitBytes = 0
              ∧ (m.updateConfig enabled ratio totalRam scaled).m_reservedBytes = 0)
      ∧ (∀ (m : MemoryCache) (size : Int), (m.tryReserve size).1 = true →
          m.m_enabled = true ∧ 0 < m.m_limitBytes
            ∧ m.m_reservedBytes + size ≤ m.m_limitBytes
            ∧ (m.tryReserve size).2 = { m with m_reservedBytes := m.m_reservedBytes + size }) := by
  have hinv := cacheInv_run ops MemoryCache.constructed cacheInv_constructed hops
  refine ⟨⟨hinv.reserved_nonneg, hinv.reserved_le, hinv.limit_le, hinv.off⟩, ?_, ?_⟩
  · intro m enabled ratio totalRam scaled hoff
    unfold MemoryCache.updateConfig
    rw [if_pos hoff]
    exact ⟨rfl, rfl⟩
  · intro m size hres
    unfold MemoryCache.tryReserve at hres ⊢
    split at hres
    · cases hres
    · next hon =>
      split at hres
      · cases hres
      · split at hres
        · cases hres
        · next hbig hfit =>
          rw [if_neg hon, if_neg hbig, if_neg hfit]
          refine ⟨?_, ?_, ?_, rfl⟩
          · cases hen : m.m_enabled with
            | true => rfl
            | false => exact absurd (Or.inl hen) hon
          · by_contra hle
            exact hon (Or.inr (by omega))
          · omega

/-- Witness for C26: the cache is enabled at 50 percent of 1000 bytes of
memory, 300 bytes are reserved, a second reservation of 300 bytes is refused,
100 bytes are released and the ratio is lowered to 10 percent. -/
theorem memory_cache_accounting_witness :
    cacheRun MemoryCache.constructed
        [CacheOp.updateConfig true 50 1000 500, CacheOp.tryReserve 300, CacheOp.tryReserve 300,
          CacheOp.release 100, CacheOp.updateConfig true 10 1000 100]
      = { m_limitBytes := 100, m_reservedBytes := 100, m_enabled := true, m_ratio := 10 }
      ∧ (cacheRun MemoryCache.constructed
          [CacheOp.updateConfig true 50 1000 500, CacheOp.tryReserve 300, CacheOp.tryReserve 300,
            CacheOp.release 100, CacheOp.updateConfig true 10 1000 100]).m_reservedBytes
        ≤ (cacheRun MemoryCache.constructed
          [CacheOp.updateConfig true 50 1000 500, CacheOp.tryReserve 300, CacheOp.tryReserve 300,
            CacheOp.release 100, CacheOp.updateConfig true 10 1000 100]).m_limitBytes :=
  ⟨by decide,
    (memory_cache_accounting
      [CacheOp.updateConfig true 50 1000 500, CacheOp.tryReserve 300, CacheOp.tryReserve 300,
        CacheOp.release 100, CacheOp.updateConfig true 10 1000 100]
      (by
        intro op hop
        simp only [List.mem_cons, List.mem_singleton, List.not_mem_nil, or_false] at hop
        rcases hop with h | h | h | h | h <;> subst h <;>
          first | trivial | (show (0 : Int) < 300; decide))).1.2.1⟩

/-! ## Log model -/

/-- C27, evaluated at the failing input. The model holds two entries and its
limit is 2 (set on the constructed model, then two single insertions). Batch
insertion of one further entry leaves the model unchanged, that is, discards
the new entry, whereas single insertion of the same entry discards the oldest
stored entry and appends the new one. -/
theorem addEntries_drops_new_entries :
    logRun id (LogModel.setMaxEntries LogModel.constructed 2)
        [LogOp.addEntry { category := "", message := "a" },
          LogOp.addEntry { category := "", message := "b" }]
        = { m_items := [{ category := "", message := "a" }, { category := "", message := "b" }],
            m_maxEntries := 2 }
      ∧ LogModel.addEntries id
          { m_items := [{ category := "", message := "a" }, { category := "", message := "b" }],
            m_maxEntries := 2 }
          [{ category := "", message := "c" }]
        = { m_items := [{ category := "", message := "a" }, { category := "", message := "b" }],
            m_maxEntries := 2 }
      ∧ addEach id
          { m_items := [{ category := "", message := "a" }, { category := "", message := "b" }],
            m_maxEntries := 2 }
          [{ category := "", message := "c" }]
        = { m_items := [{ category := "", message := "b" }, { category := "", message := "c" }],
            m_maxEntries := 2 } := by
  refine ⟨?_, ?_, ?_⟩ <;> decide

theorem addEntry_length_le (split : ConsoleEntry → ConsoleEntry) (m : LogModel)
    (entry : ConsoleEntry) (hmax : 0 < m.m_maxEntries)
    (hlen : (m.m_items.length : Int) ≤ m.m_maxEntries) :
    (m.addEntry split entry).m_maxEntries = m.m_maxEntries
      ∧ ((m.addEntry split entry).m_items.length : Int) ≤ m.m_maxEntries := by
  unfold LogModel.addEntry
  dsimp only
  refine ⟨rfl, ?_⟩
  split
  · next h =>
    rw [List.length_append, List.length_tail, List.length_singleton]
    have hpos : 0 < m.m_items.length := by omega
    omega
  · next h =>
    rw [List.length_append, List.length_singleton]
    have : ¬ (m.m_items.length : Int) ≥ m.m_maxEntries := fun hge => h ⟨hmax, hge⟩
    omega

theorem addEntries_length_le (split : ConsoleEntry → ConsoleEntry) (m : LogModel)
    (entries : List ConsoleEntry) (hmax : 0 < m.m_maxEntries)
    (hlen : (m.m_items.length : Int) ≤ m.m_maxEntries) :
    (m.addEntries split entries).m_maxEntries = m.m_maxEntries
      ∧ ((m.addEntries split entries).m_items.length : Int) ≤ m.m_maxEntries := by
  have hav : max 0 (m.m_maxEntries - (m.m_items.length : Int))
      = m.m_maxEntries - (m.m_items.length : Int) := by
    apply max_eq_right
    omega
  unfold LogModel.addEntries
  by_cases he : entries = []
  · rw [if_pos he]
    exact ⟨rfl, hlen⟩
  · rw [if_neg he]
    dsimp only
    refine ⟨rfl, ?_⟩
    rw [if_pos hmax, hav]
    split_ifs with h1 h2 h3
    · simp only [List.length_append, List.length_drop, List.length_map] at h2 ⊢
      push_cast at h2 ⊢
      omega
    · simp only [List.length_append, List.length_drop, List.length_map] at h2 ⊢
      push_cast at h2 ⊢
      omega
    · simp only [List.length_append, List.length_drop, List.length_map] at h3 ⊢
      push_cast at h3 ⊢
      have := h3.2
      have hn : ¬ ((entries.length : Int) > m.m_maxEntries - (m.m_items.length : Int)) := by
        intro hgt
        apply h1
        refine ⟨hmax, ?_⟩
        simpa using hgt
      omega
    · simp only [List.length_append, List.length_map] at h3 ⊢
      push_cast at h3 ⊢
      have hn : ¬ ((entries.length : Int) > m.m_maxEntries - (m.m_items.length : Int)) := by
        intro hgt
        apply h1
        refine ⟨hmax, ?_⟩
        simpa using hgt
      omega

theorem logRun_length_le (split : ConsoleEntry → ConsoleEntry) (ops : List LogOp) :
    ∀ m : LogModel, 0 < m.m_maxEntries → (m.m_items.length : Int) ≤ m.m_maxEntries →
      (logRun split m ops).m_maxEntries = m.m_maxEntries
        ∧ ((logRun split m ops).m_items.length : Int) ≤ m.m_maxEntries := by
  induction ops with
  | nil => intro m _ hlen; exact ⟨rfl, hlen⟩
  | cons op ops ih =>
    intro m hmax hlen
    have hstep : (logStep split m op).m_maxEntries = m.m_maxEntries
        ∧ ((logStep split m op).m_items.length : Int) ≤ m.m_maxEntries := by
      cases op with
      | addEntry entry => exact addEntry_length_le split m entry hmax hlen
      | addEntries entries => exact addEntries_length_le split m entries hmax hlen
    have hrec := ih (logStep split m op) (by rw [hstep.1]; exact hmax)
      (by rw [hstep.1]; exact hstep.2)
    rw [hstep.1] at hrec
    exact hrec

/-- C28. Log model size bound: for every `m > 0`, `setMaxEntries(m)` on any
model state with `n` stored entries keeps exactly the newest `min(m, n)` of
them, in order, and after it and any sequence of `addEntry` and `addEntries`
calls the number of stored entries does not exceed `m`. -/
theorem log_size_bound (split : ConsoleEntry → ConsoleEntry) (model : LogModel) (m : Int)
    (ops : List LogOp) (hm : 0 < m) :
    (model.setMaxEntries m).m_items
        = model.m_items.drop (model.m_items.length - min m.toNat model.m_items.length)
      ∧ (model.setMaxEntries m).m_items.length = min m.toNat model.m_items.length
      ∧ (model.setMaxEntries m).m_maxEntries = m
      ∧ ((logRun split (model.setMaxEntries m) ops).m_items.length : Int) ≤ m := by
  have hset : (model.setMaxEntries m).m_items
      = model.m_items.drop (model.m_items.length - min m.toNat model.m_items.length) := by
    unfold LogModel.setMaxEntries
    split
    · next h =>
      show List.drop _ _ = List.drop _ _
      congr 1
      have := h.2
      omega
    · next h =>
      have hlt : ¬ (model.m_items.length : Int) ≥ m := fun hge => h ⟨hm, hge⟩
      show model.m_items = List.drop _ _
      have hz : model.m_items.length - min m.toNat model.m_items.length = 0 := by omega
      rw [hz, List.drop_zero]
  have hmax : (model.setMaxEntries m).m_maxEntries = m := by
    unfold LogModel.setMaxEntries
    split <;> rfl
  have hlen : (model.setMaxEntries m).m_items.length = min m.toNat model.m_items.length := by
    rw [hset, List.length_drop]
    omega
  refine ⟨hset, hlen, hmax, ?_⟩
  have hrun := logRun_length_le split ops (model.setMaxEntries m) (by rw [hmax]; exact hm)
    (by rw [hmax, hlen]; omega)
  rw [hmax] at hrun
  exact hrun.2

/-- Witness for C28: three entries are stored without limit, the limit is set
to 2, and a batch of two entries and a single entry are inserted. -/
theorem log_size_bound_witness :
    (LogModel.setMaxEntries
        { m_items := [{ category := "", message := "a" }, { category := "", message := "b" },
            { category := "", message := "c" }], m_maxEntries := 0 } 2).m_items
        = [{ category := "", message := "b" }, { category := "", message := "c" }]
      ∧ ((logRun id
          (LogModel.setMaxEntries
            { m_items := [{ category := "", message := "a" }, { category := "", message := "b" },
                { category := "", message := "c" }], m_maxEntries := 0 } 2)
          [LogOp.addEntries [{ category := "", message := "d" }, { category := "", message := "e" }],
            LogOp.addEntry { category := "", message := "f" }]).m_items.length : Int) ≤ 2 :=
  ⟨(log_size_bound id
      { m_items := [{ category := "", message := "a" }, { category := "", message := "b" },
          { category := "", message := "c" }], m_maxEntries := 0 } 2 [] (by decide)).1,
    (log_size_bound id
      { m_items := [{ category := "", message := "a" }, { category := "", message := "b" },
          { category := "", message := "c" }], m_maxEntries := 0 } 2
      [LogOp.addEntries [{ category := "", message := "d" }, { category := "", message := "e" }],
        LogOp.addEntry { category := "", message := "f" }] (by decide)).2.2.2⟩

/-! ## Scan by album tags -/

theorem setAlbumTracks_length (albums : List (String × TrackList)) :
    ∀ (i : Nat) (tracks : TrackList), (setAlbumTracks albums i tracks).length = albums.length := by
  induction albums with
  | nil => intro i tracks; rfl
  | cons entry rest ih =>
    intro i tracks
    cases i with
    | zero => rfl
    | succ i => simp [setAlbumTracks, ih]

/-- The signals of the completion of the remaining `n` album scans: the
`finished` signal is emitted only if the running-watcher counter, incremented
once for each album scan still to be started, is at most 1. -/
theorem finishAlbums_signals (env : RGEnv) (hrun : env.mayRun = true) (n : Nat) :
    ∀ (s : Ebur128Scanner) (sigs : List RGSignal),
      s.m_albums.length = s.m_currentAlbum + (n + 1) →
      ∃ tracks : TrackList,
        (finishAlbums env (n + 1) (s, sigs)).2
          = sigs ++ RGSignal.calculationFinished tracks
              :: (if s.m_runningWatchers + (n : Int) ≤ 1 then [RGSignal.finished] else []) := by
  induction n with
  | zero =>
    intro s sigs hlen
    refine ⟨s.m_scannedTracks
      ++ albumTracks (setAlbumTracks s.m_albums s.m_currentAlbum
          (env.scanned (s.m_albums.getD s.m_currentAlbum ("", [])).2)), ?_⟩
    show sigs ++ (albumFinished env s).2 = _
    unfold albumFinished scanAlbum
    rw [if_pos (by simp only [setAlbumTracks_length]; omega)]
    simp only [hrun, if_true, Int.ofNat_zero, add_zero, List.singleton_append, Nat.cast_zero]
  | succ n ih =>
    intro s sigs hlen
    have hstep : albumFinished env s
        = ({ m_albums :=
              setAlbumTracks s.m_albums s.m_currentAlbum
                (env.scanned (s.m_albums.getD s.m_currentAlbum ("", [])).2)
             m_currentAlbum := s.m_currentAlbum + 1
             m_tracks :=
              ((setAlbumTracks s.m_albums s.m_currentAlbum
                (env.scanned (s.m_albums.getD s.m_currentAlbum ("", [])).2)).getD
                (s.m_currentAlbum + 1) ("", [])).2
             m_scannedTracks := s.m_scannedTracks
             m_runningWatchers := s.m_runningWatchers + 1 }, []) := by
      unfold albumFinished scanAlbum
      rw [if_neg (by simp only [setAlbumTracks_length]; omega)]
    obtain ⟨tracks, htracks⟩ := ih (albumFinished env s).1 (sigs ++ (albumFinished env s).2)
      (by rw [hstep]; simp only [setAlbumTracks_length]; omega)
    refine ⟨tracks, ?_⟩
    show (finishAlbums env (n + 1)
      ((albumFinished env s).1, sigs ++ (albumFinished env s).2)).2 = _
    rw [htracks, hstep]
    simp only [List.append_nil]
    have hcond : (s.m_runningWatchers + 1 + (n : Int) ≤ 1)
        ↔ (s.m_runningWatchers + ((n + 1 : Nat) : Int) ≤ 1) := by
      push_cast
      constructor <;> intro h <;> omega
    simp only [hcond]

/-- On a freshly constructed scanner with `mayRun()` true, a scan by album
tags over at least one album emits `finished` only if there is exactly one
album. -/
theorem scanByAlbumTags_finished_iff (env : RGEnv) (hrun : env.mayRun = true)
    (tracks : TrackList)
    (hk : 1 ≤ (calculateByAlbumTags env Ebur128Scanner.constructed tracks).1.m_albums.length) :
    RGSignal.finished ∈ (scanByAlbumTags env Ebur128Scanner.constructed tracks).2
      ↔ (calculateByAlbumTags env Ebur128Scanner.constructed tracks).1.m_albums.length = 1 := by
  have hcalc : calculateByAlbumTags env Ebur128Scanner.constructed tracks
      = ({ m_albums :=
            tracks.foldl (fun albums track => addToAlbum (env.evaluate track) track albums) []
           m_currentAlbum := 0
           m_tracks :=
            ((tracks.foldl (fun albums track => addToAlbum (env.evaluate track) track albums)
              []).getD 0 ("", [])).2
           m_scannedTracks := []
           m_runningWatchers := 1 }, []) := by
    have hne : ¬ (0 = (tracks.foldl
        (fun albums track => addToAlbum (env.evaluate track) track albums)
        Ebur128Scanner.constructed.m_albums).length) := by
      intro h0
      have hk2 := hk
      unfold calculateByAlbumTags scanAlbum at hk2
      rw [if_pos h0] at hk2
      simp only at hk2
      omega
    unfold calculateByAlbumTags scanAlbum
    rw [if_neg hne]
    rfl
  unfold scanByAlbumTags
  obtain ⟨n, hn⟩ : ∃ n, (calculateByAlbumTags env Ebur128Scanner.constructed tracks).1.m_albums.length
      = n + 1 := ⟨_, (Nat.sub_add_cancel hk).symm⟩
  rw [hn]
  obtain ⟨all, hall⟩ := finishAlbums_signals env hrun n
    (calculateByAlbumTags env Ebur128Scanner.constructed tracks).1
    (calculateByAlbumTags env Ebur128Scanner.constructed tracks).2
    (by rw [hn, hcalc]; simp)
  rw [hall, hcalc]
  simp only [List.nil_append, List.mem_cons]
  constructor
  · intro hmem
    rcases hmem with h | h
    · cases h
    · split at h
      · next hle => omega
      · cases h
  · intro h1
    have : n = 0 := by omega
    subst this
    simp

/-- C29, evaluated at the failing input. Two tracks belong to two different
albums. On a freshly constructed scanner with `mayRun()` true, the two album
scans run one after the other and `calculationFinished` is emitted once with
both tracks, but `finished` is not emitted: the running-watcher counter was
incremented once per album and is decremented once, so it is 2 when it is
tested and 1 afterwards. With a single album the same run emits `finished`. -/
theorem album_tags_scan_never_finishes :
    (calculateByAlbumTags
        { evaluate := fun track => if track.id = 1 then "A" else "B", scanned := id,
          mayRun := true }
        Ebur128Scanner.constructed [{ id := 1 }, { id := 2 }]).1.m_albums
        = [("A", [{ id := 1 }]), ("B", [{ id := 2 }])]
      ∧ (scanByAlbumTags
          { evaluate := fun track => if track.id = 1 then "A" else "B", scanned := id,
            mayRun := true }
          Ebur128Scanner.constructed [{ id := 1 }, { id := 2 }]).2
        = [RGSignal.calculationFinished [{ id := 1 }, { id := 2 }]]
      ∧ (scanByAlbumTags
          { evaluate := fun track => if track.id = 1 then "A" else "B", scanned := id,
            mayRun := true }
          Ebur128Scanner.constructed [{ id := 1 }, { id := 2 }]).1.m_runningWatchers = 1
      ∧ (scanByAlbumTags { evaluate := fun _ => "A", scanned := id, mayRun := true }
          Ebur128Scanner.constructed [{ id := 1 }, { id := 2 }]).2
        = [RGSignal.calculationFinished [{ id := 1 }, { id := 2 }], RGSignal.finished] := by
  refine ⟨?_, ?_, ?_, ?_⟩ <;> decide

/-! ## Playlist population -/

theorem indexFrom_append (a : List PlaylistTrack) :
    ∀ (index : Int) (b : List PlaylistTrack),
      indexFrom index (a ++ b) = indexFrom index a ++ indexFrom (index + (a.length : Int)) b := by
  induction a with
  | nil => intro index b; simp [indexFrom]
  | cons t a ih =>
    intro index b
    have h : index + 1 + (a.length : Int) = index + (((t :: a).length : Nat) : Int) := by
      rw [List.length_cons]; push_cast; omega
    show (t, index) :: indexFrom (index + 1) (a ++ b)
      = (t, index) :: indexFrom (index + 1) a ++ indexFrom (index + ((t :: a).length : Int)) b
    rw [ih, h]
    rfl

theorem indexFrom_length (a : List PlaylistTrack) :
    ∀ index : Int, (indexFrom index a).length = a.length := by
  induction a with
  | nil => intro index; rfl
  | cons t a ih => intro index; simp [indexFrom, ih]

theorem indexFrom_map_fst (a : List PlaylistTrack) :
    ∀ index : Int, (indexFrom index a).map Prod.fst = a := by
  induction a with
  | nil => intro index; rfl
  | cons t a ih => intro index; simp [indexFrom, ih]

/-- With `mayRun()` true, a positive batch size and more fuel than pending
tracks, `runBatch` returns; it leaves no pending track, has iterated the
pending tracks in order with consecutive indices starting at `index`, and
every batch it has emitted covers at most `preloadCount` tracks when
`preloadCount` is positive and the first batch size does not exceed it. -/
theorem runBatch_spec (preloadCount : Int) :
    ∀ (fuel : Nat) (p : Populator) (size index : Int), 0 < size →
      p.m_pendingTracks.length < fuel →
      ∃ q : Populator,
        runBatch true preloadCount fuel p size index = some q
          ∧ q.m_pendingTracks = []
          ∧ q.iterated = p.iterated ++ indexFrom index p.m_pendingTracks
          ∧ (0 < preloadCount → size ≤ preloadCount →
              ∀ b ∈ q.populated, b ∈ p.populated ∨ (b.length : Int) ≤ preloadCount) := by
  intro fuel
  induction fuel with
  | zero => intro p size index _ hfuel; omega
  | succ fuel ih =>
    intro p size index hsize hfuel
    have hbatch : ((indexFrom index (p.m_pendingTracks.take size.toNat)).length : Int) ≤ size := by
      rw [indexFrom_length, List.length_take]
      omega
    unfold runBatch
    rw [if_neg (by omega), if_neg (by simp)]
    dsimp only
    split
    · next hrem =>
      have hrem2 : 0 < (p.m_pendingTracks.drop size.toNat).length := by omega
      have hnext : 0 < (if preloadCount > 0 then
            min preloadCount ((p.m_pendingTracks.drop size.toNat).length : Int)
          else ((p.m_pendingTracks.drop size.toNat).length : Int)) := by
        split
        · next hp => exact lt_min hp (by omega)
        · omega
      have hnextle : 0 < preloadCount →
          (if preloadCount > 0 then
            min preloadCount ((p.m_pendingTracks.drop size.toNat).length : Int)
          else ((p.m_pendingTracks.drop size.toNat).length : Int)) ≤ preloadCount := by
        intro hp
        rw [if_pos hp]
        exact min_le_left _ _
      obtain ⟨q, hq, hpend, hiter, hpop⟩ := ih
        { m_pendingTracks := p.m_pendingTracks.drop size.toNat
          iterated := p.iterated ++ indexFrom index (p.m_pendingTracks.take size.toNat)
          populated := p.populated ++ [indexFrom index (p.m_pendingTracks.take size.toNat)] }
        _ (index + ((p.m_pendingTracks.take size.toNat).length : Int)) hnext
        (by
          show (p.m_pendingTracks.drop size.toNat).length < fuel
          have hlen := List.length_drop size.toNat p.m_pendingTracks
          rw [hlen] at hrem2 ⊢
          omega)
      refine ⟨q, hq, hpend, ?_, ?_⟩
      · rw [hiter]
        show (p.iterated ++ indexFrom index (p.m_pendingTracks.take size.toNat))
            ++ indexFrom (index + ((p.m_pendingTracks.take size.toNat).length : Int))
              (p.m_pendingTracks.drop size.toNat) = _
        rw [List.append_assoc, ← indexFrom_append, List.take_append_drop]
      · intro hp hle b hb
        rcases hpop hp (hnextle hp) b hb with h | h
        · rcases List.mem_append.1 h with h | h
          · exact Or.inl h
          · simp only [List.mem_singleton] at h
            rw [h]
            exact Or.inr (le_trans hbatch hle)
        · exact Or.inr h
    · next hrem =>
      have hdrop : p.m_pendingTracks.drop size.toNat = [] := by
        apply List.eq_nil_of_length_eq_zero
        omega
      have htake : p.m_pendingTracks.take size.toNat = p.m_pendingTracks := by
        have := List.take_append_drop size.toNat p.m_pendingTracks
        rw [hdrop, List.append_nil] at this
        exact this
      refine ⟨_, rfl, hdrop, ?_, ?_⟩
      · show p.iterated ++ indexFrom index (p.m_pendingTracks.take size.toNat) = _
        rw [htake]
      · intro hp hle b hb
        rcases List.mem_append.1 hb with h | h
        · exact Or.inl h
        · simp only [List.mem_singleton] at h
          rw [h]
          exact Or.inr (le_trans hbatch hle)

/-- C30. Playlist population terminates and covers every track: for every
track list of length `N` and every value of `preloadCount` (positive, zero or
negative), with `mayRun()` true throughout, `PlaylistPopulator::run` returns
(the recursion of `runBatch` ends within `N + 1` calls), the pending-track list
is empty afterwards, each track has been iterated exactly once, in list order
and with the consecutive indices `0..N-1`, and when `preloadCount > 0` every
emitted batch covers at most `preloadCount` tracks. -/
theorem playlist_population (preloadCount : Int) (tracks : List PlaylistTrack) (fuel : Nat)
    (hfuel : tracks.length < fuel) :
    ∃ q : Populator,
      PlaylistPopulator.run true preloadCount fuel tracks = some q
        ∧ q.m_pendingTracks = []
        ∧ q.iterated = indexFrom 0 tracks
        ∧ q.iterated.map Prod.fst = tracks
        ∧ (0 < preloadCount → ∀ b ∈ q.populated, (b.length : Int) ≤ preloadCount) := by
  unfold PlaylistPopulator.run
  dsimp only
  by_cases hsize : 0 < (if preloadCount > 0 then preloadCount else (tracks.length : Int))
  · obtain ⟨q, hq, hpend, hiter, hpop⟩ := runBatch_spec preloadCount fuel
      { m_pendingTracks := tracks, iterated := [], populated := [] } _ 0 hsize hfuel
    have hiter2 : q.iterated = indexFrom 0 tracks := by
      rw [hiter]; rfl
    refine ⟨q, hq, hpend, hiter2, ?_, ?_⟩
    · rw [hiter2, indexFrom_map_fst]
    · intro hp b hb
      rcases hpop hp (by rw [if_pos hp]) b hb with h | h
      · cases h
      · exact h
  · have hp : ¬ preloadCount > 0 := by
      intro hp
      rw [if_pos hp] at hsize
      exact hsize hp
    rw [if_neg hp] at hsize ⊢
    have hnil : tracks = [] := by
      apply List.eq_nil_of_length_eq_zero
      omega
    subst hnil
    obtain ⟨n, hn⟩ : ∃ n, fuel = n + 1 := ⟨fuel - 1, by omega⟩
    subst hn
    refine ⟨{ m_pendingTracks := [], iterated := [], populated := [] }, ?_, rfl, rfl, rfl, ?_⟩
    · unfold runBatch
      rw [if_pos (by simp)]
    · intro hp2
      exact absurd hp2 hp

/-- Witness for C30: five tracks with a preload count of 2 are populated in
batches of 2, 2 and 1 tracks. -/
theorem playlist_population_witness :
    PlaylistPopulator.run true 2 6
        [{ track := { id := 10 }, indexInPlaylist := 0 },
          { track := { id := 11 }, indexInPlaylist := 1 },
          { track := { id := 12 }, indexInPlaylist := 2 },
          { track := { id := 13 }, indexInPlaylist := 3 },
          { track := { id := 14 }, indexInPlaylist := 4 }]
      = some
          { m_pendingTracks := []
            iterated :=
              [({ track := { id := 10 }, indexInPlaylist := 0 }, 0),
                ({ track := { id := 11 }, indexInPlaylist := 1 }, 1),
                ({ track := { id := 12 }, indexInPlaylist := 2 }, 2),
                ({ track := { id := 13 }, indexInPlaylist := 3 }, 3),
                ({ track := { id := 14 }, indexInPlaylist := 4 }, 4)]
            populated :=
              [[({ track := { id := 10 }, indexInPlaylist := 0 }, 0),
                  ({ track := { id := 11 }, indexInPlaylist := 1 }, 1)],
                [({ track := { id := 12 }, indexInPlaylist := 2 }, 2),
                  ({ track := { id := 13 }, indexInPlaylist := 3 }, 3)],
                [({ track := { id := 14 }, indexInPlaylist := 4 }, 4)]] }
      ∧ ∃ q : Populator,
          PlaylistPopulator.run true 2 6
              [{ track := { id := 10 }, indexInPlaylist := 0 },
                { track := { id := 11 }, indexInPlaylist := 1 },
                { track := { id := 12 }, indexInPlaylist := 2 },
                { track := { id := 13 }, indexInPlaylist := 3 },
                { track := { id := 14 }, indexInPlaylist := 4 }] = some q
            ∧ q.m_pendingTracks = [] :=
  ⟨by decide,
    (playlist_population 2
      [{ track := { id := 10 }, indexInPlaylist := 0 },
        { track := { id := 11 }, indexInPlaylist := 1 },
        { track := { id := 12 }, indexInPlaylist := 2 },
        { track := { id := 13 }, indexInPlaylist := 3 },
        { track := { id := 14 }, indexInPlaylist := 4 }] 6 (by decide)).imp
      (fun _ h => ⟨h.1, h.2.1⟩)⟩

end Fooyin
